import Mathlib

/-!
# Intel Clanton UART/DMA serial driver: transmit and receive engines

Shallow embedding of `drivers/tty/serial/intel_cln_uart.c`.

Conventions of the embedding.

* C `int` values are unbounded integers (`Int`).  Ring indices stay inside
  `[0, UART_XMIT_SIZE)` in every theorem that depends on arithmetic, so no
  32-bit wrap occurs there; `__u32` statistics counters wrap explicitly
  (`% 2 ^ 32`).
* Memory is a total map from index to byte (`Int → Nat`).
* Everything outside the driver (UART registers, tty layer, DMA engine) is
  a small explicit model kept in the same record as the driver fields, so
  that every function is a pure state transformer.
* A loop that the source does not bound is given fuel and returns `none`
  when the fuel runs out; an arithmetic trap (division by zero) or a read
  beyond an allocated table is `none` as well.
-/

namespace IntelClnUart

/-! ## Constants of headers that are not part of the sources -/

/-- Modelled from the spec: `UART_XMIT_SIZE` (linux/serial_core.h, missing
from the sources) is the size of the "power-of-two-sized byte ring"; the
header defines it as `PAGE_SIZE = 1 << PAGE_SHIFT`, and the exponent is a
parameter of the whole development. -/
def UART_XMIT_SIZE (PAGE_SHIFT : Nat) : Int := 2 ^ PAGE_SHIFT

/-- Modelled from the spec: `UART_TX` (linux/serial_reg.h, missing), offset
of the transmit data register. -/
def UART_TX : Nat := 0

/-- Modelled from the spec: `UART_RX` (linux/serial_reg.h, missing), offset
of the receive data register. -/
def UART_RX : Nat := 0

/-- Modelled from the spec: `UART_IER` (linux/serial_reg.h, missing), offset
of the interrupt-enable register. -/
def UART_IER : Nat := 1

/-- Modelled from the spec: `UART_LSR` (linux/serial_reg.h, missing), offset
of the line-status register. -/
def UART_LSR : Nat := 5

/-- Modelled from the spec: `UART_IER_THRI` (linux/serial_reg.h, missing),
the "transmit holding register empty" interrupt-enable bit. -/
def UART_IER_THRI : Nat := 0x02

/-- Modelled from the spec: `UART_IER_RLSI` (linux/serial_reg.h, missing),
the receiver-line-status interrupt-enable bit. -/
def UART_IER_RLSI : Nat := 0x04

/-- Modelled from the spec: `UART_LSR_DR` (linux/serial_reg.h, missing), the
data-ready bit of the line-status register. -/
def UART_LSR_DR : Nat := 0x01

/-- Modelled from the spec: `EBUSY` (errno.h, missing), the error number
`push_rx` returns as `-EBUSY` when the consumer is unavailable. -/
def EBUSY : Int := 16

/-- `CLN_UART_MODE_MSI` -/
def CLN_UART_MODE_MSI : Nat := 0x00000001

/-- `CLN_UART_MODE_DMA` -/
def CLN_UART_MODE_DMA : Nat := 0x00000002

/-- `CLN_UART_DEFAULT_UARTCLK` -/
def CLN_UART_DEFAULT_UARTCLK : Int := 1843200

/-- `INTEL_CLN_UART_IIR_NOIRQ` -/
def INTEL_CLN_UART_IIR_NOIRQ : Nat := 0x01

/-- `INTEL_CLN_UART_IIR_THRE` -/
def INTEL_CLN_UART_IIR_THRE : Nat := 0x02

/-- `INTEL_CLN_UART_IIR_RXD` -/
def INTEL_CLN_UART_IIR_RXD : Nat := 0x04

/-- `INTEL_CLN_UART_IIR_RLS` -/
def INTEL_CLN_UART_IIR_RLS : Nat := 0x06

/-- `INTEL_CLN_UART_IIR_BUSY` -/
def INTEL_CLN_UART_IIR_BUSY : Nat := 0x07

/-- `INTEL_CLN_UART_IIR_TO` -/
def INTEL_CLN_UART_IIR_TO : Nat := 0x08

/-- Modelled from the spec: `UART_IIR` (linux/serial_reg.h, missing), offset
of the interrupt-identification register (read side of offset 2). -/
def UART_IIR : Nat := 2

/-- Modelled from the spec: `UART_FCR` (linux/serial_reg.h, missing), offset
of the FIFO control register (write side of offset 2). -/
def UART_FCR : Nat := 2

/-- Modelled from the spec: `UART_MSR` (linux/serial_reg.h, missing), offset
of the modem-status register. -/
def UART_MSR : Nat := 6

/-- Modelled from the spec: `UART_FCR_ENABLE_FIFO` (linux/serial_reg.h,
missing), the FIFO-enable bit. -/
def UART_FCR_ENABLE_FIFO : Nat := 0x01

/-- Modelled from the spec: `UART_FCR_CLEAR_RCVR` (linux/serial_reg.h,
missing), the bit that resets the RX FIFO. -/
def UART_FCR_CLEAR_RCVR : Nat := 0x02

/-- Modelled from the spec: `UART_FCR_DMA_SELECT` (linux/serial_reg.h,
missing), the DMA-select bit. -/
def UART_FCR_DMA_SELECT : Nat := 0x08

/-- Modelled from the spec: `UART_FCR_T_TRIG_11` (linux/serial_reg.h,
missing), the transmit trigger level field. -/
def UART_FCR_T_TRIG_11 : Nat := 0x30

/-- Modelled from the spec: `UART_FCR_R_TRIG_11` (linux/serial_reg.h,
missing), the receive trigger level field. -/
def UART_FCR_R_TRIG_11 : Nat := 0xc0

/-- Modelled from the spec: `UART_LSR_OE` (linux/serial_reg.h, missing), the
overrun bit of the line-status register. -/
def UART_LSR_OE : Nat := 0x02

/-- Modelled from the spec: `UART_LSR_PE` (linux/serial_reg.h, missing), the
parity bit of the line-status register. -/
def UART_LSR_PE : Nat := 0x04

/-- Modelled from the spec: `UART_LSR_FE` (linux/serial_reg.h, missing), the
framing bit of the line-status register. -/
def UART_LSR_FE : Nat := 0x08

/-- Modelled from the spec: `UART_LSR_FIFOE` (linux/serial_reg.h, missing),
the FIFO-error bit of the line-status register. -/
def UART_LSR_FIFOE : Nat := 0x80

/-- Modelled from the spec: `UART_MSR_DCTS` (linux/serial_reg.h, missing),
the CTS-changed bit of the modem-status register. -/
def UART_MSR_DCTS : Nat := 0x01

/-- Modelled from the spec: `UART_MSR_DDSR` (linux/serial_reg.h, missing),
the DSR-changed bit of the modem-status register. -/
def UART_MSR_DDSR : Nat := 0x02

/-- Modelled from the spec: `UART_MSR_TERI` (linux/serial_reg.h, missing),
the ring-indicator trailing-edge bit of the modem-status register. -/
def UART_MSR_TERI : Nat := 0x04

/-- Modelled from the spec: `UART_MSR_DDCD` (linux/serial_reg.h, missing),
the DCD-changed bit of the modem-status register. -/
def UART_MSR_DDCD : Nat := 0x08

/-- Modelled from the spec: `UART_MSR_ANY_DELTA` (linux/serial_reg.h,
missing), the four "delta" bits of the modem-status register. -/
def UART_MSR_ANY_DELTA : Nat := 0x0f

/-- Modelled from the spec: `UART_MSR_CTS` (linux/serial_reg.h, missing), the
CTS level bit of the modem-status register. -/
def UART_MSR_CTS : Nat := 0x10

/-- Modelled from the spec: `UART_MSR_DCD` (linux/serial_reg.h, missing), the
DCD level bit of the modem-status register. -/
def UART_MSR_DCD : Nat := 0x80

/-- Modelled from the spec: `IRQ_HANDLED` (linux/irqreturn.h, missing), the
value the interrupt handler returns for a serviced interrupt. -/
def IRQ_HANDLED : Nat := 1

/-- Modelled from the spec: `UPF_LOW_LATENCY` (linux/serial_core.h, missing),
the "low-latency" flag of a port-open request, `1 << 13`. -/
def UPF_LOW_LATENCY : Nat := 2 ^ 13

/-- Modelled from the spec: `UART_DLL` (linux/serial_reg.h, missing), offset of the low byte of the divisor latch (with the divisor-latch-access bit set). -/
def UART_DLL : Nat := 0

/-- Modelled from the spec: `UART_DLM` (linux/serial_reg.h, missing), offset of the high byte of the divisor latch (with the divisor-latch-access bit set). -/
def UART_DLM : Nat := 1

/-- Modelled from the spec: `UART_LCR` (linux/serial_reg.h, missing), offset of the line-control register. -/
def UART_LCR : Nat := 3

/-- Modelled from the spec: `UART_MCR` (linux/serial_reg.h, missing), offset of the modem-control register. -/
def UART_MCR : Nat := 4

/-- Modelled from the spec: `UART_LCR_WLEN5` (linux/serial_reg.h, missing), the word-length code for 5 bits. -/
def UART_LCR_WLEN5 : Nat := 0x00

/-- Modelled from the spec: `UART_LCR_WLEN6` (linux/serial_reg.h, missing), the word-length code for 6 bits. -/
def UART_LCR_WLEN6 : Nat := 0x01

/-- Modelled from the spec: `UART_LCR_WLEN7` (linux/serial_reg.h, missing), the word-length code for 7 bits. -/
def UART_LCR_WLEN7 : Nat := 0x02

/-- Modelled from the spec: `UART_LCR_WLEN8` (linux/serial_reg.h, missing), the word-length code for 8 bits. -/
def UART_LCR_WLEN8 : Nat := 0x03

/-- Modelled from the spec: `UART_LCR_STOP` (linux/serial_reg.h, missing), the stop bit of the line-control register (two stop bits). -/
def UART_LCR_STOP : Nat := 0x04

/-- Modelled from the spec: `UART_LCR_PARITY` (linux/serial_reg.h, missing), the parity-enable bit of the line-control register. -/
def UART_LCR_PARITY : Nat := 0x08

/-- Modelled from the spec: `UART_LCR_EPAR` (linux/serial_reg.h, missing), the even-parity bit of the line-control register. -/
def UART_LCR_EPAR : Nat := 0x10

/-- Modelled from the spec: `UART_LCR_SBC` (linux/serial_reg.h, missing), the set-break bit of the line-control register. -/
def UART_LCR_SBC : Nat := 0x40

/-- Modelled from the spec: `UART_LCR_DLAB` (linux/serial_reg.h, missing), the divisor-latch-access bit of the line-control register. -/
def UART_LCR_DLAB : Nat := 0x80

/-- Modelled from the spec: `UART_FCR_CLEAR_XMIT` (linux/serial_reg.h, missing), the bit that resets the TX FIFO. -/
def UART_FCR_CLEAR_XMIT : Nat := 0x04

/-- Modelled from the spec: `UART_IER_RDI` (linux/serial_reg.h, missing), the received-data interrupt-enable bit. -/
def UART_IER_RDI : Nat := 0x01

/-- Modelled from the spec: `UART_IER_MSI` (linux/serial_reg.h, missing), the modem-status interrupt-enable bit. -/
def UART_IER_MSI : Nat := 0x08

/-- Modelled from the spec: `UART_IER_RTOIE` (linux/serial_reg.h, missing), the receive-timeout interrupt-enable bit. -/
def UART_IER_RTOIE : Nat := 0x10

/-- Modelled from the spec: `UART_LSR_BI` (linux/serial_reg.h, missing), the break bit of the line-status register. -/
def UART_LSR_BI : Nat := 0x10

/-- Modelled from the spec: `UART_LSR_THRE` (linux/serial_reg.h, missing), the transmit-holding-empty bit of the line-status register. -/
def UART_LSR_THRE : Nat := 0x20

/-- Modelled from the spec: `UART_MCR_DTR` (linux/serial_reg.h, missing), the DTR bit of the modem-control register. -/
def UART_MCR_DTR : Nat := 0x01

/-- Modelled from the spec: `UART_MCR_RTS` (linux/serial_reg.h, missing), the RTS bit of the modem-control register. -/
def UART_MCR_RTS : Nat := 0x02

/-- Modelled from the spec: `UART_MCR_OUT1` (linux/serial_reg.h, missing), the OUT1 bit of the modem-control register. -/
def UART_MCR_OUT1 : Nat := 0x04

/-- Modelled from the spec: `UART_MCR_OUT2` (linux/serial_reg.h, missing), the OUT2 bit of the modem-control register. -/
def UART_MCR_OUT2 : Nat := 0x08

/-- Modelled from the spec: `UART_MCR_LOOP` (linux/serial_reg.h, missing), the loop-back bit of the modem-control register. -/
def UART_MCR_LOOP : Nat := 0x10

/-- Modelled from the spec: `UART_MCR_AFE` (linux/serial_reg.h, missing), the auto-flow-control bit of the modem-control register. -/
def UART_MCR_AFE : Nat := 0x20

/-- Modelled from the spec: `TIOCM_DTR` (asm-generic/termios.h, missing), the DTR modem-control line. -/
def TIOCM_DTR : Nat := 0x002

/-- Modelled from the spec: `TIOCM_RTS` (asm-generic/termios.h, missing), the RTS modem-control line. -/
def TIOCM_RTS : Nat := 0x004

/-- Modelled from the spec: `TIOCM_OUT1` (asm-generic/termios.h, missing), the OUT1 modem-control line. -/
def TIOCM_OUT1 : Nat := 0x2000

/-- Modelled from the spec: `TIOCM_OUT2` (asm-generic/termios.h, missing), the OUT2 modem-control line. -/
def TIOCM_OUT2 : Nat := 0x4000

/-- Modelled from the spec: `TIOCM_LOOP` (asm-generic/termios.h, missing), the loop-back modem-control line. -/
def TIOCM_LOOP : Nat := 0x8000

/-- Modelled from the spec: `IGNBRK` (asm-generic/termbits.h, missing), the ignore-break input flag. -/
def IGNBRK : Nat := 0o1

/-- Modelled from the spec: `BRKINT` (asm-generic/termbits.h, missing), the break-interrupt input flag. -/
def BRKINT : Nat := 0o2

/-- Modelled from the spec: `IGNPAR` (asm-generic/termbits.h, missing), the ignore-parity input flag. -/
def IGNPAR : Nat := 0o4

/-- Modelled from the spec: `PARMRK` (asm-generic/termbits.h, missing), the parity-marking input flag. -/
def PARMRK : Nat := 0o10

/-- Modelled from the spec: `INPCK` (asm-generic/termbits.h, missing), the input-parity-checking input flag. -/
def INPCK : Nat := 0o20

/-- Modelled from the spec: `CSIZE` (asm-generic/termbits.h, missing), the word-length field of the control flags. -/
def CSIZE : Nat := 0o60

/-- Modelled from the spec: `CS5` (asm-generic/termbits.h, missing), the word-length field for 5 bits. -/
def CS5 : Nat := 0o0

/-- Modelled from the spec: `CS6` (asm-generic/termbits.h, missing), the word-length field for 6 bits. -/
def CS6 : Nat := 0o20

/-- Modelled from the spec: `CS7` (asm-generic/termbits.h, missing), the word-length field for 7 bits. -/
def CS7 : Nat := 0o40

/-- Modelled from the spec: `CS8` (asm-generic/termbits.h, missing), the word-length field for 8 bits. -/
def CS8 : Nat := 0o60

/-- Modelled from the spec: `CSTOPB` (asm-generic/termbits.h, missing), the two-stop-bits control flag. -/
def CSTOPB : Nat := 0o100

/-- Modelled from the spec: `CREAD` (asm-generic/termbits.h, missing), the enable-receiver control flag. -/
def CREAD : Nat := 0o200

/-- Modelled from the spec: `PARENB` (asm-generic/termbits.h, missing), the parity-enable control flag. -/
def PARENB : Nat := 0o400

/-- Modelled from the spec: `PARODD` (asm-generic/termbits.h, missing), the odd-parity control flag. -/
def PARODD : Nat := 0o1000

/-- Modelled from the spec: `CLOCAL` (asm-generic/termbits.h, missing), the ignore-modem-lines control flag. -/
def CLOCAL : Nat := 0o4000

/-- Modelled from the spec: `CMSPAR` (asm-generic/termbits.h, missing), the mark/space-parity control flag. -/
def CMSPAR : Nat := 0o10000000000

/-- Modelled from the spec: `CRTSCTS` (asm-generic/termbits.h, missing), the hardware-flow-control control flag. -/
def CRTSCTS : Nat := 0o20000000000

/-- Modelled from the spec: `UPF_HARDPPS_CD` (linux/serial_core.h, missing), the port flag `1 << 11`. -/
def UPF_HARDPPS_CD : Nat := 2 ^ 11

/-- Modelled from the spec: `UPF_BOOT_AUTOCONF` (linux/serial_core.h, missing), the port flag `1 << 28`. -/
def UPF_BOOT_AUTOCONF : Nat := 2 ^ 28

/-! ## Machine arithmetic -/

/-- The C expression `a & ~b` on unsigned values: the bits of `a` that are
not bits of `b`. -/
def and_not (a b : Nat) : Nat := a ^^^ (a &&& b)

/-- The C expression `x & (size - 1)` for a power of two `size` on a
two's-complement `int`: the low bits of `x`, which is the non-negative
remainder of `x` modulo `size`. -/
def and_mask (x size : Int) : Int := x % size

/-- The cast `(int)u` of a 32-bit unsigned value. -/
def int_of_u32 (u : Nat) : Int :=
  if u % 2 ^ 32 < 2 ^ 31 then ((u % 2 ^ 32 : Nat) : Int) else ((u % 2 ^ 32 : Nat) : Int) - 2 ^ 32

/-- Addition on a `__u32` counter. -/
def u32_add (c d : Int) : Int := (c + d) % 2 ^ 32

/-- Modelled from the spec: `CIRC_CNT(head, tail, size)` (linux/circ_buf.h,
missing), the number of bytes pending in the ring:
`((head) - (tail)) & ((size) - 1)`. -/
def CIRC_CNT (head tail size : Int) : Int := and_mask (head - tail) size

/-- Modelled from the spec: `CIRC_CNT_TO_END(head, tail, size)`
(linux/circ_buf.h, missing), "the number of contiguous bytes available
before the ring wraps":
`int end = size - tail; int n = (head + end) & (size - 1); n < end ? n : end`. -/
def CIRC_CNT_TO_END (head tail size : Int) : Int :=
  let e := size - tail
  let n := and_mask (head + e) size
  if n < e then n else e

/-! ## Data model -/

/-- What the driver does to its surroundings during interrupt handling, in
the order it happens: a call of the DMA controller's interrupt handler, a
read of the register at offset 2 with the value read, the `dev_err` for an
unrecognised identification value, the `dev_err` for a line-status error bit,
the reports of DCD and CTS changes to the serial core (with the level
passed), and the wake-up of the waiters on modem-status changes. -/
inductive isr_event where
  | dma_interrupt
  | iir_read (value : Nat)
  | bad_iid (iid : Nat)
  | lsr_error (bit : Nat)
  | dcd_change (status : Nat)
  | cts_change (status : Nat)
  | delta_msr_wakeup
  deriving DecidableEq, Repr

/-- The ring of the serial core, `struct circ_buf`. -/
structure circ_buf where
  buf : Int → Nat
  head : Int
  tail : Int

/-- One scatter-gather entry, `struct scatterlist`.  `offset` and `length`
are the fields set by `sg_set_page`; `dma_length` is `sg_dma_len`.  The bus
address `sg_dma_address` is the bus address of the ring page plus `offset`
(the driver rewrites it to exactly that), so it is not a separate field.
The three fields are `unsigned int` in the source and the driver computes
them from `int` locals; here they are integers, which are the values of the
unsigned fields as long as they are not negative.  That is the case whenever
`tail` is inside the ring; for a `tail` beyond the ring the local `bytes` is
negative and the source stores its value modulo 2^32. -/
structure scatterlist where
  offset : Int
  length : Int
  dma_length : Int
  deriving DecidableEq, Repr

/-- The fields of `struct uart_port` (and of `port->state`) that the engines
use.  `xmit` is `port->state->xmit`, `icount_tx` is `port->icount.tx` (and so
on for the other counters). -/
structure uart_port where
  fifosize : Nat
  uartclk : Int
  x_char : Nat
  icount_tx : Int
  icount_rx : Int
  icount_rng : Int
  icount_dsr : Int
  read_status_mask : Nat
  ignore_status_mask : Nat
  mctrl : Nat
  flags : Nat
  xmit : circ_buf

/-- `struct intel_cln_uart_buffer`: the receive staging buffer. -/
structure intel_cln_uart_buffer where
  buf_virt : Int → Nat
  size : Int

/-- `struct intel_cln_uart` together with the model of its environment.

Driver fields keep their names.  The environment fields are:
* `reg_writes`: every `serial_out`, oldest first, as (offset, byte);
* `rx_fifo`: the bytes waiting in the hardware receive FIFO;
* `lsr_flags`: the line-status bits other than data-ready;
* `rbr_reads`: the bytes returned so far by reads of the receive register;
* `tx_stopped`: `uart_tx_stopped(port)`;
* `write_wakeups`: number of `uart_write_wakeup` calls;
* `tty_present`: whether `tty_port_tty_get` returns a tty;
* `tty_room`: the space the consumer currently offers;
* `tty_flip`: the bytes the consumer has accepted, oldest first;
* `tty_batches`: the batches passed to `tty_insert_flip_string`;
* `tty_pushes`: number of `tty_flip_buffer_push` calls;
* `rx_overrun_warn`: arguments of the "Rx overrun: dropping" warning;
* `tx_descs`: TX descriptor sets submitted to the DMA engine whose
  completion callback has not fired yet, oldest first;
* `rx_descs`: RX descriptors submitted to the DMA engine whose completion
  callback has not fired yet, oldest first;
* `iir_script`: the values the next reads of the register at offset 2
  (interrupt identification) will return; when it is used up the register
  reads "no interrupt pending";
* `msr`: the value a read of the modem-status register returns;
* `events`: the `isr_event`s so far, oldest first. -/
structure intel_cln_uart where
  uartclk : Int
  tx_dma_use : Int
  start_tx : Int
  start_rx : Int
  dma_tx_nent : Int
  tx_empty : Int
  sg_tx_p : List scatterlist
  sg_rx : scatterlist
  rxbuf : intel_cln_uart_buffer
  port : uart_port
  fcr : Nat
  ier : Nat
  lcr : Nat
  mcr : Nat
  tx_trigger_level : Nat
  rx_trigger_level : Nat
  mode : Nat
  reg_writes : List (Nat × Nat)
  rx_fifo : List Nat
  lsr_flags : Nat
  rbr_reads : List Nat
  tx_stopped : Bool
  write_wakeups : Nat
  tty_present : Bool
  tty_room : Nat
  tty_flip : List Nat
  tty_batches : List (List Nat)
  tty_pushes : Nat
  rx_overrun_warn : List Int
  tx_descs : List (List scatterlist)
  rx_descs : List scatterlist
  iir_script : List Nat
  msr : Nat
  events : List isr_event

/-! ## Register access layer -/

/-- `serial_out`: `val = value & 0xff; writeb(val, membase + offset)`. -/
def serial_out (up : intel_cln_uart) (offset : Nat) (value : Nat) : intel_cln_uart :=
  { up with reg_writes := up.reg_writes ++ [(offset, value % 256)] }

/-- `intel_cln_uart_hal_write`: `for (i = 0; i < tx_size;) serial_out(up, UART_TX, buf[i++])`. -/
def intel_cln_uart_hal_write (up : intel_cln_uart) (buf : Int → Nat) (tx_size : Int) :
    intel_cln_uart :=
  (List.range tx_size.toNat).foldl (fun u (i : Nat) => serial_out u UART_TX (buf (i : Int))) up

/-! ## Transmit engine -/

/-- `pop_tx_x`: a pending out-of-band character is stored in `buf[0]` of the
ring storage and cleared; the result says whether there was one. -/
def pop_tx_x (up : intel_cln_uart) : Int × intel_cln_uart :=
  if up.port.x_char ≠ 0 then
    (1, { up with port := { up.port with
            xmit := { up.port.xmit with
              buf := Function.update up.port.xmit.buf 0 up.port.x_char }
            x_char := 0 } })
  else
    (0, up)

/-- First loop of `intel_cln_uart_dma_tx`: the table of `num` entries filled
by `sg_set_page(sg, page, i == num - 1 ? rem : size, fifo_size * i)`. -/
def dma_tx_sg_table (fifo_size size rem num : Int) : List scatterlist :=
  (List.range num.toNat).map fun (i : Nat) =>
    { offset := fifo_size * (i : Int)
      length := if (i : Int) = num - 1 then rem else size
      dma_length := 0 }

/-- Modelled from the spec: `dma_map_sg` of the external DMA service.  It
returns the number of entries it mapped: never more than the `num`
requested, and 0 on failure.  `avail` is what the environment grants. -/
def dma_map_sg (avail : Nat) (num : Int) : Int := min (avail : Int) num

/-- Second loop of `intel_cln_uart_dma_tx`, from entry `i` on: the first
`nent` entries get `offset = (tail & (UART_XMIT_SIZE - 1)) + fifo_size * i`
and `sg_dma_len = (i == nent - 1) ? rem : size`. -/
def dma_tx_sg_fixup (tail_off fifo_size size rem nent : Int) :
    Int → List scatterlist → List scatterlist
  | _, [] => []
  | i, sg :: rest =>
    (if i < nent then
        { sg with offset := tail_off + fifo_size * i
                  dma_length := if i = nent - 1 then rem else size }
      else sg) :: dma_tx_sg_fixup tail_off fifo_size size rem nent (i + 1) rest

/-- The block `up->ier &= ~UART_IER_THRI; serial_out(up, UART_IER, up->ier);`
that the source repeats (marked "TODO: move to function"). -/
def thri_disable (up : intel_cln_uart) : intel_cln_uart :=
  let up := { up with ier := and_not up.ier UART_IER_THRI }
  serial_out up UART_IER up.ier

/-- The block `up->ier |= UART_IER_THRI; serial_out(up, UART_IER, up->ier);`
that the source repeats (marked "TODO: move to function"). -/
def thri_enable (up : intel_cln_uart) : intel_cln_uart :=
  let up := { up with ier := up.ier ||| UART_IER_THRI }
  serial_out up UART_IER up.ier

/-- The state part of
`if (pop_tx_x(up, xmit->buf)) { intel_cln_uart_hal_write(up, xmit->buf, 1); port->icount.tx++; ... }`,
common to both drains; the first component says whether the branch was
taken (the callers then decrement their local `fifo_size`). -/
def tx_send_x_char (up : intel_cln_uart) : Int × intel_cln_uart :=
  let r := pop_tx_x up
  if r.1 ≠ 0 then
    let u := intel_cln_uart_hal_write r.2 r.2.port.xmit.buf 1
    (1, { u with port := { u.port with icount_tx := u32_add u.port.icount_tx 1 } })
  else
    (0, r.2)

/-- The local `fifo_size` of both drains after the out-of-band character:
`max((int)port->fifosize, 1)`, decremented when a character was pending. -/
def tx_fifo_size (up : intel_cln_uart) : Int :=
  let fifo_size := max (int_of_u32 up.port.fifosize) 1
  if up.port.x_char ≠ 0 then fifo_size - 1 else fifo_size

/-- The local `bytes` of `intel_cln_uart_dma_tx`:
`min(CIRC_CNT(head, tail, UART_XMIT_SIZE), CIRC_CNT_TO_END(head, tail, UART_XMIT_SIZE))`. -/
def dma_tx_bytes (PAGE_SHIFT : Nat) (xmit : circ_buf) : Int :=
  min (CIRC_CNT xmit.head xmit.tail (UART_XMIT_SIZE PAGE_SHIFT))
    (CIRC_CNT_TO_END xmit.head xmit.tail (UART_XMIT_SIZE PAGE_SHIFT))

/-- The local `num` of `intel_cln_uart_dma_tx`: the number of entries
requested, `bytes / fifo_size + 1` when `bytes > fifo_size`, else 1. -/
def dma_tx_num (bytes fifo_size : Int) : Int :=
  if bytes > fifo_size then Int.tdiv bytes fifo_size + 1 else 1

/-- The local `size` of `intel_cln_uart_dma_tx`. -/
def dma_tx_size (bytes fifo_size : Int) : Int :=
  if bytes > fifo_size then fifo_size else bytes

/-- The local `rem` of `intel_cln_uart_dma_tx`. -/
def dma_tx_rem (bytes fifo_size : Int) : Int :=
  if bytes > fifo_size then Int.tmod bytes fifo_size else bytes

/-- `intel_cln_uart_dma_tx` from `up->tx_dma_use = 1` to the end: build the
table, map it, rewrite offsets and DMA lengths, prepare and submit the
descriptor.  `avail` and `prep_ok` are the answers of the external DMA
service (`dma_map_sg`, `dmaengine_prep_slave_sg`); `kzalloc` is taken to
succeed. -/
def dma_tx_submit (PAGE_SHIFT : Nat) (avail : Nat) (prep_ok : Bool) (fifo_size bytes : Int)
    (up : intel_cln_uart) : intel_cln_uart :=
  let num := dma_tx_num bytes fifo_size
  let size := dma_tx_size bytes fifo_size
  let rem := dma_tx_rem bytes fifo_size
  let up := { up with tx_dma_use := 1 }
  let up := { up with sg_tx_p := dma_tx_sg_table fifo_size size rem num }
  let nent := dma_map_sg avail num
  if nent = 0 then
    up
  else
    let up := { up with dma_tx_nent := nent }
    let up := { up with
      sg_tx_p := dma_tx_sg_fixup (and_mask up.port.xmit.tail (UART_XMIT_SIZE PAGE_SHIFT))
        fifo_size size rem nent 0 up.sg_tx_p }
    if prep_ok = false then
      up
    else
      let up := { up with tx_descs := up.tx_descs ++ [up.sg_tx_p.take nent.toNat] }
      { up with tx_empty := 0 }

/-- `intel_cln_uart_dma_tx`: start one TX DMA transaction.  The result is
`none` when `bytes / fifo_size` divides by zero. -/
def intel_cln_uart_dma_tx (PAGE_SHIFT : Nat) (avail : Nat) (prep_ok : Bool)
    (up : intel_cln_uart) : Option intel_cln_uart :=
  if up.start_tx = 0 then
    some { thri_disable up with tx_empty := 1 }
  else if up.tx_dma_use ≠ 0 then
    some { thri_disable up with tx_empty := 1 }
  else
    let fifo_size := max (int_of_u32 up.port.fifosize) 1
    let r := tx_send_x_char up
    let fifo_size := if r.1 ≠ 0 then fifo_size - 1 else fifo_size
    let up := r.2
    let bytes := dma_tx_bytes PAGE_SHIFT up.port.xmit
    if bytes = 0 then
      let up := thri_disable up
      some { up with write_wakeups := up.write_wakeups + 1 }
    else if bytes > fifo_size ∧ fifo_size = 0 then
      none
    else
      some (dma_tx_submit PAGE_SHIFT avail prep_ok fifo_size bytes up)

/-- `intel_cln_uart_dma_tx_complete`: the TX DMA completion callback.  It
walks the first `dma_tx_nent` entries of the table at `sg_tx_p`; the result
is `none` when the table has fewer entries.  `kfree(up->sg_tx_p)` leaves an
empty table. -/
def intel_cln_uart_dma_tx_complete (PAGE_SHIFT : Nat) (up : intel_cln_uart) :
    Option intel_cln_uart :=
  if (up.sg_tx_p.length : Int) < up.dma_tx_nent then
    none
  else
    let sgs := up.sg_tx_p.take up.dma_tx_nent.toNat
    let tail := sgs.foldl (fun t sg => t + sg.dma_length) up.port.xmit.tail
    let tx := sgs.foldl (fun c sg => u32_add c sg.dma_length) up.port.icount_tx
    let tail := and_mask tail (UART_XMIT_SIZE PAGE_SHIFT)
    let up := { up with port := { up.port with
                  xmit := { up.port.xmit with tail := tail }
                  icount_tx := tx } }
    let up := { up with tx_dma_use := 0 }
    let up := { up with dma_tx_nent := 0 }
    let up := { up with sg_tx_p := [] }
    some (thri_enable up)

/-- `intel_cln_uart_start_tx`. -/
def intel_cln_uart_start_tx (up : intel_cln_uart) : intel_cln_uart :=
  let up := { up with start_tx := 1 }
  thri_enable up

/-- `intel_cln_uart_stop_tx`. -/
def intel_cln_uart_stop_tx (up : intel_cln_uart) : intel_cln_uart :=
  let up := { up with start_tx := 0 }
  let up := { up with tx_dma_use := 0 }
  thri_disable up

/-- `pop_tx`, body of the `do ... while` loop, `fuel` iterations at most:
write the contiguous chunk `min(size - count, CIRC_CNT_TO_END)` starting at
`buf[tail]`, advance `tail` by it, and repeat
`while (!uart_circ_empty(xmit) && count < size)`. -/
def pop_tx_loop (PAGE_SHIFT : Nat) (size : Int) :
    Nat → Int → intel_cln_uart → Option (Int × intel_cln_uart)
  | 0, _, _ => none
  | fuel + 1, count, up =>
    let xmit := up.port.xmit
    let cnt_to_end := CIRC_CNT_TO_END xmit.head xmit.tail (UART_XMIT_SIZE PAGE_SHIFT)
    let sz := min (size - count) cnt_to_end
    let up := intel_cln_uart_hal_write up (fun i => xmit.buf (xmit.tail + i)) sz
    let up := { up with port := { up.port with
                  xmit := { up.port.xmit with
                    tail := and_mask (xmit.tail + sz) (UART_XMIT_SIZE PAGE_SHIFT) } } }
    let count := count + sz
    if up.port.xmit.head ≠ up.port.xmit.tail ∧ count < size then
      pop_tx_loop PAGE_SHIFT size fuel count up
    else
      some (count, up)

/-- `pop_tx`: send up to `size` ring bytes to the data register; the result
is the number sent.  `none` when the loop does not end within `fuel`
iterations. -/
def pop_tx (PAGE_SHIFT : Nat) (fuel : Nat) (up : intel_cln_uart) (size : Int) :
    Option (Int × intel_cln_uart) :=
  if up.tx_stopped = true ∨ up.port.xmit.head = up.port.xmit.tail ∨ 0 ≥ size then
    some (0, up)
  else
    pop_tx_loop PAGE_SHIFT size fuel 0 up

/-- `intel_cln_uart_tx` after `pop_tx` returned `tx_size`: account the
bytes, store the empty flag, and on empty enable the interrupt and wake the
writer.  `tx_empty` is the local flag before the call of `pop_tx`. -/
def tx_finish (tx_empty tx_size : Int) (up : intel_cln_uart) : intel_cln_uart :=
  let up :=
    if tx_size > 0 then
      { up with port := { up.port with icount_tx := u32_add up.port.icount_tx tx_size } }
    else up
  let tx_empty := if tx_size > 0 then 0 else tx_empty
  let up := { up with tx_empty := tx_empty }
  if tx_empty ≠ 0 then
    let up := thri_enable up
    { up with write_wakeups := up.write_wakeups + 1 }
  else
    up

/-- `intel_cln_uart_tx`: transmit characters in non-DMA mode. -/
def intel_cln_uart_tx (PAGE_SHIFT : Nat) (fuel : Nat) (up : intel_cln_uart) :
    Option intel_cln_uart :=
  if up.start_tx = 0 then
    some { thri_enable up with tx_empty := 1 }
  else
    let fifo_size := max (int_of_u32 up.port.fifosize) 1
    let r := tx_send_x_char up
    let tx_empty : Int := if r.1 ≠ 0 then 0 else 1
    let fifo_size := if r.1 ≠ 0 then fifo_size - 1 else fifo_size
    let up := r.2
    let size := min (up.port.xmit.head - up.port.xmit.tail) fifo_size
    let size := if size < 0 then fifo_size else size
    match pop_tx PAGE_SHIFT fuel up size with
    | none => none
    | some (tx_size, up) => some (tx_finish tx_empty tx_size up)

/-! ## Receive engine -/

/-- Modelled from the spec: the UART "hardware model" behind `serial_in`
(`readb` of a device register).  A read of the line-status register shows
data-ready exactly when the receive FIFO holds a byte; a read of the receive
register takes the oldest byte out of the FIFO (0 when it is empty) and is
recorded in `rbr_reads`.  A read at offset 2 (interrupt identification)
returns the next value of `iir_script`, "no interrupt pending" when there is
none left, and is recorded in `events`; a read of the modem-status register
returns `msr`.  Other registers read as 0 here. -/
def serial_in (up : intel_cln_uart) (offset : Nat) : Nat × intel_cln_uart :=
  if offset = UART_RX then
    match up.rx_fifo with
    | [] => (0, { up with rbr_reads := up.rbr_reads ++ [0] })
    | b :: rest => (b, { up with rx_fifo := rest, rbr_reads := up.rbr_reads ++ [b] })
  else if offset = UART_LSR then
    (and_not up.lsr_flags UART_LSR_DR ||| (if up.rx_fifo = [] then 0 else UART_LSR_DR), up)
  else if offset = UART_IIR then
    match up.iir_script with
    | [] =>
      (INTEL_CLN_UART_IIR_NOIRQ,
        { up with events := up.events ++ [.iir_read INTEL_CLN_UART_IIR_NOIRQ] })
    | v :: rest =>
      (v % 256, { up with iir_script := rest, events := up.events ++ [.iir_read (v % 256)] })
  else if offset = UART_MSR then
    (up.msr % 256, up)
  else
    (0, up)

/-- The `for` loop of `intel_cln_uart_hal_read` from index `i` with the last
line-status value `lsr`.  The first argument bounds the iterations left; the
loop itself stops at `i = rx_size`. -/
def hal_read_loop (rx_size : Int) : Nat → Int → Nat → intel_cln_uart → Int × intel_cln_uart
  | 0, i, _, up => (i, up)
  | n + 1, i, lsr, up =>
    if i < rx_size ∧ lsr &&& UART_LSR_DR ≠ 0 then
      let r := serial_in up UART_RX
      let up := { r.2 with rxbuf := { r.2.rxbuf with
                    buf_virt := Function.update r.2.rxbuf.buf_virt i r.1 } }
      let l := serial_in up UART_LSR
      hal_read_loop rx_size n (i + 1) l.1 l.2
    else
      (i, up)

/-- `intel_cln_uart_hal_read(up, buf, rx_size)` with `buf` the staging buffer
`up->rxbuf.buf_virt` (the only buffer it is called with): read the receive
register into `buf[0 ..]` while `i < rx_size` and data is ready. -/
def intel_cln_uart_hal_read (up : intel_cln_uart) (rx_size : Int) : Int × intel_cln_uart :=
  let l0 := serial_in up UART_LSR
  let l := serial_in l0.2 UART_LSR
  hal_read_loop rx_size rx_size.toNat 0 l.1 l.2

/-- Modelled from the spec: `tty_buffer_request_room` of the consumer, "the
space the consumer currently offers", at most the `size` asked for. -/
def tty_buffer_request_room (up : intel_cln_uart) (size : Int) : Int :=
  min size (up.tty_room : Int)

/-- Modelled from the spec: `tty_insert_flip_string` of the consumer.  The
driver passes the batch `chars[0 .. size)`; the consumer accepts the leading
bytes that fit into the room it offers. -/
def tty_insert_flip_string (up : intel_cln_uart) (chars : Int → Nat) (size : Int) :
    intel_cln_uart :=
  let batch := (List.range size.toNat).map fun (i : Nat) => chars (i : Int)
  let n := min size.toNat up.tty_room
  { up with tty_batches := up.tty_batches ++ [batch]
            tty_flip := up.tty_flip ++ batch.take n
            tty_room := up.tty_room - n }

/-- `push_rx(up, buf, size)` with `buf` the staging buffer: `-EBUSY` when
there is no tty, otherwise the batch goes to the consumer. -/
def push_rx (up : intel_cln_uart) (size : Int) : Int × intel_cln_uart :=
  if up.tty_present = false then
    (-EBUSY, up)
  else
    let up := tty_insert_flip_string up up.rxbuf.buf_virt size
    (0, { up with tty_pushes := up.tty_pushes + 1 })

/-- The `do ... while (rx_size == buf->size)` loop of `intel_cln_uart_rx_to`,
`fuel` iterations at most. -/
def rx_to_loop : Nat → intel_cln_uart → Option intel_cln_uart
  | 0, _ => none
  | fuel + 1, up =>
    let r := intel_cln_uart_hal_read up up.rxbuf.size
    let p := push_rx r.2 r.1
    if p.1 ≠ 0 then
      some p.2
    else if r.1 = p.2.rxbuf.size then
      rx_to_loop fuel p.2
    else
      some p.2

/-- `intel_cln_uart_rx_to`: drain the receive FIFO in PIO mode.  `none` when
the loop does not end within `fuel` iterations. -/
def intel_cln_uart_rx_to (fuel : Nat) (up : intel_cln_uart) : Option intel_cln_uart :=
  if up.start_rx = 0 then
    let up := { up with ier := and_not up.ier UART_IER_RLSI }
    let up := { up with port := { up.port with
                  read_status_mask := and_not up.port.read_status_mask UART_LSR_DR } }
    some (serial_out up UART_IER up.ier)
  else
    rx_to_loop fuel up

/-- `intel_cln_uart_dma_push_rx`: hand the `size` bytes of a completed RX
burst in the staging buffer (`sg_virt(&up->sg_rx)`) to the consumer; the
result is the room the consumer offered. -/
def intel_cln_uart_dma_push_rx (up : intel_cln_uart) (size : Int) : Int × intel_cln_uart :=
  if up.tty_present = false then
    (0, up)
  else
    let room := tty_buffer_request_room up size
    let up :=
      if room < size then { up with rx_overrun_warn := up.rx_overrun_warn ++ [size - room] }
      else up
    if room = 0 then
      (room, up)
    else
      let up := tty_insert_flip_string up up.rxbuf.buf_virt size
      (room, { up with port := { up.port with icount_rx := u32_add up.port.icount_rx room } })

/-- `intel_cln_uart_dma_rx_complete`: the RX DMA completion callback. -/
def intel_cln_uart_dma_rx_complete (up : intel_cln_uart) : intel_cln_uart :=
  if up.tty_present = false then
    up
  else
    let r := intel_cln_uart_dma_push_rx up (int_of_u32 up.rx_trigger_level)
    if r.1 ≠ 0 then { r.2 with tty_pushes := r.2.tty_pushes + 1 } else r.2

/-- `intel_cln_uart_dma_rx`: start one RX DMA transaction.  The single entry
`sg_rx` is set up with `sg_dma_len = rx_trigger_level` (an `unsigned int`)
and the same `length`; its offset is the offset of the staging buffer in its
page, which is 0 for memory from `dma_alloc_coherent`.  `prep_ok` is the
answer of `dmaengine_prep_slave_sg`; when it gives a descriptor, the
descriptor is submitted. -/
def intel_cln_uart_dma_rx (prep_ok : Bool) (up : intel_cln_uart) : intel_cln_uart :=
  let len : Int := ((up.rx_trigger_level % 2 ^ 32 : Nat) : Int)
  let up := { up with sg_rx := { offset := 0, length := len, dma_length := len } }
  if prep_ok = false then
    up
  else
    { up with rx_descs := up.rx_descs ++ [up.sg_rx] }

/-! ## Interrupt coordinator -/

/-- Modelled from the spec: the answers of the external DMA service during
one invocation of the interrupt handler.  `tx_avail` is what `dma_map_sg`
grants, `tx_prep_ok` and `rx_prep_ok` say whether `dmaengine_prep_slave_sg`
gives a descriptor, `tx_done` and `rx_done` say whether the controller has
finished the oldest outstanding TX descriptor set and RX descriptor. -/
structure dma_service where
  tx_avail : Nat
  tx_prep_ok : Bool
  rx_prep_ok : Bool
  tx_done : Bool
  rx_done : Bool
  deriving DecidableEq, Repr

/-- Record one event. -/
def log_event (up : intel_cln_uart) (e : isr_event) : intel_cln_uart :=
  { up with events := up.events ++ [e] }

/-- The statement `if (c) report(e);` of the source, for a report that is
recorded as the event `e`. -/
def log_event_if (c : Bool) (e : isr_event) (up : intel_cln_uart) : intel_cln_uart :=
  if c = true then log_event up e else up

/-- `check_modem_status`: read the modem-status register and report the
changes.  `uart_handle_dcd_change`, `uart_handle_cts_change` (serial core)
and `wake_up_interruptible` are recorded as events. -/
def check_modem_status (up : intel_cln_uart) : intel_cln_uart :=
  let r := serial_in up UART_MSR
  let status := r.1
  let up := r.2
  if status &&& UART_MSR_ANY_DELTA = 0 then
    up
  else
    let up :=
      if status &&& UART_MSR_TERI ≠ 0 then
        { up with port := { up.port with icount_rng := u32_add up.port.icount_rng 1 } }
      else up
    let up :=
      if status &&& UART_MSR_DDSR ≠ 0 then
        { up with port := { up.port with icount_dsr := u32_add up.port.icount_dsr 1 } }
      else up
    let up := log_event_if (decide (status &&& UART_MSR_DDCD ≠ 0))
      (.dcd_change (status &&& UART_MSR_DCD)) up
    let up := log_event_if (decide (status &&& UART_MSR_DCTS ≠ 0))
      (.cts_change (status &&& UART_MSR_CTS)) up
    log_event up .delta_msr_wakeup

/-- `intel_cln_uart_err_ir`: reset the RX FIFO and log each error bit of the
line-status value `lsr` (one `dev_err` per bit that is set). -/
def intel_cln_uart_err_ir (up : intel_cln_uart) (lsr : Nat) : intel_cln_uart :=
  let r := serial_in up UART_FCR
  let up := { r.2 with fcr := r.1 % 256 }
  let up := { up with fcr := up.fcr ||| UART_FCR_CLEAR_RCVR }
  let up := serial_out up UART_FCR up.fcr
  let up := log_event_if (decide (lsr &&& UART_LSR_FIFOE ≠ 0)) (.lsr_error UART_LSR_FIFOE) up
  let up := log_event_if (decide (lsr &&& UART_LSR_FE ≠ 0)) (.lsr_error UART_LSR_FE) up
  let up := log_event_if (decide (lsr &&& UART_LSR_PE ≠ 0)) (.lsr_error UART_LSR_PE) up
  log_event_if (decide (lsr &&& UART_LSR_OE ≠ 0)) (.lsr_error UART_LSR_OE) up

/-- Modelled from the spec: the DMA controller finishing the oldest
outstanding RX descriptor: the descriptor is retired and its completion
callback `intel_cln_uart_dma_rx_complete` runs ("invoked exactly once"); with
nothing outstanding nothing happens. -/
def dma_rx_retire (up : intel_cln_uart) : intel_cln_uart :=
  match up.rx_descs with
  | [] => up
  | _ :: rest => intel_cln_uart_dma_rx_complete { up with rx_descs := rest }

/-- Modelled from the spec: the DMA controller finishing the oldest
outstanding TX descriptor set: the set is retired and its completion callback
`intel_cln_uart_dma_tx_complete` runs; with nothing outstanding nothing
happens. -/
def dma_tx_retire (PAGE_SHIFT : Nat) (up : intel_cln_uart) : Option intel_cln_uart :=
  match up.tx_descs with
  | [] => some up
  | _ :: rest => intel_cln_uart_dma_tx_complete PAGE_SHIFT { up with tx_descs := rest }

/-- Modelled from the spec: `intel_mid_dma_interrupt`, the interrupt handler
of the DMA controller (not part of the sources), which "will run our
asynchronous tx/rx DMA callbacks": the call is recorded, and for each
direction in which the controller has finished the oldest outstanding
submission that submission is retired and its completion callback runs
(RX, channel 0, before TX, channel 1). -/
def intel_mid_dma_interrupt (PAGE_SHIFT : Nat) (dma : dma_service) (up : intel_cln_uart) :
    Option intel_cln_uart :=
  let up := log_event up .dma_interrupt
  let up := if dma.rx_done = true then dma_rx_retire up else up
  if dma.tx_done = true then dma_tx_retire PAGE_SHIFT up else some up

/-- The `switch (iid)` of `intel_cln_uart_isr`: one pass through the body of
the polling loop for the identification value `iid`.  `ret` is the local
`unsigned int ret`; `fuel` bounds the loops of the PIO engines. -/
def isr_case (PAGE_SHIFT fuel : Nat) (dma : dma_service) (iid ret : Nat)
    (up : intel_cln_uart) : Option (Nat × intel_cln_uart) :=
  if iid = INTEL_CLN_UART_IIR_RLS then
    let l := serial_in up UART_LSR
    if l.1 &&& (UART_LSR_FIFOE ||| UART_LSR_FE ||| UART_LSR_PE ||| UART_LSR_OE) ≠ 0 then
      some (ret, intel_cln_uart_err_ir l.2 l.1)
    else
      some (ret, l.2)
  else if iid = INTEL_CLN_UART_IIR_RXD then
    if up.mode &&& CLN_UART_MODE_DMA ≠ 0 then
      some (ret, intel_cln_uart_dma_rx dma.rx_prep_ok up)
    else
      (intel_cln_uart_rx_to fuel up).map fun u => (ret, u)
  else if iid = INTEL_CLN_UART_IIR_TO then
    (intel_cln_uart_rx_to fuel up).map fun u => (ret, u)
  else if iid = INTEL_CLN_UART_IIR_THRE then
    if up.mode &&& CLN_UART_MODE_DMA ≠ 0 then
      (intel_cln_uart_dma_tx PAGE_SHIFT dma.tx_avail dma.tx_prep_ok up).map fun u => (ret, u)
    else
      (intel_cln_uart_tx PAGE_SHIFT fuel up).map fun u => (ret, u)
  else
    some (2 ^ 32 - 1, log_event up (.bad_iid iid))

/-- The polling loop `while ((iid = serial_in(up, UART_IIR)) > 1) { switch ... }`
of `intel_cln_uart_isr`, at most `n` reads of the identification register;
`none` when the loop has not ended by then. -/
def isr_loop (PAGE_SHIFT fuel : Nat) (dma : dma_service) :
    Nat → Nat → intel_cln_uart → Option (Nat × intel_cln_uart)
  | 0, _, _ => none
  | n + 1, ret, up =>
    let r := serial_in up UART_IIR
    if r.1 > 1 then
      match isr_case PAGE_SHIFT fuel dma r.1 ret r.2 with
      | none => none
      | some s => isr_loop PAGE_SHIFT fuel dma n s.1 s.2
    else
      some (ret, r.2)

/-- `intel_cln_uart_isr`: the interrupt handler of one port; the result is
the value returned and the state.  `fuel` bounds every loop. -/
def intel_cln_uart_isr (PAGE_SHIFT fuel : Nat) (dma : dma_service) (up : intel_cln_uart) :
    Option (Nat × intel_cln_uart) :=
  let entered :=
    if up.mode &&& CLN_UART_MODE_DMA ≠ 0 then intel_mid_dma_interrupt PAGE_SHIFT dma up
    else some up
  match entered with
  | none => none
  | some up =>
    match isr_loop PAGE_SHIFT fuel dma fuel IRQ_HANDLED up with
    | none => none
    | some s => some (s.1, check_modem_status s.2)

/-! ## Port lifecycle -/

/-- `dma_enable`, the module parameter: `static bool dma_enable = false;`. -/
def dma_enable : Bool := false

/-- `intel_cln_uart_probe`, the success path: the state of a port when probe
returns 0.  The descriptor is `kzalloc`ed, so every field the source does
not assign is zero; the mode word is set from `dma_enable` and then
overwritten by `up->mode = 0`.  `xmit` is the ring of the serial core, which
probe does not touch; the environment starts with empty logs, no tty and
nothing submitted. -/
def intel_cln_uart_probe (dma_en : Bool) (xmit : circ_buf) : intel_cln_uart :=
  let up : intel_cln_uart :=
  { uartclk := CLN_UART_DEFAULT_UARTCLK
    tx_dma_use := 0
    start_tx := 0
    start_rx := 0
    dma_tx_nent := 0
    tx_empty := 1
    sg_tx_p := []
    sg_rx := { offset := 0, length := 0, dma_length := 0 }
    rxbuf := { buf_virt := fun _ => 0, size := 16 }
    port := { fifosize := 16
              uartclk := CLN_UART_DEFAULT_UARTCLK
              x_char := 0
              icount_tx := 0
              icount_rx := 0
              icount_rng := 0
              icount_dsr := 0
              read_status_mask := 0
              ignore_status_mask := 0
              mctrl := 0
              flags := UPF_BOOT_AUTOCONF
              xmit := xmit }
    fcr := 0
    ier := 0
    lcr := 0
    mcr := 0
    tx_trigger_level := 0
    rx_trigger_level := 0
    mode := 0
    reg_writes := []
    rx_fifo := []
    lsr_flags := 0
    rbr_reads := []
    tx_stopped := false
    write_wakeups := 0
    tty_present := false
    tty_room := 0
    tty_flip := []
    tty_batches := []
    tty_pushes := 0
    rx_overrun_warn := []
    tx_descs := []
    rx_descs := []
    iir_script := []
    msr := 0
    events := [] }
  let up := if dma_en = true then { up with mode := up.mode ||| CLN_UART_MODE_DMA } else up
  { up with mode := 0 }

/-- The lines of `intel_cln_uart_set_termios` that choose the FIFO control
shadow and the trigger levels:
`up->fcr = UART_FCR_ENABLE_FIFO | UART_FCR_T_TRIG_11 | UART_FCR_R_TRIG_11;`
`if (up->mode & CLN_UART_MODE_DMA) up->fcr |= UART_FCR_DMA_SELECT;`
`up->rx_trigger_level = up->port.fifosize-2;`
`up->tx_trigger_level = up->port.fifosize/2;`
with `fifosize` an `unsigned int`. -/
def set_termios_fifo (up : intel_cln_uart) : intel_cln_uart :=
  let up := { up with
    fcr := UART_FCR_ENABLE_FIFO ||| UART_FCR_T_TRIG_11 ||| UART_FCR_R_TRIG_11 }
  let up :=
    if up.mode &&& CLN_UART_MODE_DMA ≠ 0 then { up with fcr := up.fcr ||| UART_FCR_DMA_SELECT }
    else up
  let up := { up with rx_trigger_level := (up.port.fifosize % 2 ^ 32 + 2 ^ 32 - 2) % 2 ^ 32 }
  { up with tx_trigger_level := up.port.fifosize % 2 ^ 32 / 2 }

/-- `intel_cln_uart_set_mctrl`: build the modem-control byte from the lines in
`mctrl`, add the shadow `up->mcr`, and write it. -/
def intel_cln_uart_set_mctrl (up : intel_cln_uart) (mctrl : Nat) : intel_cln_uart :=
  let mcr : Nat := 0
  let mcr := if mctrl &&& TIOCM_RTS ≠ 0 then mcr ||| UART_MCR_RTS else mcr
  let mcr := if mctrl &&& TIOCM_DTR ≠ 0 then mcr ||| UART_MCR_DTR else mcr
  let mcr := if mctrl &&& TIOCM_OUT1 ≠ 0 then mcr ||| UART_MCR_OUT1 else mcr
  let mcr := if mctrl &&& TIOCM_OUT2 ≠ 0 then mcr ||| UART_MCR_OUT2 else mcr
  let mcr := if mctrl &&& TIOCM_LOOP ≠ 0 then mcr ||| UART_MCR_LOOP else mcr
  let mcr := mcr ||| up.mcr
  serial_out up UART_MCR mcr

/-- The four reads `(void) serial_in(up, UART_LSR); ... UART_RX; ... UART_IIR;
... UART_MSR;` with which `intel_cln_uart_startup` clears the interrupt
registers. -/
def clear_interrupt_registers (up : intel_cln_uart) : intel_cln_uart :=
  let up := (serial_in up UART_LSR).2
  let up := (serial_in up UART_RX).2
  let up := (serial_in up UART_IIR).2
  (serial_in up UART_MSR).2

/-- `intel_cln_uart_startup`: bring the port up; the result is the value
returned and the port. -/
def intel_cln_uart_startup (up : intel_cln_uart) : Int × intel_cln_uart :=
  let up := serial_out up UART_FCR UART_FCR_ENABLE_FIFO
  let up := serial_out up UART_FCR
    (UART_FCR_ENABLE_FIFO ||| UART_FCR_CLEAR_RCVR ||| UART_FCR_CLEAR_XMIT)
  let up := serial_out up UART_FCR 0
  let up := clear_interrupt_registers up
  let up := serial_out up UART_LCR UART_LCR_WLEN8
  let up := { up with port := { up.port with mctrl := up.port.mctrl ||| TIOCM_OUT2 } }
  let up := intel_cln_uart_set_mctrl up up.port.mctrl
  let up :=
    if up.mode &&& CLN_UART_MODE_DMA = 0 then
      { up with ier := UART_IER_RLSI ||| UART_IER_RDI ||| UART_IER_RTOIE }
    else
      { up with ier := 0 }
  let up := serial_out up UART_IER up.ier
  let up := clear_interrupt_registers up
  (0, { up with start_rx := 1 })

/-- The fields of `struct ktermios` that `intel_cln_uart_set_termios` reads:
the input flags and the control flags. -/
structure ktermios where
  c_iflag : Nat
  c_cflag : Nat
  deriving DecidableEq, Repr

/-- The local `cval` of `intel_cln_uart_set_termios`: the `switch` on
`c_cflag & CSIZE` and the three `if`s that add the stop, parity-enable and
even-parity bits. -/
def termios_cval (c_cflag : Nat) : Nat :=
  let cval :=
    if c_cflag &&& CSIZE = CS5 then UART_LCR_WLEN5
    else if c_cflag &&& CSIZE = CS6 then UART_LCR_WLEN6
    else if c_cflag &&& CSIZE = CS7 then UART_LCR_WLEN7
    else UART_LCR_WLEN8
  let cval := if c_cflag &&& CSTOPB ≠ 0 then cval ||| UART_LCR_STOP else cval
  let cval := if c_cflag &&& PARENB ≠ 0 then cval ||| UART_LCR_PARITY else cval
  if c_cflag &&& PARODD = 0 then cval ||| UART_LCR_EPAR else cval

/-- The two bounds `port->uartclk / 16 / 0xffff` and `port->uartclk / 16`
(integer division) that `intel_cln_uart_set_termios` passes to
`uart_get_baud_rate`.  The serial core is not part of the sources; it answers
with a rate within the bounds ("clamped to the hardware's achievable
range"). -/
def termios_baud_range (uartclk : Nat) : Nat × Nat :=
  (uartclk / 16 / 0xffff, uartclk / 16)

/-- Modelled from the spec: `uart_get_divisor` of the serial core (not part of
the sources), the "baud divisor from requested rate":
`(port->uartclk + (8 * baud)) / (16 * baud)`. -/
def uart_get_divisor (uartclk baud : Nat) : Nat :=
  (uartclk + 8 * baud) / (16 * baud)

/-- The lines of `intel_cln_uart_set_termios` that compute the status masks:
`read_status_mask` (which conditions are reported) and `ignore_status_mask`
(which are ignored), from the input flags and `CREAD`. -/
def set_termios_masks (termios : ktermios) (up : intel_cln_uart) : intel_cln_uart :=
  let up := { up with port := { up.port with
    read_status_mask := UART_LSR_OE ||| UART_LSR_THRE ||| UART_LSR_DR } }
  let up :=
    if termios.c_iflag &&& INPCK ≠ 0 then
      { up with port := { up.port with
        read_status_mask := up.port.read_status_mask ||| (UART_LSR_FE ||| UART_LSR_PE) } }
    else up
  let up :=
    if termios.c_iflag &&& (BRKINT ||| PARMRK) ≠ 0 then
      { up with port := { up.port with
        read_status_mask := up.port.read_status_mask ||| UART_LSR_BI } }
    else up
  let up := { up with port := { up.port with ignore_status_mask := 0 } }
  let up :=
    if termios.c_iflag &&& IGNPAR ≠ 0 then
      { up with port := { up.port with
        ignore_status_mask := up.port.ignore_status_mask ||| (UART_LSR_PE ||| UART_LSR_FE) } }
    else up
  let up :=
    if termios.c_iflag &&& IGNBRK ≠ 0 then
      let up := { up with port := { up.port with
        ignore_status_mask := up.port.ignore_status_mask ||| UART_LSR_BI } }
      if termios.c_iflag &&& IGNPAR ≠ 0 then
        { up with port := { up.port with
          ignore_status_mask := up.port.ignore_status_mask ||| UART_LSR_OE } }
      else up
    else up
  if termios.c_cflag &&& CREAD = 0 then
    { up with port := { up.port with
      ignore_status_mask := up.port.ignore_status_mask ||| UART_LSR_DR } }
  else up

/-- Modelled from the spec: the macro `UART_ENABLE_MS(port, cflag)`
(linux/serial_core.h, missing):
`(port)->flags & UPF_HARDPPS_CD || (cflag) & CRTSCTS || !((cflag) & CLOCAL)`. -/
def UART_ENABLE_MS (port : uart_port) (cflag : Nat) : Bool :=
  decide (port.flags &&& UPF_HARDPPS_CD ≠ 0 ∨ cflag &&& CRTSCTS ≠ 0 ∨ cflag &&& CLOCAL = 0)

/-- The lines of `intel_cln_uart_set_termios` that choose the modem-status
interrupt and the flow-control bits of the modem-control shadow. -/
def set_termios_modem (termios : ktermios) (up : intel_cln_uart) : intel_cln_uart :=
  let up := { up with ier := and_not up.ier UART_IER_MSI }
  let up :=
    if UART_ENABLE_MS up.port termios.c_cflag = true then
      { up with ier := up.ier ||| UART_IER_MSI }
    else up
  if termios.c_cflag &&& CRTSCTS ≠ 0 then
    { up with mcr := up.mcr ||| (UART_MCR_AFE ||| UART_MCR_RTS) }
  else
    { up with mcr := and_not up.mcr UART_MCR_AFE }

/-- The register writes at the end of `intel_cln_uart_set_termios`: the line
control with the divisor latch open, the two divisor bytes, the line control
again, the shadow `up->lcr`, the modem control, `up->fcr = 0` with its write
to the FIFO control register, and the interrupt enables. -/
def set_termios_regs (cval quot : Nat) (up : intel_cln_uart) : intel_cln_uart :=
  let up := serial_out up UART_LCR (cval ||| UART_LCR_DLAB)
  let up := serial_out up UART_DLL (quot &&& 0xff)
  let up := serial_out up UART_DLM (quot >>> 8)
  let up := serial_out up UART_LCR cval
  let up := { up with lcr := cval }
  let up := intel_cln_uart_set_mctrl up up.port.mctrl
  let up := { up with fcr := 0 }
  let up := serial_out up UART_FCR up.fcr
  serial_out up UART_IER up.ier

/-- `intel_cln_uart_set_termios`: set the port into the mode the termios
structure asks for.  `quot` is the answer of the serial core,
`uart_get_divisor(port, baud)` for the rate `uart_get_baud_rate` chose;
`uart_update_timeout` only sets `port->timeout`, which is not part of the
model.  The result is the termios structure afterwards and the port. -/
def intel_cln_uart_set_termios (up : intel_cln_uart) (termios : ktermios) (quot : Nat) :
    ktermios × intel_cln_uart :=
  let cval := termios_cval termios.c_cflag
  let termios := { termios with c_cflag := and_not termios.c_cflag CMSPAR }
  let up := set_termios_fifo up
  let up := set_termios_masks termios up
  let up := set_termios_modem termios up
  (termios, set_termios_regs cval quot up)

/-- `intel_cln_uart_verify_port`: choose PIO or DMA mode from the request.
`ser_flags` is `ser->flags`; the result is the value returned, the flags of
the request afterwards, and the port. -/
def intel_cln_uart_verify_port (up : intel_cln_uart) (ser_flags : Nat) :
    Int × Nat × intel_cln_uart :=
  if ser_flags &&& UPF_LOW_LATENCY ≠ 0 then
    (0, and_not ser_flags UPF_LOW_LATENCY, { up with mode := and_not up.mode CLN_UART_MODE_DMA })
  else
    (0, ser_flags, { up with mode := up.mode ||| CLN_UART_MODE_DMA })

/-! ## Accelerometer driver (`drivers/iio/accel/lis331dlh_intel_cln.c`): threshold events -/

/-- `ST_ACCEL_2_INT_IA_MASK` -/
def ST_ACCEL_2_INT_IA_MASK : Nat := 0x40

/-- `ST_ACCEL_2_INT_SRC_HIGH_MASK` -/
def ST_ACCEL_2_INT_SRC_HIGH_MASK : Nat := 0x20

/-- Modelled from the spec: `ST_SENSORS_NUMBER_DATA_CHANNELS`
(linux/iio/common/st_sensors.h, missing), the number of axes of the sensor. -/
def ST_SENSORS_NUMBER_DATA_CHANNELS : Nat := 3

/-- Modelled from the spec: the values of `enum iio_modifier`
(linux/iio/types.h, missing) that the driver uses. -/
inductive iio_modifier where
  | IIO_NO_MOD
  | IIO_MOD_X
  | IIO_MOD_Y
  | IIO_MOD_X_AND_Y
  | IIO_MOD_Z
  | IIO_MOD_X_AND_Z
  | IIO_MOD_Y_AND_Z
  | IIO_MOD_X_AND_Y_AND_Z
  deriving DecidableEq, Repr

/-- `iio_modifier_map` -/
def iio_modifier_map : List iio_modifier :=
  [.IIO_NO_MOD, .IIO_MOD_X, .IIO_MOD_Y, .IIO_MOD_X_AND_Y, .IIO_MOD_Z, .IIO_MOD_X_AND_Z,
    .IIO_MOD_Y_AND_Z, .IIO_MOD_X_AND_Y_AND_Z]

/-- Modelled from the spec: the axes an IIO modifier names, as (x, y, z). -/
def modifier_axes : iio_modifier → Bool × Bool × Bool
  | .IIO_NO_MOD => (false, false, false)
  | .IIO_MOD_X => (true, false, false)
  | .IIO_MOD_Y => (false, true, false)
  | .IIO_MOD_X_AND_Y => (true, true, false)
  | .IIO_MOD_Z => (false, false, true)
  | .IIO_MOD_X_AND_Z => (true, false, true)
  | .IIO_MOD_Y_AND_Z => (false, true, true)
  | .IIO_MOD_X_AND_Y_AND_Z => (true, true, true)

/-- The loop of `lis331dlh_intel_cln_threshold_event_handler`, with the given
number of iterations left:
`iio_modifier <<= 1; iio_modifier += !!(data & ST_ACCEL_2_INT_SRC_HIGH_MASK); data <<= 2;`
on a `u64 iio_modifier` and a `u8 data`. -/
def threshold_modifier_loop : Nat → Nat → Nat → Nat
  | 0, iio_modifier, _ => iio_modifier
  | n + 1, iio_modifier, data =>
    let iio_modifier := (iio_modifier <<< 1) % 2 ^ 64
    let iio_modifier :=
      (iio_modifier + (if data &&& ST_ACCEL_2_INT_SRC_HIGH_MASK ≠ 0 then 1 else 0)) % 2 ^ 64
    threshold_modifier_loop n iio_modifier ((data <<< 2) % 256)

/-- The event the threshold handler pushes with `iio_push_event`.  The
channel type (`IIO_ACCEL`), the event type (`IIO_EV_TYPE_THRESH`) and the
direction (`IIO_EV_DIR_RISING`) are the same in every event of this handler;
the modifier and the time stamp vary. -/
structure iio_event where
  modifier : iio_modifier
  timestamp : Int
  deriving DecidableEq, Repr

/-- `lis331dlh_intel_cln_threshold_event_handler`.  `src` and `cfg` are the
answers of the two `read_byte` calls (INT1 source register, INT1
configuration register) as (error code, byte read).  The result is the value
returned and the event pushed, if any; `none` when the index is outside
`iio_modifier_map`. -/
def lis331dlh_intel_cln_threshold_event_handler (timestamp : Int) (src cfg : Int × Nat) :
    Option (Nat × Option iio_event) :=
  if src.1 < 0 then
    some (IRQ_HANDLED, none)
  else if cfg.1 < 0 then
    some (IRQ_HANDLED, none)
  else
    let data := src.2 % 256
    let mask := cfg.2 % 256
    if data &&& ST_ACCEL_2_INT_IA_MASK ≠ 0 then
      let data := data &&& mask
      let iio_modifier := threshold_modifier_loop ST_SENSORS_NUMBER_DATA_CHANNELS 0 data
      match iio_modifier_map[iio_modifier]? with
      | none => none
      | some m => some (IRQ_HANDLED, some { modifier := m, timestamp := timestamp })
    else
      some (IRQ_HANDLED, none)

/-! ## The transmit path as a transition system -/

/-- The events that drive the DMA transmit path of one port. -/
inductive tx_event where
  | start_tx
  | stop_tx
  | drain (avail : Nat) (prep_ok : Bool)
  | complete
  deriving DecidableEq, Repr

/-- Modelled from the spec: one event of the transmit path.  The DMA engine
invokes the completion callback "exactly once per submission", so
`complete` is possible only while a submitted descriptor set is
outstanding, and it retires the oldest one. -/
def tx_apply (PAGE_SHIFT : Nat) : tx_event → intel_cln_uart → Option intel_cln_uart
  | .start_tx, up => some (intel_cln_uart_start_tx up)
  | .stop_tx, up => some (intel_cln_uart_stop_tx up)
  | .drain avail prep_ok, up => intel_cln_uart_dma_tx PAGE_SHIFT avail prep_ok up
  | .complete, up =>
    match up.tx_descs with
    | [] => none
    | _ :: rest => intel_cln_uart_dma_tx_complete PAGE_SHIFT { up with tx_descs := rest }

/-- A sequence of transmit-path events, oldest first. -/
def tx_run (PAGE_SHIFT : Nat) : List tx_event → intel_cln_uart → Option intel_cln_uart
  | [], up => some up
  | e :: es, up => (tx_apply PAGE_SHIFT e up).bind (tx_run PAGE_SHIFT es)

/-- The ring bytes `buf[(tail + j) & (UART_XMIT_SIZE - 1)]`, `j < n`: the
next `n` bytes in ring order. -/
def ring_bytes (PAGE_SHIFT : Nat) (xmit : circ_buf) (n : Nat) : List Nat :=
  (List.range n).map fun (j : Nat) =>
    xmit.buf (and_mask (xmit.tail + (j : Int)) (UART_XMIT_SIZE PAGE_SHIFT))

/-! ## Derived quantities and example ports used in the statements -/

/-- The descriptor set last prepared by `intel_cln_uart_dma_tx`, as the DMA
engine sees it: (offset in the ring page, `sg_dma_len`) of the first
`dma_tx_nent` entries of the table, which are also the entries the
completion callback walks. -/
def tx_segments (up : intel_cln_uart) : List (Int × Int) :=
  (up.sg_tx_p.take up.dma_tx_nent.toNat).map fun sg => (sg.offset, sg.dma_length)

/-- A port after probe and `start_tx`, over a ring with the given indices
whose byte at index `i` is `i mod 256`. -/
def started_port (head tail : Int) : intel_cln_uart :=
  intel_cln_uart_start_tx (intel_cln_uart_probe dma_enable
    { buf := fun i => (i % 256).toNat, head := head, tail := tail })

/-- The port `started_port 40 0` after one DMA drain with a full mapping and
a successful preparation: a descriptor set of 40 bytes is in flight. -/
def in_flight_port : intel_cln_uart :=
  (intel_cln_uart_dma_tx 12 3 true (started_port 40 0)).getD (started_port 40 0)

/-- The data-register writes that send the next `n` ring bytes in ring
order: one `serial_out(up, UART_TX, byte)` each. -/
def tx_data (PAGE_SHIFT : Nat) (xmit : circ_buf) (n : Nat) : List (Nat × Nat) :=
  (ring_bytes PAGE_SHIFT xmit n).map fun b => (UART_TX, b % 256)

/-- The staging buffer after the read loop stored the first `m` FIFO bytes
from index `i` on. -/
def staged (i : Int) (m : Nat) (fifo : List Nat) (buf : Int → Nat) : Int → Nat :=
  fun j => if i ≤ j ∧ j < i + (m : Int) then fifo.getD (j - i).toNat 0 else buf j

/-- The state after one pass through the body of the loop of
`intel_cln_uart_rx_to`: one `intel_cln_uart_hal_read` into the staging buffer
followed by one `push_rx` of what was read. -/
def rx_pass (up : intel_cln_uart) : intel_cln_uart :=
  (push_rx (intel_cln_uart_hal_read up up.rxbuf.size).2
    (intel_cln_uart_hal_read up up.rxbuf.size).1).2

/-- A port after probe and startup of reception, with a tty attached that
offers `room` bytes and `fifo` waiting in the hardware receive FIFO. -/
def receiving_port (fifo : List Nat) (room : Nat) : intel_cln_uart :=
  { intel_cln_uart_probe dma_enable { buf := fun _ => 0, head := 0, tail := 0 } with
    start_rx := 1
    rx_trigger_level := 14
    rx_fifo := fifo
    tty_present := true
    tty_room := room }

/-- The bytes of a completed RX burst of `size` bytes, as they lie in the
staging buffer. -/
def rx_burst (up : intel_cln_uart) (size : Int) : List Nat :=
  (List.range size.toNat).map fun (i : Nat) => up.rxbuf.buf_virt (i : Int)

/-- The events `start_tx`, drain, `stop_tx`, `start_tx`, drain, with mapping
and preparation succeeding in both drains and no completion in between. -/
def stop_restart_events : List tx_event :=
  [.start_tx, .drain 1 true, .stop_tx, .start_tx, .drain 1 true]

/-- A freshly probed port over a ring that holds one pending byte. -/
def probed_port_one_byte : intel_cln_uart :=
  intel_cln_uart_probe dma_enable { buf := fun _ => 0, head := 1, tail := 0 }

/-- The bookkeeping the in-flight flag is meant to keep: at most one
submitted TX descriptor set is outstanding, and while one is outstanding
`tx_dma_use` is set. -/
def tx_in_flight_ok (up : intel_cln_uart) : Prop :=
  up.tx_descs.length ≤ 1 ∧ (up.tx_descs ≠ [] → up.tx_dma_use ≠ 0)

/-- An empty transmit ring whose storage holds `i mod 256` at index `i`. -/
def empty_ring : circ_buf := { buf := fun i => (i % 256).toNat, head := 0, tail := 0 }

/-- A port in DMA mode: probe, `intel_cln_uart_verify_port` for a request
without the low-latency flag, and the FIFO lines of `set_termios` (RX trigger
level 14 for the FIFO size 16 of probe). -/
def dma_mode_port (xmit : circ_buf) : intel_cln_uart :=
  set_termios_fifo (intel_cln_uart_verify_port (intel_cln_uart_probe dma_enable xmit) 0).2.2

/-- A DMA service that maps and prepares whatever it is asked for and has
completed nothing yet. -/
def dma_pending_service : dma_service :=
  { tx_avail := 4096, tx_prep_ok := true, rx_prep_ok := true, tx_done := false, rx_done := false }

/-- One invocation of the interrupt handler in which the identification
register reads the values `iids` and then "no interrupt pending". -/
def isr_with (iids : List Nat) (dma : dma_service) (up : intel_cln_uart) :
    Option (Nat × intel_cln_uart) :=
  intel_cln_uart_isr 12 (iids.length + 2) dma { up with iir_script := iids }

/-- A freshly probed port over a ring with 10 pending bytes that wrap: 5 up
to the end of the ring of size 4096 and 5 from index 0. -/
def probed_port_wrapped : intel_cln_uart :=
  intel_cln_uart_probe dma_enable { buf := fun _ => 0, head := 5, tail := 4091 }

/-- A started port with the out-of-band character `0x13` (XOFF) pending,
over a ring that holds the three pending bytes `a`, `b`, `c` (97, 98, 99) at
indices 0, 1, 2. -/
def x_char_port : intel_cln_uart :=
  let up := intel_cln_uart_start_tx (intel_cln_uart_probe dma_enable
    { buf := fun i => (97 + i).toNat, head := 3, tail := 0 })
  { up with port := { up.port with x_char := 0x13 } }

/-- The state after a read of the interrupt-identification register that
returned the head `v` of the script: the script is left with `rest` and the
read is recorded. -/
def after_iir_read (up : intel_cln_uart) (v : Nat) (rest : List Nat) : intel_cln_uart :=
  { up with iir_script := rest, events := up.events ++ [.iir_read (v % 256)] }

/-- A port after probe and startup of reception whose consumer is
unavailable (no tty), with `fifo` waiting in the hardware receive FIFO. -/
def busy_port (fifo : List Nat) : intel_cln_uart :=
  { receiving_port fifo 0 with tty_present := false }

/-- The environment step between two drains: the consumer becomes available
and offers `room` bytes, and `more` bytes arrive in the hardware FIFO. -/
def consumer_arrives (up : intel_cln_uart) (room : Nat) (more : List Nat) : intel_cln_uart :=
  { up with tty_present := true, tty_room := room, rx_fifo := up.rx_fifo ++ more }


/-- The event record of `u` continues the event record of `up` without a
call of the DMA controller's interrupt handler. -/
def events_extend (up u : intel_cln_uart) : Prop :=
  ∃ evs, u.events = up.events ++ evs ∧ isr_event.dma_interrupt ∉ evs


/-- A port on which every engine the interrupt handler can call returns
within `fuel`: the FIFO size is in the range in which the transmit depth stays
positive, the ring indices are inside the ring, the staging buffer has room
for at least one byte, and `fuel` exceeds the number of bytes waiting in the
hardware receive FIFO and allows the two passes of the PIO transmit loop. -/
def isr_ready (PAGE_SHIFT fuel : Nat) (up : intel_cln_uart) : Prop :=
  2 ≤ up.port.fifosize ∧ up.port.fifosize < 2 ^ 31 ∧
    (0 ≤ up.port.xmit.head ∧ up.port.xmit.head < UART_XMIT_SIZE PAGE_SHIFT) ∧
    (0 ≤ up.port.xmit.tail ∧ up.port.xmit.tail < UART_XMIT_SIZE PAGE_SHIFT) ∧
    1 ≤ up.rxbuf.size ∧ up.rx_fifo.length < fuel ∧ 2 ≤ fuel

/-- What every step of the interrupt handler keeps of the port `up`: the
FIFO size, `head`, a `tail` inside the ring, the size of the staging buffer;
the hardware receive FIFO and the values still to be read from the
identification register do not grow. -/
def isr_keeps (PAGE_SHIFT : Nat) (up u : intel_cln_uart) : Prop :=
  u.port.fifosize = up.port.fifosize ∧ u.port.xmit.head = up.port.xmit.head ∧
    ((0 ≤ up.port.xmit.tail ∧ up.port.xmit.tail < UART_XMIT_SIZE PAGE_SHIFT) →
      (0 ≤ u.port.xmit.tail ∧ u.port.xmit.tail < UART_XMIT_SIZE PAGE_SHIFT)) ∧
    u.rxbuf.size = up.rxbuf.size ∧ u.rx_fifo.length ≤ up.rx_fifo.length ∧
    u.iir_script.length ≤ up.iir_script.length

/-- The environment step of the producer (the line discipline): it enqueues
`k` bytes, which advances `head` and nothing else. -/
def producer_advances (PAGE_SHIFT : Nat) (up : intel_cln_uart) (k : Int) : intel_cln_uart :=
  { up with port := { up.port with
      xmit := { up.port.xmit with
        head := and_mask (up.port.xmit.head + k) (UART_XMIT_SIZE PAGE_SHIFT) } } }

/-- Bringing a port up: `intel_cln_uart_startup` followed by
`intel_cln_uart_set_termios`. -/
def bring_up (up : intel_cln_uart) (termios : ktermios) (quot : Nat) : intel_cln_uart :=
  (intel_cln_uart_set_termios (intel_cln_uart_startup up).2 termios quot).2

/-- The values written to the FIFO control register so far, oldest first. -/
def fcr_writes (up : intel_cln_uart) : List Nat :=
  (up.reg_writes.filter fun w => w.1 = UART_FCR).map fun w => w.2

/-- The line format 8 bits, no parity, one stop bit, with the receiver
enabled and the modem lines ignored. -/
def termios_8n1 : ktermios := { c_iflag := 0, c_cflag := CS8 ||| CREAD ||| CLOCAL }

/-- The port `x_char_port` with the FIFO size `0x80000000`. -/
def huge_fifo_port : intel_cln_uart :=
  { x_char_port with port := { x_char_port.port with fifosize := 2 ^ 31 } }


/-! ## Helper lemmas -/

theorem and_not_and_self (a b : Nat) : and_not a b &&& b = 0 := by
  apply Nat.eq_of_testBit_eq
  intro i
  simp only [and_not, Nat.testBit_and, Nat.testBit_xor, Nat.zero_testBit]
  cases a.testBit i <;> cases b.testBit i <;> rfl

theorem or_and_self (a b : Nat) : (a ||| b) &&& b = b := by
  apply Nat.eq_of_testBit_eq
  intro i
  simp only [Nat.testBit_and, Nat.testBit_or]
  cases a.testBit i <;> cases b.testBit i <;> rfl

theorem hal_write_eq (up : intel_cln_uart) (buf : Int → Nat) (n : Int) :
    intel_cln_uart_hal_write up buf n =
      { up with reg_writes := up.reg_writes ++
          (List.range n.toNat).map fun (i : Nat) => (UART_TX, buf (i : Int) % 256) } := by
  unfold intel_cln_uart_hal_write
  generalize n.toNat = m
  induction m with
  | zero => simp
  | succ m ih =>
    rw [List.range_succ, List.foldl_append, ih]
    simp [serial_out, List.map_append]

theorem tx_send_x_char_none (up : intel_cln_uart) (hx : up.port.x_char = 0) :
    tx_send_x_char up = (0, up) := by
  simp [tx_send_x_char, pop_tx_x, hx]

theorem tx_send_x_char_some (up : intel_cln_uart) (hx : up.port.x_char ≠ 0) :
    tx_send_x_char up =
      (1, { up with
              port := { up.port with
                xmit := { up.port.xmit with
                  buf := Function.update up.port.xmit.buf 0 up.port.x_char }
                x_char := 0
                icount_tx := u32_add up.port.icount_tx 1 }
              reg_writes := up.reg_writes ++ [(UART_TX, up.port.x_char % 256)] }) := by
  simp [tx_send_x_char, pop_tx_x, hx, hal_write_eq, List.range_succ]

theorem tx_send_x_char_xmit (up : intel_cln_uart) :
    (tx_send_x_char up).2.port.xmit.head = up.port.xmit.head ∧
    (tx_send_x_char up).2.port.xmit.tail = up.port.xmit.tail := by
  by_cases hx : up.port.x_char = 0
  · rw [tx_send_x_char_none up hx]; exact ⟨rfl, rfl⟩
  · rw [tx_send_x_char_some up hx]; exact ⟨rfl, rfl⟩

theorem tx_send_x_char_descs (up : intel_cln_uart) :
    (tx_send_x_char up).2.tx_descs = up.tx_descs := by
  by_cases hx : up.port.x_char = 0
  · rw [tx_send_x_char_none up hx]
  · rw [tx_send_x_char_some up hx]

theorem tx_send_x_char_fifo (up : intel_cln_uart) :
    (if (tx_send_x_char up).1 ≠ 0 then max (int_of_u32 up.port.fifosize) 1 - 1
      else max (int_of_u32 up.port.fifosize) 1) = tx_fifo_size up := by
  by_cases hx : up.port.x_char = 0
  · rw [tx_send_x_char_none up hx]; simp [tx_fifo_size, hx]
  · rw [tx_send_x_char_some up hx]; simp [tx_fifo_size, hx]

theorem dma_tx_bytes_x_char (PAGE_SHIFT : Nat) (up : intel_cln_uart) :
    dma_tx_bytes PAGE_SHIFT (tx_send_x_char up).2.port.xmit =
      dma_tx_bytes PAGE_SHIFT up.port.xmit := by
  unfold dma_tx_bytes
  rw [(tx_send_x_char_xmit up).1, (tx_send_x_char_xmit up).2]

theorem dma_tx_submit_port (PAGE_SHIFT avail : Nat) (prep_ok : Bool) (f b : Int)
    (up : intel_cln_uart) :
    (dma_tx_submit PAGE_SHIFT avail prep_ok f b up).port = up.port := by
  unfold dma_tx_submit
  dsimp only
  split_ifs <;> rfl

/-- The drain on a started, idle port: either the ring has nothing
contiguous to send, or the division traps, or the submission stage runs. -/
theorem dma_tx_idle (PAGE_SHIFT avail : Nat) (prep_ok : Bool) (up : intel_cln_uart)
    (hstart : up.start_tx ≠ 0) (huse : up.tx_dma_use = 0) :
    intel_cln_uart_dma_tx PAGE_SHIFT avail prep_ok up =
      if dma_tx_bytes PAGE_SHIFT up.port.xmit = 0 then
        some { thri_disable (tx_send_x_char up).2 with
                write_wakeups := (tx_send_x_char up).2.write_wakeups + 1 }
      else if dma_tx_bytes PAGE_SHIFT up.port.xmit > tx_fifo_size up ∧ tx_fifo_size up = 0 then
        none
      else
        some (dma_tx_submit PAGE_SHIFT avail prep_ok (tx_fifo_size up)
          (dma_tx_bytes PAGE_SHIFT up.port.xmit) (tx_send_x_char up).2) := by
  unfold intel_cln_uart_dma_tx
  simp only [hstart, huse, if_false, ne_eq, not_true_eq_false]
  rw [dma_tx_bytes_x_char]
  have := tx_send_x_char_fifo up
  simp only [ne_eq] at this
  rw [this]
  rfl

theorem sg_fixup_range' (t f size rem nent : Int) (g : Nat → scatterlist) (n : Nat) :
    ∀ s : Nat, dma_tx_sg_fixup t f size rem nent (s : Int) ((List.range' s n).map g) =
      (List.range' s n).map fun (i : Nat) =>
        if (i : Int) < nent then
          { g i with offset := t + f * (i : Int)
                     dma_length := if (i : Int) = nent - 1 then rem else size }
        else g i := by
  induction n with
  | zero => intro s; rfl
  | succ n ih =>
    intro s
    rw [List.range'_succ, List.map_cons, List.map_cons, dma_tx_sg_fixup]
    have h := ih (s + 1)
    rw [Nat.cast_add, Nat.cast_one] at h
    rw [h]

/-- Closed form of the mapped entries after the second loop: entry `i` of
the first `nent`. -/
theorem sg_submitted (t f size rem num nent : Int) (hn : nent ≤ num) :
    (dma_tx_sg_fixup t f size rem nent 0 (dma_tx_sg_table f size rem num)).take nent.toNat =
      (List.range nent.toNat).map fun (i : Nat) =>
        ({ offset := t + f * (i : Int)
           length := if (i : Int) = num - 1 then rem else size
           dma_length := if (i : Int) = nent - 1 then rem else size } : scatterlist) := by
  unfold dma_tx_sg_table
  rw [List.range_eq_range']
  have h := sg_fixup_range' t f size rem nent
    (fun (i : Nat) => ({ offset := f * (i : Int)
                         length := if (i : Int) = num - 1 then rem else size
                         dma_length := 0 } : scatterlist)) num.toNat 0
  rw [Nat.cast_zero] at h
  rw [h, ← List.range_eq_range', ← List.map_take, List.take_range,
    Nat.min_eq_left (Int.toNat_le_toNat hn)]
  apply List.map_congr_left
  intro i hi
  have hi' : (i : Int) < nent := by
    have := List.mem_range.mp hi
    omega
  simp [hi']

theorem sg_dma_lengths (size rem n : Int) (hn : 1 ≤ n) :
    (List.range n.toNat).map (fun (i : Nat) => if (i : Int) = n - 1 then rem else size) =
      List.replicate (n - 1).toNat size ++ [rem] := by
  obtain ⟨m, rfl⟩ : ∃ m : Nat, n = (m : Int) + 1 := ⟨(n - 1).toNat, by omega⟩
  have h1 : ((m : Int) + 1).toNat = m + 1 := by omega
  have h2 : ((m : Int) + 1 - 1).toNat = m := by omega
  rw [h1, h2, List.range_succ, List.map_append]
  congr 1
  · rw [List.eq_replicate_iff]
    refine ⟨by simp, ?_⟩
    intro x hx
    obtain ⟨i, hi, rfl⟩ := List.mem_map.mp hx
    have := List.mem_range.mp hi
    have hne : ¬ ((i : Int) = (m : Int) + 1 - 1) := by omega
    rw [if_neg hne]
  · simp

/-- What the submission stage leaves behind when the mapping returned at
least one entry. -/
theorem dma_tx_submit_mapped (PAGE_SHIFT avail : Nat) (prep_ok : Bool) (f b : Int)
    (up : intel_cln_uart) (hne : dma_map_sg avail (dma_tx_num b f) ≠ 0) :
    (dma_tx_submit PAGE_SHIFT avail prep_ok f b up).dma_tx_nent = dma_map_sg avail (dma_tx_num b f) ∧
    (dma_tx_submit PAGE_SHIFT avail prep_ok f b up).tx_dma_use = 1 ∧
    (dma_tx_submit PAGE_SHIFT avail prep_ok f b up).sg_tx_p =
      dma_tx_sg_fixup (and_mask up.port.xmit.tail (UART_XMIT_SIZE PAGE_SHIFT)) f
        (dma_tx_size b f) (dma_tx_rem b f) (dma_map_sg avail (dma_tx_num b f)) 0
        (dma_tx_sg_table f (dma_tx_size b f) (dma_tx_rem b f) (dma_tx_num b f)) ∧
    (dma_tx_submit PAGE_SHIFT avail prep_ok f b up).tx_descs =
      if prep_ok = true then
        up.tx_descs ++ [(dma_tx_submit PAGE_SHIFT avail prep_ok f b up).sg_tx_p.take
          (dma_map_sg avail (dma_tx_num b f)).toNat]
      else up.tx_descs := by
  unfold dma_tx_submit
  cases prep_ok <;> simp [hne]

theorem dma_map_sg_le (avail : Nat) (num : Int) : dma_map_sg avail num ≤ num := by
  unfold dma_map_sg
  exact min_le_right _ _

/-- The segments of the state after the submission stage. -/
theorem dma_tx_submit_segments (PAGE_SHIFT avail : Nat) (prep_ok : Bool) (f b : Int)
    (up : intel_cln_uart) (hne : dma_map_sg avail (dma_tx_num b f) ≠ 0) :
    tx_segments (dma_tx_submit PAGE_SHIFT avail prep_ok f b up) =
      (List.range (dma_map_sg avail (dma_tx_num b f)).toNat).map fun (i : Nat) =>
        (and_mask up.port.xmit.tail (UART_XMIT_SIZE PAGE_SHIFT) + f * (i : Int),
          if (i : Int) = dma_map_sg avail (dma_tx_num b f) - 1 then dma_tx_rem b f
          else dma_tx_size b f) := by
  obtain ⟨h1, -, h3, -⟩ := dma_tx_submit_mapped PAGE_SHIFT avail prep_ok f b up hne
  unfold tx_segments
  rw [h1, h3, sg_submitted _ _ _ _ _ _ (dma_map_sg_le avail _), List.map_map]
  rfl

theorem dma_tx_num_pos (b f : Int) (hb1 : 1 ≤ b) (hf1 : 1 ≤ f) : 1 ≤ dma_tx_num b f := by
  unfold dma_tx_num
  split
  · rw [Int.tdiv_eq_ediv (by omega) (by omega)]
    have := Int.ediv_nonneg (show (0 : Int) ≤ b by omega) (show (0 : Int) ≤ f by omega)
    omega
  · exact le_refl _

theorem dma_tx_lengths_closed (b f : Int) (hb1 : 1 ≤ b) (hf1 : 1 ≤ f) :
    List.replicate (dma_tx_num b f - 1).toNat (dma_tx_size b f) ++ [dma_tx_rem b f] =
      if b ≤ f then [b] else List.replicate (b / f).toNat f ++ [b % f] := by
  unfold dma_tx_num dma_tx_size dma_tx_rem
  by_cases h : b ≤ f
  · have h' : ¬ b > f := by omega
    simp [h, h']
  · have h' : b > f := by omega
    rw [if_neg h, if_pos h', if_pos h', if_pos h', Int.tdiv_eq_ediv (by omega) (by omega),
      Int.tmod_eq_emod (by omega) (by omega)]
    simp

theorem seg_lengths_sum (b f : Int) (hb1 : 1 ≤ b) (hf1 : 1 ≤ f) :
    (if b ≤ f then [b] else List.replicate (b / f).toNat f ++ [b % f]).sum = b := by
  split
  · simp
  · have h0 : 0 ≤ b / f := Int.ediv_nonneg (by omega) (by omega)
    rw [List.sum_append, List.sum_replicate, nsmul_eq_mul, Int.toNat_of_nonneg h0]
    simp only [List.sum_cons, List.sum_nil, add_zero]
    have := Int.ediv_add_emod' b f
    linarith

theorem seg_lengths_le (b f : Int) (hf1 : 1 ≤ f) :
    ∀ l ∈ (if b ≤ f then [b] else List.replicate (b / f).toNat f ++ [b % f]), l ≤ f := by
  intro l hl
  split at hl
  · simp at hl; omega
  · rcases List.mem_append.mp hl with h | h
    · rw [(List.mem_replicate.mp h).2]
    · simp at h
      have := Int.emod_lt_of_pos b (show (0 : Int) < f by omega)
      omega

/-- C1. DMA transmit segmentation: on a started, idle port with `b ≥ 1`
contiguous pending bytes and effective FIFO depth `f ≥ 1`, when the
scatter-gather mapping returns as many entries as requested, the drain
returns and the segment lengths are `[b]` if `b ≤ f`, otherwise `b / f`
segments of length `f` followed by one of length `b mod f`; the lengths sum
to `b`, none exceeds `f`, a successful preparation submits exactly this one
descriptor set, and for `b = 40`, `f = 16` the lengths are 16, 16, 8. -/
theorem dma_tx_segment_lengths (PAGE_SHIFT avail : Nat) (prep_ok : Bool) (up : intel_cln_uart)
    (b f : Int) (hstart : up.start_tx ≠ 0) (huse : up.tx_dma_use = 0)
    (hb : dma_tx_bytes PAGE_SHIFT up.port.xmit = b) (hf : tx_fifo_size up = f)
    (hb1 : 1 ≤ b) (hf1 : 1 ≤ f)
    (hmap : dma_map_sg avail (dma_tx_num b f) = dma_tx_num b f) :
    ∃ up', intel_cln_uart_dma_tx PAGE_SHIFT avail prep_ok up = some up' ∧
      (tx_segments up').map Prod.snd =
        (if b ≤ f then [b] else List.replicate (b / f).toNat f ++ [b % f]) ∧
      ((tx_segments up').map Prod.snd).sum = b ∧
      (∀ l ∈ (tx_segments up').map Prod.snd, l ≤ f) ∧
      (prep_ok = true →
        up'.tx_descs = up.tx_descs ++ [up'.sg_tx_p.take up'.dma_tx_nent.toNat]) ∧
      (b = 40 → f = 16 → (tx_segments up').map Prod.snd = [16, 16, 8]) := by
  have hnum := dma_tx_num_pos b f hb1 hf1
  have hne : dma_map_sg avail (dma_tx_num b f) ≠ 0 := by rw [hmap]; omega
  have hlen : (tx_segments (dma_tx_submit PAGE_SHIFT avail prep_ok f b
      (tx_send_x_char up).2)).map Prod.snd =
        (if b ≤ f then [b] else List.replicate (b / f).toNat f ++ [b % f]) := by
    rw [dma_tx_submit_segments PAGE_SHIFT avail prep_ok f b _ hne, hmap, List.map_map,
      ← dma_tx_lengths_closed b f hb1 hf1, ← sg_dma_lengths _ _ _ hnum]
    rfl
  obtain ⟨h1, -, -, h4⟩ := dma_tx_submit_mapped PAGE_SHIFT avail prep_ok f b
    (tx_send_x_char up).2 hne
  refine ⟨dma_tx_submit PAGE_SHIFT avail prep_ok f b (tx_send_x_char up).2, ?_, hlen, ?_, ?_,
    ?_, ?_⟩
  · rw [dma_tx_idle PAGE_SHIFT avail prep_ok up hstart huse, hb, hf,
      if_neg (by omega), if_neg (by omega)]
  · rw [hlen]; exact seg_lengths_sum b f hb1 hf1
  · rw [hlen]; exact seg_lengths_le b f hf1
  · intro hp
    rw [h4, if_pos hp, h1, tx_send_x_char_descs]
  · intro hb40 hf16
    rw [hlen, hb40, hf16]
    decide

/-- The ring arithmetic for indices inside the ring: the contiguous pending
count is `head - tail` when the pending bytes do not wrap and
`UART_XMIT_SIZE - tail` when they do, and masking `tail` changes nothing. -/
theorem dma_tx_bytes_eq (PAGE_SHIFT : Nat) (xmit : circ_buf)
    (hh : 0 ≤ xmit.head ∧ xmit.head < UART_XMIT_SIZE PAGE_SHIFT)
    (ht : 0 ≤ xmit.tail ∧ xmit.tail < UART_XMIT_SIZE PAGE_SHIFT) :
    dma_tx_bytes PAGE_SHIFT xmit =
        (if xmit.tail ≤ xmit.head then xmit.head - xmit.tail
          else UART_XMIT_SIZE PAGE_SHIFT - xmit.tail) ∧
      and_mask xmit.tail (UART_XMIT_SIZE PAGE_SHIFT) = xmit.tail := by
  unfold dma_tx_bytes CIRC_CNT CIRC_CNT_TO_END and_mask
  generalize UART_XMIT_SIZE PAGE_SHIFT = S at *
  have e1 : (xmit.head + (S - xmit.tail)) % S = (xmit.head - xmit.tail) % S := by
    rw [show xmit.head + (S - xmit.tail) = (xmit.head - xmit.tail) + S by ring,
      Int.add_emod_self]
  refine ⟨?_, Int.emod_eq_of_lt ht.1 ht.2⟩
  simp only [e1]
  by_cases hle : xmit.tail ≤ xmit.head
  · rw [Int.emod_eq_of_lt (by omega) (by omega), if_pos hle]
    split <;> simp only [min_def] <;> split <;> omega
  · have e2 : (xmit.head - xmit.tail) % S = xmit.head - xmit.tail + S := by
      rw [← Int.add_emod_self, Int.emod_eq_of_lt (by omega) (by omega)]
    rw [e2, if_neg hle]
    split <;> simp only [min_def] <;> split <;> omega

/-- Arithmetic of the segment at index `i` of `nent` mapped entries, for a
contiguous run of `b` bytes that ends at or before `S`. -/
theorem seg_bounds (t S b f nent : Int) (i : Nat) (hb1 : 1 ≤ b) (hf1 : 1 ≤ f)
    (htb : t + b ≤ S) (hn : nent ≤ dma_tx_num b f) (hi : (i : Int) < nent) :
    0 ≤ (if (i : Int) = nent - 1 then dma_tx_rem b f else dma_tx_size b f) ∧
    t + f * (i : Int) + (if (i : Int) = nent - 1 then dma_tx_rem b f else dma_tx_size b f) ≤ S ∧
    ((i : Int) + 1 < nent →
      t + f * (i : Int) + (if (i : Int) = nent - 1 then dma_tx_rem b f else dma_tx_size b f) =
        t + f * ((i + 1 : Nat) : Int)) := by
  unfold dma_tx_num at hn
  unfold dma_tx_rem dma_tx_size
  by_cases h : b > f
  · rw [if_pos h, Int.tdiv_eq_ediv (by omega) (by omega)] at hn
    simp only [if_pos h]
    rw [Int.tmod_eq_emod (by omega) (by omega)]
    have hr0 := Int.emod_nonneg b (show f ≠ 0 by omega)
    have hdm := Int.ediv_add_emod b f
    have hmul : f * ((i : Int) + 1) ≤ f * (b / f) + f :=  by
      have : f * ((i : Int) + 1) ≤ f * (b / f + 1) :=
        mul_le_mul_of_nonneg_left (by omega) (by omega)
      linarith
    by_cases hl : (i : Int) = nent - 1
    · simp only [if_pos hl]
      refine ⟨hr0, ?_, fun h2 => by omega⟩
      have : f * (i : Int) ≤ f * (b / f) := mul_le_mul_of_nonneg_left (by omega) (by omega)
      linarith
    · simp only [if_neg hl]
      refine ⟨by omega, ?_, fun _ => by push_cast; ring⟩
      have : f * ((i : Int) + 1) ≤ f * (b / f) := mul_le_mul_of_nonneg_left (by omega) (by omega)
      linarith
  · rw [if_neg h] at hn
    simp only [if_neg h]
    have hi0 : (i : Int) = 0 := by omega
    have hl : (i : Int) = nent - 1 := by omega
    simp only [if_pos hl, hi0, mul_zero, add_zero, ite_self]
    exact ⟨by omega, htb, fun h2 => by omega⟩

/-- Total length of `nent` mapped entries: never more than the `b` bytes
asked for. -/
theorem seg_sum_le (b f nent : Int) (hb1 : 1 ≤ b) (hf1 : 1 ≤ f) (h1 : 1 ≤ nent)
    (hn : nent ≤ dma_tx_num b f) :
    ((List.range nent.toNat).map
      (fun (i : Nat) => if (i : Int) = nent - 1 then dma_tx_rem b f else dma_tx_size b f)).sum ≤ b := by
  rw [sg_dma_lengths _ _ _ h1, List.sum_append, List.sum_replicate, nsmul_eq_mul,
    Int.toNat_of_nonneg (by omega)]
  simp only [List.sum_cons, List.sum_nil, add_zero]
  unfold dma_tx_num at hn
  unfold dma_tx_rem dma_tx_size
  by_cases h : b > f
  · rw [if_pos h, Int.tdiv_eq_ediv (by omega) (by omega)] at hn
    simp only [if_pos h]
    rw [Int.tmod_eq_emod (by omega) (by omega)]
    have hdm := Int.ediv_add_emod b f
    have : (nent - 1) * f ≤ (b / f) * f := mul_le_mul_of_nonneg_right (by omega) (by omega)
    linarith
  · rw [if_neg h] at hn
    simp only [if_neg h]
    have : nent - 1 = 0 := by omega
    rw [this]; omega

/-- C5 (amended). On a started, idle port with ring indices inside the ring,
`b ≥ 1` contiguous pending bytes, effective FIFO depth `f ≥ 1` and a mapping
that returns at least one entry, the drain returns and the segments it
built are such that segment `i` starts at offset `tail + f * i`, has a
non-negative length and ends at or before `UART_XMIT_SIZE`, consecutive
segments are adjacent, so they cover exactly the ring bytes
`[tail, tail + L)` in ring order, `L` being the sum of their lengths; `L ≤ b`,
and `L = b` when the mapping returns as many entries as requested. -/
theorem dma_tx_segments_in_ring (PAGE_SHIFT avail : Nat) (prep_ok : Bool) (up : intel_cln_uart)
    (b f : Int) (hstart : up.start_tx ≠ 0) (huse : up.tx_dma_use = 0)
    (hh : 0 ≤ up.port.xmit.head ∧ up.port.xmit.head < UART_XMIT_SIZE PAGE_SHIFT)
    (ht : 0 ≤ up.port.xmit.tail ∧ up.port.xmit.tail < UART_XMIT_SIZE PAGE_SHIFT)
    (hb : dma_tx_bytes PAGE_SHIFT up.port.xmit = b) (hf : tx_fifo_size up = f)
    (hb1 : 1 ≤ b) (hf1 : 1 ≤ f) (hav : 1 ≤ avail) :
    ∃ up', intel_cln_uart_dma_tx PAGE_SHIFT avail prep_ok up = some up' ∧
      1 ≤ (tx_segments up').length ∧
      (∀ i (hi : i < (tx_segments up').length),
        ((tx_segments up').get ⟨i, hi⟩).1 = up.port.xmit.tail + f * (i : Int) ∧
        0 ≤ ((tx_segments up').get ⟨i, hi⟩).2 ∧
        ((tx_segments up').get ⟨i, hi⟩).1 + ((tx_segments up').get ⟨i, hi⟩).2 ≤
          UART_XMIT_SIZE PAGE_SHIFT) ∧
      (∀ i (hi : i + 1 < (tx_segments up').length),
        ((tx_segments up').get ⟨i, Nat.lt_of_succ_lt hi⟩).1 +
            ((tx_segments up').get ⟨i, Nat.lt_of_succ_lt hi⟩).2 =
          ((tx_segments up').get ⟨i + 1, hi⟩).1) ∧
      ((tx_segments up').map Prod.snd).sum ≤ b ∧
      (dma_map_sg avail (dma_tx_num b f) = dma_tx_num b f →
        ((tx_segments up').map Prod.snd).sum = b) := by
  have hnum := dma_tx_num_pos b f hb1 hf1
  have hle := dma_map_sg_le avail (dma_tx_num b f)
  have h1 : 1 ≤ dma_map_sg avail (dma_tx_num b f) := by
    unfold dma_map_sg
    exact le_min (by exact_mod_cast hav) hnum
  have hne : dma_map_sg avail (dma_tx_num b f) ≠ 0 := by omega
  obtain ⟨hbe, hmask⟩ := dma_tx_bytes_eq PAGE_SHIFT up.port.xmit hh ht
  have htb : up.port.xmit.tail + b ≤ UART_XMIT_SIZE PAGE_SHIFT := by
    rw [← hb, hbe]; split <;> omega
  have hs := dma_tx_submit_segments PAGE_SHIFT avail prep_ok f b (tx_send_x_char up).2 hne
  rw [(tx_send_x_char_xmit up).2, hmask] at hs
  refine ⟨dma_tx_submit PAGE_SHIFT avail prep_ok f b (tx_send_x_char up).2, ?_, ?_⟩
  · rw [dma_tx_idle PAGE_SHIFT avail prep_ok up hstart huse, hb, hf,
      if_neg (by omega), if_neg (by omega)]
  rw [hs]
  generalize dma_map_sg avail (dma_tx_num b f) = nent at *
  refine ⟨?_, ?_, ?_, ?_, ?_⟩
  · simp only [List.length_map, List.length_range]; omega
  · intro i hi
    have hi' : (i : Int) < nent := by
      simp only [List.length_map, List.length_range] at hi; omega
    simp only [List.get_eq_getElem, List.getElem_map, List.getElem_range]
    have := seg_bounds up.port.xmit.tail (UART_XMIT_SIZE PAGE_SHIFT) b f nent i hb1 hf1 htb hle hi'
    exact ⟨trivial, this.1, this.2.1⟩
  · intro i hi
    have hi' : (i : Int) + 1 < nent := by
      simp only [List.length_map, List.length_range] at hi; omega
    simp only [List.get_eq_getElem, List.getElem_map, List.getElem_range]
    exact (seg_bounds up.port.xmit.tail (UART_XMIT_SIZE PAGE_SHIFT) b f nent i hb1 hf1 htb hle
      (by omega)).2.2 hi'
  · rw [List.map_map]
    exact seg_sum_le b f nent hb1 hf1 h1 hle
  · intro hall
    rw [List.map_map, hall]
    have := seg_lengths_sum b f hb1 hf1
    rw [← dma_tx_lengths_closed b f hb1 hf1, ← sg_dma_lengths _ _ _ hnum] at this
    exact this

/-- C5, the claim as stated fails: with 40 contiguous pending bytes at
`tail = 0`, depth 16 and a mapping that returns one entry for the three
requested, the only segment built is (offset 0, length 8); it does not cover
the ring bytes `[0, 40)`. -/
theorem dma_tx_segments_partial_mapping :
    0 ≤ (started_port 40 0).port.xmit.head ∧
      (started_port 40 0).port.xmit.head < UART_XMIT_SIZE 12 ∧
      (started_port 40 0).port.xmit.tail = 0 ∧
      tx_fifo_size (started_port 40 0) = 16 ∧
      dma_tx_bytes 12 (started_port 40 0).port.xmit = 40 ∧
      (intel_cln_uart_dma_tx 12 1 true (started_port 40 0)).map tx_segments = some [(0, 8)] ∧
      (intel_cln_uart_dma_tx 12 1 true (started_port 40 0)).map
        (fun up => ((tx_segments up).map Prod.snd).sum) = some 8 := by
  decide

/-- C5 (amended) at a concrete port whose pending bytes wrap. -/
theorem dma_tx_segments_in_ring_witness :
    ∃ up', intel_cln_uart_dma_tx 12 3 true (started_port 5 4091) = some up' ∧
      1 ≤ (tx_segments up').length ∧ ((tx_segments up').map Prod.snd).sum = 5 := by
  obtain ⟨up', h, h1, -, -, -, h5⟩ := dma_tx_segments_in_ring 12 3 true (started_port 5 4091) 5 16
    (by decide) (by decide) (by decide) (by decide) (by decide) (by decide) (by decide)
    (by decide) (by decide)
  exact ⟨up', h, h1, h5 (by decide)⟩

theorem foldl_dma_length_tail (l : List scatterlist) (t : Int) :
    l.foldl (fun t sg => t + sg.dma_length) t = t + (l.map fun sg => sg.dma_length).sum := by
  induction l generalizing t with
  | nil => simp
  | cons a l ih => simp only [List.foldl_cons, List.map_cons, List.sum_cons, ih]; ring

theorem foldl_dma_length_count (l : List scatterlist) (c : Int)
    (hc : 0 ≤ c ∧ c < 2 ^ 32) :
    l.foldl (fun c sg => u32_add c sg.dma_length) c =
      u32_add c (l.map fun sg => sg.dma_length).sum := by
  induction l generalizing c with
  | nil =>
    simp only [List.foldl_nil, List.map_nil, List.sum_nil, u32_add, add_zero]
    exact (Int.emod_eq_of_lt hc.1 hc.2).symm
  | cons a l ih =>
    have h2 : 0 ≤ u32_add c a.dma_length ∧ u32_add c a.dma_length < 2 ^ 32 :=
      ⟨Int.emod_nonneg _ (by norm_num), Int.emod_lt_of_pos _ (by norm_num)⟩
    simp only [List.foldl_cons, List.map_cons, List.sum_cons, ih _ h2]
    unfold u32_add
    rw [Int.emod_add_emod, add_assoc]

theorem tx_segments_lengths (up : intel_cln_uart) :
    (tx_segments up).map Prod.snd =
      (up.sg_tx_p.take up.dma_tx_nent.toNat).map fun sg => sg.dma_length := by
  unfold tx_segments
  rw [List.map_map]
  rfl

/-- The completion callback in closed form. -/
theorem tx_complete_eq (PAGE_SHIFT : Nat) (up : intel_cln_uart)
    (hn : up.dma_tx_nent ≤ (up.sg_tx_p.length : Int)) :
    intel_cln_uart_dma_tx_complete PAGE_SHIFT up =
      some { up with
        port := { up.port with
          xmit := { up.port.xmit with
            tail := and_mask (up.port.xmit.tail + ((tx_segments up).map Prod.snd).sum)
              (UART_XMIT_SIZE PAGE_SHIFT) }
          icount_tx := (up.sg_tx_p.take up.dma_tx_nent.toNat).foldl
            (fun c sg => u32_add c sg.dma_length) up.port.icount_tx }
        tx_dma_use := 0
        dma_tx_nent := 0
        sg_tx_p := []
        ier := up.ier ||| UART_IER_THRI
        reg_writes := up.reg_writes ++ [(UART_IER, (up.ier ||| UART_IER_THRI) % 256)] } := by
  unfold intel_cln_uart_dma_tx_complete
  rw [if_neg (by omega), tx_segments_lengths, ← foldl_dma_length_tail]
  rfl

theorem sg_fixup_length (t f size rem nent : Int) (l : List scatterlist) :
    ∀ i : Int, (dma_tx_sg_fixup t f size rem nent i l).length = l.length := by
  induction l with
  | nil => intro i; rfl
  | cons a l ih => intro i; simp only [dma_tx_sg_fixup, List.length_cons, ih]

theorem dma_tx_submit_table_length (PAGE_SHIFT avail : Nat) (prep_ok : Bool) (f b : Int)
    (up : intel_cln_uart) (hne : dma_map_sg avail (dma_tx_num b f) ≠ 0) :
    (dma_tx_submit PAGE_SHIFT avail prep_ok f b up).sg_tx_p.length = (dma_tx_num b f).toNat := by
  rw [(dma_tx_submit_mapped PAGE_SHIFT avail prep_ok f b up hne).2.2.1, sg_fixup_length]
  simp [dma_tx_sg_table]

/-- With a full mapping the segments of the submission stage add up to the
contiguous pending count. -/
theorem dma_tx_submit_sum (PAGE_SHIFT avail : Nat) (prep_ok : Bool) (f b : Int)
    (up : intel_cln_uart) (hb1 : 1 ≤ b) (hf1 : 1 ≤ f)
    (hmap : dma_map_sg avail (dma_tx_num b f) = dma_tx_num b f) :
    ((tx_segments (dma_tx_submit PAGE_SHIFT avail prep_ok f b up)).map Prod.snd).sum = b := by
  have hnum := dma_tx_num_pos b f hb1 hf1
  have hne : dma_map_sg avail (dma_tx_num b f) ≠ 0 := by rw [hmap]; omega
  rw [dma_tx_submit_segments PAGE_SHIFT avail prep_ok f b _ hne, hmap, List.map_map]
  have := seg_lengths_sum b f hb1 hf1
  rw [← dma_tx_lengths_closed b f hb1 hf1, ← sg_dma_lengths _ _ _ hnum] at this
  exact this

/-- C2. TX DMA completion: for every in-flight descriptor set (the first
`dma_tx_nent` entries of the table, with `sg_dma_len` values `l_1..l_n`) the
callback returns, `tail` becomes `(tail + l_1 + ... + l_n) mod UART_XMIT_SIZE`,
the 32-bit transmitted-byte counter grows by the same sum (exactly so when
it does not wrap), `tx_dma_use` and `dma_tx_nent` are 0, and the THRE bit is
set in the interrupt-enable mask, which is written to the register.  After
the submission of 40 contiguous bytes with depth 16, the completion moves
`tail` by 40. -/
theorem dma_tx_complete_advances_tail (PAGE_SHIFT : Nat) (up : intel_cln_uart)
    (hn : up.dma_tx_nent ≤ (up.sg_tx_p.length : Int))
    (hc : 0 ≤ up.port.icount_tx ∧ up.port.icount_tx < 2 ^ 32) :
    (∃ up', intel_cln_uart_dma_tx_complete PAGE_SHIFT up = some up' ∧
      up'.port.xmit.tail =
        (up.port.xmit.tail + ((tx_segments up).map Prod.snd).sum) % UART_XMIT_SIZE PAGE_SHIFT ∧
      up'.port.xmit.head = up.port.xmit.head ∧
      up'.port.icount_tx =
        (up.port.icount_tx + ((tx_segments up).map Prod.snd).sum) % 2 ^ 32 ∧
      (0 ≤ ((tx_segments up).map Prod.snd).sum →
        up.port.icount_tx + ((tx_segments up).map Prod.snd).sum < 2 ^ 32 →
        up'.port.icount_tx = up.port.icount_tx + ((tx_segments up).map Prod.snd).sum) ∧
      up'.tx_dma_use = 0 ∧
      up'.dma_tx_nent = 0 ∧
      up'.ier &&& UART_IER_THRI = UART_IER_THRI ∧
      up'.reg_writes = up.reg_writes ++ [(UART_IER, up'.ier % 256)]) ∧
    (∀ (avail : Nat), up.start_tx ≠ 0 → up.tx_dma_use = 0 →
      dma_tx_bytes PAGE_SHIFT up.port.xmit = 40 → tx_fifo_size up = 16 → 3 ≤ avail →
      ∃ up1 up2, intel_cln_uart_dma_tx PAGE_SHIFT avail true up = some up1 ∧
        intel_cln_uart_dma_tx_complete PAGE_SHIFT up1 = some up2 ∧
        up2.port.xmit.tail = (up.port.xmit.tail + 40) % UART_XMIT_SIZE PAGE_SHIFT) := by
  constructor
  · refine ⟨_, tx_complete_eq PAGE_SHIFT up hn, rfl, rfl, ?_, ?_, rfl, rfl, or_and_self _ _, rfl⟩
    · show List.foldl _ _ _ = _
      rw [foldl_dma_length_count _ _ hc, tx_segments_lengths]
      rfl
    · intro h0 hlt
      show List.foldl _ _ _ = _
      rw [foldl_dma_length_count _ _ hc, tx_segments_lengths]
      exact Int.emod_eq_of_lt (by rw [tx_segments_lengths] at h0; omega)
        (by rw [tx_segments_lengths] at hlt; exact hlt)
  · intro avail hstart huse hb hf hav
    have hnum : dma_tx_num 40 16 = 3 := by decide
    have hmap : dma_map_sg avail (dma_tx_num 40 16) = dma_tx_num 40 16 := by
      rw [hnum]; unfold dma_map_sg
      exact min_eq_right (by exact_mod_cast hav)
    have hne : dma_map_sg avail (dma_tx_num 40 16) ≠ 0 := by rw [hmap, hnum]; decide
    have hsum := dma_tx_submit_sum PAGE_SHIFT avail true 16 40 (tx_send_x_char up).2
      (by decide) (by decide) hmap
    have h1 := (dma_tx_submit_mapped PAGE_SHIFT avail true 16 40 (tx_send_x_char up).2 hne).1
    have h3 := dma_tx_submit_table_length PAGE_SHIFT avail true 16 40 (tx_send_x_char up).2 hne
    have hlen : (dma_tx_submit PAGE_SHIFT avail true 16 40 (tx_send_x_char up).2).dma_tx_nent ≤
        (((dma_tx_submit PAGE_SHIFT avail true 16 40 (tx_send_x_char up).2).sg_tx_p.length : Nat) : Int) := by
      rw [h1, h3, hmap, hnum]; decide
    refine ⟨_, _, ?_, tx_complete_eq PAGE_SHIFT _ hlen, ?_⟩
    · rw [dma_tx_idle PAGE_SHIFT avail true up hstart huse, hb, hf,
        if_neg (by decide), if_neg (by decide)]
    · show and_mask _ _ = _
      rw [hsum, dma_tx_submit_port, (tx_send_x_char_xmit up).2]
      rfl

theorem dma_tx_submit_start (PAGE_SHIFT avail : Nat) (prep_ok : Bool) (f b : Int)
    (up : intel_cln_uart) :
    (dma_tx_submit PAGE_SHIFT avail prep_ok f b up).start_tx = up.start_tx := by
  unfold dma_tx_submit
  dsimp only
  split_ifs <;> rfl

/-- What the completion callback leaves behind. -/
theorem tx_complete_props (PAGE_SHIFT : Nat) (up : intel_cln_uart)
    (hn : up.dma_tx_nent ≤ (up.sg_tx_p.length : Int)) :
    ∃ up', intel_cln_uart_dma_tx_complete PAGE_SHIFT up = some up' ∧
      up'.port.xmit.tail =
        (up.port.xmit.tail + ((tx_segments up).map Prod.snd).sum) % UART_XMIT_SIZE PAGE_SHIFT ∧
      up'.port.xmit.head = up.port.xmit.head ∧
      up'.start_tx = up.start_tx ∧
      up'.tx_dma_use = 0 ∧
      up'.port.x_char = up.port.x_char ∧
      up'.port.fifosize = up.port.fifosize :=
  ⟨_, tx_complete_eq PAGE_SHIFT up hn, rfl, rfl, rfl, rfl, rfl, rfl⟩

/-- A drain whose contiguous pending bytes fit the FIFO depth builds one
segment: all of them, starting at `tail`. -/
theorem dma_tx_single (PAGE_SHIFT avail : Nat) (prep_ok : Bool) (up : intel_cln_uart)
    (b f : Int) (hstart : up.start_tx ≠ 0) (huse : up.tx_dma_use = 0)
    (ht : 0 ≤ up.port.xmit.tail ∧ up.port.xmit.tail < UART_XMIT_SIZE PAGE_SHIFT)
    (hb : dma_tx_bytes PAGE_SHIFT up.port.xmit = b) (hf : tx_fifo_size up = f)
    (hb1 : 1 ≤ b) (hbf : b ≤ f) (hav : 1 ≤ avail) :
    intel_cln_uart_dma_tx PAGE_SHIFT avail prep_ok up =
        some (dma_tx_submit PAGE_SHIFT avail prep_ok f b (tx_send_x_char up).2) ∧
      tx_segments (dma_tx_submit PAGE_SHIFT avail prep_ok f b (tx_send_x_char up).2) =
        [(up.port.xmit.tail, b)] ∧
      (dma_tx_submit PAGE_SHIFT avail prep_ok f b (tx_send_x_char up).2).dma_tx_nent = 1 ∧
      (dma_tx_submit PAGE_SHIFT avail prep_ok f b (tx_send_x_char up).2).sg_tx_p.length = 1 := by
  have hnum : dma_tx_num b f = 1 := by unfold dma_tx_num; rw [if_neg (by omega)]
  have hmap : dma_map_sg avail (dma_tx_num b f) = 1 := by
    rw [hnum]; unfold dma_map_sg
    exact min_eq_right (by exact_mod_cast hav)
  have hne : dma_map_sg avail (dma_tx_num b f) ≠ 0 := by rw [hmap]; decide
  refine ⟨?_, ?_, ?_, ?_⟩
  · rw [dma_tx_idle PAGE_SHIFT avail prep_ok up hstart huse, hb, hf,
      if_neg (by omega), if_neg (by omega)]
  · rw [dma_tx_submit_segments PAGE_SHIFT avail prep_ok f b _ hne, hmap,
      (tx_send_x_char_xmit up).2]
    have hm : and_mask up.port.xmit.tail (UART_XMIT_SIZE PAGE_SHIFT) = up.port.xmit.tail :=
      Int.emod_eq_of_lt ht.1 ht.2
    have hr : dma_tx_rem b f = b := by unfold dma_tx_rem; rw [if_neg (by omega)]
    simp [List.range_succ, hm, hr]
  · rw [(dma_tx_submit_mapped PAGE_SHIFT avail prep_ok f b _ hne).1, hmap]
  · rw [dma_tx_submit_table_length PAGE_SHIFT avail prep_ok f b _ hne, hnum]; rfl

/-- C4 (amended). With `tail = UART_XMIT_SIZE - 5`, `head = 5` (10 pending
bytes, 5 of them before the wrap point) and FIFO depth 16, the drain builds
and submits exactly one segment, of length 5 at offset `UART_XMIT_SIZE - 5`;
its completion leaves `tail = 0`, and the next drain builds one segment of
length 5 at offset 0. -/
theorem dma_tx_wrap_two_submissions (PAGE_SHIFT avail avail2 : Nat) (up : intel_cln_uart)
    (hk : 4 ≤ PAGE_SHIFT) (hstart : up.start_tx ≠ 0) (huse : up.tx_dma_use = 0)
    (hx : up.port.x_char = 0) (hfifo : up.port.fifosize = 16)
    (htail : up.port.xmit.tail = UART_XMIT_SIZE PAGE_SHIFT - 5) (hhead : up.port.xmit.head = 5)
    (hav : 1 ≤ avail) (hav2 : 1 ≤ avail2) :
    ∃ up1 up2 up3,
      intel_cln_uart_dma_tx PAGE_SHIFT avail true up = some up1 ∧
      tx_segments up1 = [(UART_XMIT_SIZE PAGE_SHIFT - 5, 5)] ∧
      up1.tx_descs = up.tx_descs ++ [up1.sg_tx_p.take up1.dma_tx_nent.toNat] ∧
      intel_cln_uart_dma_tx_complete PAGE_SHIFT up1 = some up2 ∧
      up2.port.xmit.tail = 0 ∧ up2.port.xmit.head = 5 ∧
      intel_cln_uart_dma_tx PAGE_SHIFT avail2 true up2 = some up3 ∧
      tx_segments up3 = [(0, 5)] := by
  have hS : (16 : Int) ≤ UART_XMIT_SIZE PAGE_SHIFT := by
    unfold UART_XMIT_SIZE
    calc (16 : Int) = 2 ^ 4 := by norm_num
      _ ≤ 2 ^ PAGE_SHIFT := pow_le_pow_right₀ (by norm_num) hk
  have hf : tx_fifo_size up = 16 := by
    unfold tx_fifo_size; rw [hfifo, if_neg (by simp [hx])]; decide
  have hh : 0 ≤ up.port.xmit.head ∧ up.port.xmit.head < UART_XMIT_SIZE PAGE_SHIFT := by omega
  have ht : 0 ≤ up.port.xmit.tail ∧ up.port.xmit.tail < UART_XMIT_SIZE PAGE_SHIFT := by omega
  have hb : dma_tx_bytes PAGE_SHIFT up.port.xmit = 5 := by
    rw [(dma_tx_bytes_eq PAGE_SHIFT up.port.xmit hh ht).1, if_neg (by omega)]; omega
  have hxc : tx_send_x_char up = (0, up) := tx_send_x_char_none up hx
  obtain ⟨e1, s1, n1, l1⟩ := dma_tx_single PAGE_SHIFT avail true up 5 16 hstart huse ht hb hf
    (by decide) (by decide) hav
  rw [hxc] at e1 s1 n1 l1
  have hne : dma_map_sg avail (dma_tx_num 5 16) ≠ 0 := by
    rw [← (dma_tx_submit_mapped PAGE_SHIFT avail true 16 5 up (by
      unfold dma_map_sg
      have : (1 : Int) ≤ min (avail : Int) (dma_tx_num 5 16) :=
        le_min (by exact_mod_cast hav) (by decide)
      omega)).1, n1]
    decide
  have d1 := (dma_tx_submit_mapped PAGE_SHIFT avail true 16 5 up hne).2.2.2
  have hn : (dma_tx_submit PAGE_SHIFT avail true 16 5 up).dma_tx_nent ≤
      (((dma_tx_submit PAGE_SHIFT avail true 16 5 up).sg_tx_p.length : Nat) : Int) := by
    rw [n1, l1]; decide
  obtain ⟨up2, e2, t2, h2, st2, use2, x2, fs2⟩ := tx_complete_props PAGE_SHIFT _ hn
  rw [s1] at t2
  simp only [List.map_cons, List.map_nil, List.sum_cons, List.sum_nil, add_zero] at t2
  rw [dma_tx_submit_port, htail,
    show UART_XMIT_SIZE PAGE_SHIFT - 5 + 5 = UART_XMIT_SIZE PAGE_SHIFT by ring, Int.emod_self] at t2
  rw [dma_tx_submit_port, hhead] at h2
  rw [dma_tx_submit_start] at st2
  rw [dma_tx_submit_port] at x2 fs2
  have hf2 : tx_fifo_size up2 = 16 := by
    unfold tx_fifo_size; rw [fs2, hfifo, if_neg (by simp [x2, hx])]; decide
  have hh2 : 0 ≤ up2.port.xmit.head ∧ up2.port.xmit.head < UART_XMIT_SIZE PAGE_SHIFT := by omega
  have ht2 : 0 ≤ up2.port.xmit.tail ∧ up2.port.xmit.tail < UART_XMIT_SIZE PAGE_SHIFT := by omega
  have hb2 : dma_tx_bytes PAGE_SHIFT up2.port.xmit = 5 := by
    rw [(dma_tx_bytes_eq PAGE_SHIFT up2.port.xmit hh2 ht2).1, if_pos (by omega)]; omega
  obtain ⟨e3, s3, -, -⟩ := dma_tx_single PAGE_SHIFT avail2 true up2 5 16 (by rw [st2]; exact hstart)
    use2 ht2 hb2 hf2 (by decide) (by decide) hav2
  rw [t2] at s3
  refine ⟨_, up2, _, e1, ?_, ?_, e2, t2, h2, e3, s3⟩
  · rw [s1, htail]
  · rw [d1, if_pos rfl, (dma_tx_submit_mapped PAGE_SHIFT avail true 16 5 up hne).1]

/-- C4, the claim as stated fails: for the ring of size 4096 with
`tail = 4091`, `head = 5` (10 pending bytes) and FIFO depth 16, the drain
builds one segment, (offset 4091, length 5), not two. -/
theorem dma_tx_wrap_one_segment :
    (started_port 5 4091).port.xmit.tail = UART_XMIT_SIZE 12 - 5 ∧
      CIRC_CNT (started_port 5 4091).port.xmit.head (started_port 5 4091).port.xmit.tail
        (UART_XMIT_SIZE 12) = 10 ∧
      tx_fifo_size (started_port 5 4091) = 16 ∧
      (intel_cln_uart_dma_tx 12 3 true (started_port 5 4091)).map tx_segments =
        some [(4091, 5)] := by
  decide

/-- C3. The DMA drain never moves the ring indices: whenever
`intel_cln_uart_dma_tx` returns (it returns in every branch: not started,
already in flight, empty ring, mapping failure, preparation failure,
submission; the one exception is the division by a zero depth), `head` and
`tail` are what they were before the call.  `start_tx` and `stop_tx` leave
them alone as well, so `tail` moves only in the completion callback. -/
theorem dma_tx_ring_frame (PAGE_SHIFT avail : Nat) (prep_ok : Bool) (up : intel_cln_uart) :
    (∀ up', intel_cln_uart_dma_tx PAGE_SHIFT avail prep_ok up = some up' →
      up'.port.xmit.head = up.port.xmit.head ∧ up'.port.xmit.tail = up.port.xmit.tail) ∧
    ((intel_cln_uart_dma_tx PAGE_SHIFT avail prep_ok up).isSome = true ↔
      ¬ (up.start_tx ≠ 0 ∧ up.tx_dma_use = 0 ∧
          dma_tx_bytes PAGE_SHIFT up.port.xmit > tx_fifo_size up ∧ tx_fifo_size up = 0)) ∧
    ((intel_cln_uart_start_tx up).port.xmit.head = up.port.xmit.head ∧
      (intel_cln_uart_start_tx up).port.xmit.tail = up.port.xmit.tail) ∧
    ((intel_cln_uart_stop_tx up).port.xmit.head = up.port.xmit.head ∧
      (intel_cln_uart_stop_tx up).port.xmit.tail = up.port.xmit.tail) := by
  refine ⟨?_, ?_, ⟨rfl, rfl⟩, ⟨rfl, rfl⟩⟩
  · intro up' h
    by_cases hstart : up.start_tx = 0
    · simp only [intel_cln_uart_dma_tx, hstart, if_true, Option.some.injEq] at h
      subst h; exact ⟨rfl, rfl⟩
    by_cases huse : up.tx_dma_use = 0
    · rw [dma_tx_idle PAGE_SHIFT avail prep_ok up hstart huse] at h
      have hx := tx_send_x_char_xmit up
      split_ifs at h
      · simp only [Option.some.injEq] at h
        subst h; exact hx
      · simp only [Option.some.injEq] at h
        subst h
        rw [dma_tx_submit_port]
        exact hx
    · simp only [intel_cln_uart_dma_tx, hstart, huse, if_false, ne_eq, not_false_eq_true,
        if_true, Option.some.injEq] at h
      subst h; exact ⟨rfl, rfl⟩
  · by_cases hstart : up.start_tx = 0
    · simp [intel_cln_uart_dma_tx, hstart]
    by_cases huse : up.tx_dma_use = 0
    · rw [dma_tx_idle PAGE_SHIFT avail prep_ok up hstart huse]
      have hf0 : 0 ≤ tx_fifo_size up := by
        unfold tx_fifo_size
        have : 1 ≤ max (int_of_u32 up.port.fifosize) 1 := le_max_right _ _
        dsimp only
        split <;> omega
      split_ifs with h1 h2
      · simp only [Option.isSome_some, true_iff]
        intro h; omega
      · simp only [Option.isSome_none, Bool.false_eq_true, false_iff, not_not]
        exact ⟨hstart, huse, h2⟩
      · simp only [Option.isSome_some, true_iff]
        intro h; exact h2 h.2.2
    · simp [intel_cln_uart_dma_tx, hstart, huse]

/-- C3 at a concrete port: the drain returns and the indices are unchanged. -/
theorem dma_tx_ring_frame_witness :
    ∃ up', intel_cln_uart_dma_tx 12 3 true (started_port 40 0) = some up' ∧
      up'.port.xmit.head = 40 ∧ up'.port.xmit.tail = 0 := by
  obtain ⟨up', h⟩ := Option.isSome_iff_exists.mp
    ((dma_tx_ring_frame 12 3 true (started_port 40 0)).2.1.mpr (by decide))
  exact ⟨up', h, (dma_tx_ring_frame 12 3 true (started_port 40 0)).1 up' h⟩

/-- C9. A drain while a TX transfer is in flight is rejected: on a started
port with `tx_dma_use` set the call returns, the set of submitted
descriptors, the table and `dma_tx_nent` are unchanged (nothing is prepared
or submitted), its only register write is the interrupt-enable register (so
no byte reaches the data register), the ring indices and the in-flight flag
are unchanged, and the THRE bit is clear in the interrupt-enable mask. -/
theorem dma_tx_in_flight_rejected (PAGE_SHIFT avail : Nat) (prep_ok : Bool)
    (up : intel_cln_uart) (hstart : up.start_tx ≠ 0) (huse : up.tx_dma_use ≠ 0) :
    ∃ up', intel_cln_uart_dma_tx PAGE_SHIFT avail prep_ok up = some up' ∧
      up'.tx_descs = up.tx_descs ∧
      up'.sg_tx_p = up.sg_tx_p ∧
      up'.dma_tx_nent = up.dma_tx_nent ∧
      up'.reg_writes = up.reg_writes ++ [(UART_IER, up'.ier % 256)] ∧
      UART_IER ≠ UART_TX ∧
      up'.port.xmit.head = up.port.xmit.head ∧
      up'.port.xmit.tail = up.port.xmit.tail ∧
      up'.tx_dma_use = up.tx_dma_use ∧
      up'.ier &&& UART_IER_THRI = 0 := by
  refine ⟨{ thri_disable up with tx_empty := 1 }, ?_, rfl, rfl, rfl, rfl, by decide, rfl, rfl,
    rfl, and_not_and_self _ _⟩
  simp [intel_cln_uart_dma_tx, hstart, huse]

/-- C1 at a concrete port: 40 pending bytes from `tail = 0`, depth 16, full
mapping. -/
theorem dma_tx_segment_lengths_witness :
    ∃ up', intel_cln_uart_dma_tx 12 3 true (started_port 40 0) = some up' ∧
      (tx_segments up').map Prod.snd = [16, 16, 8] ∧
      up'.tx_descs = [up'.sg_tx_p.take up'.dma_tx_nent.toNat] := by
  obtain ⟨up', h, -, -, -, h4, h5⟩ := dma_tx_segment_lengths 12 3 true (started_port 40 0) 40 16
    (by decide) (by decide) (by decide) (by decide) (by decide) (by decide) (by decide)
  exact ⟨up', h, h5 rfl rfl, h4 rfl⟩

/-- C2 at a concrete port: the completion of the 40-byte submission. -/
theorem dma_tx_complete_advances_tail_witness :
    ∃ up', intel_cln_uart_dma_tx_complete 12 in_flight_port = some up' ∧
      up'.port.xmit.tail = 40 ∧ up'.port.icount_tx = 40 ∧ up'.tx_dma_use = 0 := by
  obtain ⟨up', h, ht, -, hc, -, hu, -⟩ :=
    (dma_tx_complete_advances_tail 12 in_flight_port (by decide) (by decide)).1
  exact ⟨up', h, ht.trans (by decide), hc.trans (by decide), hu⟩

/-- C4 (amended) at the ring of size 4096. -/
theorem dma_tx_wrap_two_submissions_witness :
    ∃ up1 up2 up3,
      intel_cln_uart_dma_tx 12 1 true (started_port 5 4091) = some up1 ∧
      tx_segments up1 = [(4091, 5)] ∧
      intel_cln_uart_dma_tx_complete 12 up1 = some up2 ∧
      intel_cln_uart_dma_tx 12 1 true up2 = some up3 ∧
      tx_segments up3 = [(0, 5)] := by
  obtain ⟨up1, up2, up3, h1, s1, -, h2, -, -, h3, s3⟩ :=
    dma_tx_wrap_two_submissions 12 1 1 (started_port 5 4091) (by decide) (by decide) (by decide)
      (by decide) (by decide) (by decide) (by decide) (by decide) (by decide)
  exact ⟨up1, up2, up3, h1, s1, h2, h3, s3⟩

/-- C9 at a concrete port with a descriptor set in flight. -/
theorem dma_tx_in_flight_rejected_witness :
    ∃ up', intel_cln_uart_dma_tx 12 3 true in_flight_port = some up' ∧
      up'.tx_descs = in_flight_port.tx_descs ∧ up'.ier &&& UART_IER_THRI = 0 := by
  obtain ⟨up', h, hd, -, -, -, -, -, -, -, hi⟩ :=
    dma_tx_in_flight_rejected 12 3 true in_flight_port (by decide) (by decide)
  exact ⟨up', h, hd, hi⟩

/-! ## The PIO drain -/

theorem circ_cnt_eq (S h t : Int) (hh : 0 ≤ h ∧ h < S) (ht : 0 ≤ t ∧ t < S) :
    CIRC_CNT h t S = (if t ≤ h then h - t else h - t + S) ∧
      CIRC_CNT_TO_END h t S = (if t ≤ h then h - t else S - t) := by
  unfold CIRC_CNT CIRC_CNT_TO_END and_mask
  have e1 : (h + (S - t)) % S = (h - t) % S := by
    rw [show h + (S - t) = (h - t) + S by ring, Int.add_emod_self]
  simp only [e1]
  by_cases hle : t ≤ h
  · rw [Int.emod_eq_of_lt (by omega) (by omega), if_pos hle]
    refine ⟨rfl, ?_⟩
    split <;> omega
  · have e2 : (h - t) % S = h - t + S := by
      rw [← Int.add_emod_self, Int.emod_eq_of_lt (by omega) (by omega)]
    rw [e2, if_neg hle]
    refine ⟨rfl, ?_⟩
    split <;> omega

/-- One pass through the body of the `do ... while` loop of `pop_tx`. -/
theorem pop_tx_loop_succ (PAGE_SHIFT : Nat) (size : Int) (fuel : Nat) (count : Int)
    (up : intel_cln_uart) :
    pop_tx_loop PAGE_SHIFT size (fuel + 1) count up =
      if up.port.xmit.head ≠
            and_mask (up.port.xmit.tail + min (size - count)
              (CIRC_CNT_TO_END up.port.xmit.head up.port.xmit.tail (UART_XMIT_SIZE PAGE_SHIFT)))
              (UART_XMIT_SIZE PAGE_SHIFT) ∧
          count + min (size - count)
            (CIRC_CNT_TO_END up.port.xmit.head up.port.xmit.tail (UART_XMIT_SIZE PAGE_SHIFT)) < size then
        pop_tx_loop PAGE_SHIFT size fuel
          (count + min (size - count)
            (CIRC_CNT_TO_END up.port.xmit.head up.port.xmit.tail (UART_XMIT_SIZE PAGE_SHIFT)))
          { up with
            port := { up.port with
              xmit := { up.port.xmit with
                tail := and_mask (up.port.xmit.tail + min (size - count)
                  (CIRC_CNT_TO_END up.port.xmit.head up.port.xmit.tail (UART_XMIT_SIZE PAGE_SHIFT)))
                  (UART_XMIT_SIZE PAGE_SHIFT) } }
            reg_writes := up.reg_writes ++
              (List.range (min (size - count)
                (CIRC_CNT_TO_END up.port.xmit.head up.port.xmit.tail
                  (UART_XMIT_SIZE PAGE_SHIFT))).toNat).map fun (i : Nat) =>
                    (UART_TX, up.port.xmit.buf (up.port.xmit.tail + (i : Int)) % 256) }
      else
        some (count + min (size - count)
            (CIRC_CNT_TO_END up.port.xmit.head up.port.xmit.tail (UART_XMIT_SIZE PAGE_SHIFT)),
          { up with
            port := { up.port with
              xmit := { up.port.xmit with
                tail := and_mask (up.port.xmit.tail + min (size - count)
                  (CIRC_CNT_TO_END up.port.xmit.head up.port.xmit.tail (UART_XMIT_SIZE PAGE_SHIFT)))
                  (UART_XMIT_SIZE PAGE_SHIFT) } }
            reg_writes := up.reg_writes ++
              (List.range (min (size - count)
                (CIRC_CNT_TO_END up.port.xmit.head up.port.xmit.tail
                  (UART_XMIT_SIZE PAGE_SHIFT))).toNat).map fun (i : Nat) =>
                    (UART_TX, up.port.xmit.buf (up.port.xmit.tail + (i : Int)) % 256) }) := by
  rw [pop_tx_loop]
  simp only [hal_write_eq]

/-- A chunk that does not reach past the end of the ring is the next bytes
in ring order. -/
theorem tx_data_chunk (PAGE_SHIFT : Nat) (xmit : circ_buf) (n : Nat)
    (ht : 0 ≤ xmit.tail) (hn : xmit.tail + (n : Int) ≤ UART_XMIT_SIZE PAGE_SHIFT) :
    (List.range n).map (fun (i : Nat) => (UART_TX, xmit.buf (xmit.tail + (i : Int)) % 256)) =
      tx_data PAGE_SHIFT xmit n := by
  unfold tx_data ring_bytes
  rw [List.map_map]
  apply List.map_congr_left
  intro i hi
  have := List.mem_range.mp hi
  simp only [Function.comp, and_mask]
  rw [Int.emod_eq_of_lt (by omega) (by omega)]

/-- Ring order is associative: `a + b` bytes from `tail` are `a` bytes from
`tail` followed by `b` bytes from the advanced `tail`. -/
theorem tx_data_add (PAGE_SHIFT : Nat) (xmit : circ_buf) (a b : Nat) :
    tx_data PAGE_SHIFT xmit (a + b) =
      tx_data PAGE_SHIFT xmit a ++
        tx_data PAGE_SHIFT
          { xmit with tail := and_mask (xmit.tail + (a : Int)) (UART_XMIT_SIZE PAGE_SHIFT) } b := by
  unfold tx_data ring_bytes
  rw [List.range_add, List.map_append, List.map_append, List.map_map, List.map_map,
    List.map_map, List.map_map]
  congr 1
  apply List.map_congr_left
  intro i _
  simp only [Function.comp, and_mask, Int.emod_add_emod]
  push_cast
  rw [add_assoc]

/-- `pop_tx` in closed form, for ring indices inside the ring and a
transmitter that is not flow-stopped: two passes through the loop suffice,
the number of bytes sent is `min(max(size, 0), pending)`, they are the next
ring bytes in ring order, and `tail` advances by exactly that number. -/
theorem pop_tx_spec (PAGE_SHIFT fuel : Nat) (up : intel_cln_uart) (size c : Int)
    (hstop : up.tx_stopped = false)
    (hh : 0 ≤ up.port.xmit.head ∧ up.port.xmit.head < UART_XMIT_SIZE PAGE_SHIFT)
    (ht : 0 ≤ up.port.xmit.tail ∧ up.port.xmit.tail < UART_XMIT_SIZE PAGE_SHIFT)
    (hc : c = min (max size 0)
      (CIRC_CNT up.port.xmit.head up.port.xmit.tail (UART_XMIT_SIZE PAGE_SHIFT))) :
    pop_tx PAGE_SHIFT (fuel + 2) up size =
      some (c, { up with
        port := { up.port with
          xmit := { up.port.xmit with
            tail := and_mask (up.port.xmit.tail + c) (UART_XMIT_SIZE PAGE_SHIFT) } }
        reg_writes := up.reg_writes ++ tx_data PAGE_SHIFT up.port.xmit c.toNat }) := by
  obtain ⟨hp, he⟩ := circ_cnt_eq (UART_XMIT_SIZE PAGE_SHIFT) up.port.xmit.head up.port.xmit.tail
    hh ht
  have hm : ∀ x : Int, 0 ≤ x → x < UART_XMIT_SIZE PAGE_SHIFT →
      and_mask x (UART_XMIT_SIZE PAGE_SHIFT) = x := fun x h0 h1 => Int.emod_eq_of_lt h0 h1
  have hmS : ∀ x : Int, 0 ≤ x → x < UART_XMIT_SIZE PAGE_SHIFT →
      and_mask (UART_XMIT_SIZE PAGE_SHIFT + x) (UART_XMIT_SIZE PAGE_SHIFT) = x := by
    intro x h0 h1
    unfold and_mask
    rw [add_comm, Int.add_emod_self, Int.emod_eq_of_lt h0 h1]
  rw [hp] at hc
  unfold pop_tx
  by_cases hq : up.port.xmit.head = up.port.xmit.tail ∨ 0 ≥ size
  · have hc0 : c = 0 := by
      rw [hc]; rcases hq with hq | hq
      · rw [if_pos (by omega)]; simp only [min_def, max_def]; split_ifs <;> omega
      · simp only [min_def, max_def]; split_ifs <;> omega
    rw [if_pos (Or.inr hq), hc0, add_zero, hm _ ht.1 ht.2]
    simp [tx_data, ring_bytes]
  · have hne : up.port.xmit.head ≠ up.port.xmit.tail := fun h => hq (Or.inl h)
    have hsz : 0 < size := by
      by_contra h; exact hq (Or.inr (by omega))
    have hif : ¬ (up.tx_stopped = true ∨ up.port.xmit.head = up.port.xmit.tail ∨ 0 ≥ size) := by
      rw [hstop]; simpa using hq
    rw [if_neg hif, pop_tx_loop_succ, he]
    by_cases hle : up.port.xmit.tail ≤ up.port.xmit.head
    · -- the pending bytes do not wrap
      rw [if_pos hle] at hc ⊢
      have hsz1 : min (size - 0) (up.port.xmit.head - up.port.xmit.tail) = c := by
        rw [hc]; simp only [min_def, max_def]; split_ifs <;> omega
      have hc1 : 0 ≤ c ∧ up.port.xmit.tail + c ≤ up.port.xmit.head ∧
          (c = size ∨ up.port.xmit.tail + c = up.port.xmit.head) := by
        rw [hc]; simp only [min_def, max_def]; split_ifs <;> omega
      rw [hsz1, zero_add, hm _ (by omega) (by omega), if_neg (by omega)]
      have := tx_data_chunk PAGE_SHIFT up.port.xmit c.toNat ht.1 (by omega)
      rw [this]
    · -- the pending bytes wrap
      rw [if_neg hle] at hc ⊢
      by_cases hse : size ≤ UART_XMIT_SIZE PAGE_SHIFT - up.port.xmit.tail
      · have hsz1 : min (size - 0) (UART_XMIT_SIZE PAGE_SHIFT - up.port.xmit.tail) = c := by
          rw [hc]; simp only [min_def, max_def]; split_ifs <;> omega
        have hc1 : c = size := by
          rw [hc]; simp only [min_def, max_def]; split_ifs <;> omega
        rw [hsz1, zero_add, if_neg (by omega)]
        have := tx_data_chunk PAGE_SHIFT up.port.xmit c.toNat ht.1 (by omega)
        rw [this]
      · have hsz1 : min (size - 0) (UART_XMIT_SIZE PAGE_SHIFT - up.port.xmit.tail) =
            UART_XMIT_SIZE PAGE_SHIFT - up.port.xmit.tail := by
          simp only [min_def]; split_ifs <;> omega
        have h0 : and_mask (up.port.xmit.tail + (UART_XMIT_SIZE PAGE_SHIFT - up.port.xmit.tail))
            (UART_XMIT_SIZE PAGE_SHIFT) = 0 := by
          rw [show up.port.xmit.tail + (UART_XMIT_SIZE PAGE_SHIFT - up.port.xmit.tail) =
            UART_XMIT_SIZE PAGE_SHIFT by ring]
          exact Int.emod_self
        have hch1 := tx_data_chunk PAGE_SHIFT up.port.xmit
          (UART_XMIT_SIZE PAGE_SHIFT - up.port.xmit.tail).toNat ht.1 (by omega)
        rw [hsz1, zero_add, h0, hch1]
        by_cases hh0 : up.port.xmit.head = 0
        · have hc1 : c = UART_XMIT_SIZE PAGE_SHIFT - up.port.xmit.tail := by
            rw [hc]; simp only [min_def, max_def]; split_ifs <;> omega
          rw [if_neg (by omega), hc1, h0]
        · rw [if_pos ⟨hh0, by omega⟩, pop_tx_loop_succ]
          dsimp only
          rw [(circ_cnt_eq (UART_XMIT_SIZE PAGE_SHIFT) up.port.xmit.head 0 hh (by omega)).2,
            if_pos hh.1]
          have hc2 : c = (UART_XMIT_SIZE PAGE_SHIFT - up.port.xmit.tail) +
              min (size - (UART_XMIT_SIZE PAGE_SHIFT - up.port.xmit.tail))
                (up.port.xmit.head - 0) := by
            rw [hc]; simp only [min_def, max_def]; split_ifs <;> omega
          have hs2 : 0 ≤ min (size - (UART_XMIT_SIZE PAGE_SHIFT - up.port.xmit.tail))
                (up.port.xmit.head - 0) ∧
              min (size - (UART_XMIT_SIZE PAGE_SHIFT - up.port.xmit.tail))
                (up.port.xmit.head - 0) ≤ up.port.xmit.head ∧
              (min (size - (UART_XMIT_SIZE PAGE_SHIFT - up.port.xmit.tail))
                (up.port.xmit.head - 0) = up.port.xmit.head ∨
               (UART_XMIT_SIZE PAGE_SHIFT - up.port.xmit.tail) +
                min (size - (UART_XMIT_SIZE PAGE_SHIFT - up.port.xmit.tail))
                  (up.port.xmit.head - 0) = size) := by
            simp only [min_def]; split_ifs <;> omega
          generalize min (size - (UART_XMIT_SIZE PAGE_SHIFT - up.port.xmit.tail))
                (up.port.xmit.head - 0) = s2 at hc2 hs2 ⊢
          rw [zero_add, hm s2 (by omega) (by omega), if_neg (by omega)]
          have hch2 := tx_data_chunk PAGE_SHIFT
            { up.port.xmit with tail := 0 } s2.toNat (le_refl _) (by
              show (0 : Int) + _ ≤ _
              omega)
          simp only [zero_add] at hch2 ⊢
          rw [hch2, List.append_assoc]
          have hadd := tx_data_add PAGE_SHIFT up.port.xmit
            (UART_XMIT_SIZE PAGE_SHIFT - up.port.xmit.tail).toNat s2.toNat
          rw [Int.toNat_of_nonneg (by omega), h0] at hadd
          rw [← hadd, hc2]
          have e1 : up.port.xmit.tail + (UART_XMIT_SIZE PAGE_SHIFT - up.port.xmit.tail + s2) =
              UART_XMIT_SIZE PAGE_SHIFT + s2 := by ring
          have e2 : (UART_XMIT_SIZE PAGE_SHIFT - up.port.xmit.tail + s2).toNat =
              (UART_XMIT_SIZE PAGE_SHIFT - up.port.xmit.tail).toNat + s2.toNat := by omega
          rw [e1, hmS s2 (by omega) (by omega), e2]

/-- One PIO drain on a started, not flow-stopped port without out-of-band
character, in closed form. -/
theorem pio_drain (PAGE_SHIFT fuel : Nat) (up : intel_cln_uart) (p f : Int)
    (hstart : up.start_tx ≠ 0) (hstop : up.tx_stopped = false) (hx : up.port.x_char = 0)
    (hh : 0 ≤ up.port.xmit.head ∧ up.port.xmit.head < UART_XMIT_SIZE PAGE_SHIFT)
    (ht : 0 ≤ up.port.xmit.tail ∧ up.port.xmit.tail < UART_XMIT_SIZE PAGE_SHIFT)
    (hp : CIRC_CNT up.port.xmit.head up.port.xmit.tail (UART_XMIT_SIZE PAGE_SHIFT) = p)
    (hf : tx_fifo_size up = f) :
    ∃ up', intel_cln_uart_tx PAGE_SHIFT (fuel + 2) up = some up' ∧
      up'.port.xmit =
        { up.port.xmit with
          tail := (up.port.xmit.tail + min p f) % UART_XMIT_SIZE PAGE_SHIFT } ∧
      up'.reg_writes = up.reg_writes ++ tx_data PAGE_SHIFT up.port.xmit (min p f).toNat ++
        (if min p f = 0 then [(UART_IER, up'.ier % 256)] else []) ∧
      up'.port.icount_tx =
        (if 0 < min p f then u32_add up.port.icount_tx (min p f) else up.port.icount_tx) ∧
      up'.tx_empty = (if min p f = 0 then 1 else 0) ∧
      up'.start_tx = up.start_tx ∧ up'.tx_stopped = up.tx_stopped ∧
      up'.port.x_char = up.port.x_char ∧ up'.port.fifosize = up.port.fifosize := by
  obtain ⟨hpe, -⟩ := circ_cnt_eq (UART_XMIT_SIZE PAGE_SHIFT) up.port.xmit.head
    up.port.xmit.tail hh ht
  have hf1 : 1 ≤ f := by
    rw [← hf]; unfold tx_fifo_size
    have : 1 ≤ max (int_of_u32 up.port.fifosize) 1 := le_max_right _ _
    dsimp only
    rw [if_neg (by simp [hx])]; exact this
  have hfm : max (int_of_u32 up.port.fifosize) 1 = f := by
    rw [← hf]; unfold tx_fifo_size; dsimp only; rw [if_neg (by simp [hx])]
  have hc : min p f = min (max
      (if min (up.port.xmit.head - up.port.xmit.tail) f < 0 then f
        else min (up.port.xmit.head - up.port.xmit.tail) f) 0)
      (CIRC_CNT up.port.xmit.head up.port.xmit.tail (UART_XMIT_SIZE PAGE_SHIFT)) := by
    rw [hp]; rw [hpe] at hp
    simp only [min_def, max_def]; split_ifs at hp ⊢ <;> omega
  have hpop := pop_tx_spec PAGE_SHIFT fuel up _ (min p f) hstop hh ht hc
  have hcn : 0 ≤ min p f := by
    rw [hpe] at hp
    simp only [min_def]; split_ifs at hp ⊢ <;> omega
  have hrun : intel_cln_uart_tx PAGE_SHIFT (fuel + 2) up =
      some (tx_finish 1 (min p f)
        { up with
          port := { up.port with
            xmit := { up.port.xmit with
              tail := and_mask (up.port.xmit.tail + min p f) (UART_XMIT_SIZE PAGE_SHIFT) } }
          reg_writes := up.reg_writes ++ tx_data PAGE_SHIFT up.port.xmit (min p f).toNat }) := by
    unfold intel_cln_uart_tx
    rw [if_neg hstart]
    simp only [tx_send_x_char_none up hx, hfm, ne_eq, not_true_eq_false, if_false]
    rw [hpop]
  refine ⟨_, hrun, ?_⟩
  unfold tx_finish
  by_cases h0 : min p f = 0
  · have h0' : ¬ (min p f > 0) := by omega
    have h0'' : ¬ (0 < min p f) := by omega
    simp only [h0, h0', h0'', if_false, if_true, ne_eq, one_ne_zero, not_false_eq_true]
    refine ⟨?_, ?_, ?_, ?_, ?_, ?_, ?_, ?_⟩ <;> rfl
  · have h0' : min p f > 0 := by omega
    simp only [h0, h0', if_false, if_true, ne_eq, not_true_eq_false]
    refine ⟨?_, ?_, ?_, ?_, ?_, ?_, ?_, ?_⟩ <;>
      first | rfl | trivial | simp [and_mask]

theorem and_mask_cases (S x : Int) (h0 : 0 ≤ x) (h1 : x < 2 * S) :
    x % S = if x < S then x else x - S := by
  split
  · exact Int.emod_eq_of_lt h0 (by omega)
  · rw [← Int.emod_sub_cancel]
    exact Int.emod_eq_of_lt (by omega) (by omega)

/-- C6. PIO drain: on a started port whose transmitter is not flow-stopped,
with no out-of-band character pending, ring indices inside the ring, `p`
pending bytes and FIFO depth `f` (which is at least 1), one
`intel_cln_uart_tx` (two passes of fuel suffice) writes exactly `min(p, f)`
bytes to the data register, namely the next `min(p, f)` ring bytes from
`tail` in ring order, and leaves `tail = (tail + min(p, f)) mod
UART_XMIT_SIZE`; the only other register write is the interrupt-enable
register when nothing was pending.  With 20 pending bytes and depth 16 the
first drain writes 16 bytes and moves `tail` by 16, the second writes the
remaining 4 and moves `tail` by 4, and the ring is empty. -/
theorem pio_drain_sends_min (PAGE_SHIFT fuel : Nat) (up : intel_cln_uart) (p f : Int)
    (hfuel : 2 ≤ fuel)
    (hstart : up.start_tx ≠ 0) (hstop : up.tx_stopped = false) (hx : up.port.x_char = 0)
    (hh : 0 ≤ up.port.xmit.head ∧ up.port.xmit.head < UART_XMIT_SIZE PAGE_SHIFT)
    (ht : 0 ≤ up.port.xmit.tail ∧ up.port.xmit.tail < UART_XMIT_SIZE PAGE_SHIFT)
    (hp : CIRC_CNT up.port.xmit.head up.port.xmit.tail (UART_XMIT_SIZE PAGE_SHIFT) = p)
    (hf : tx_fifo_size up = f) :
    1 ≤ f ∧
    (∃ up', intel_cln_uart_tx PAGE_SHIFT fuel up = some up' ∧
      up'.reg_writes = up.reg_writes ++ tx_data PAGE_SHIFT up.port.xmit (min p f).toNat ++
        (if min p f = 0 then [(UART_IER, up'.ier % 256)] else []) ∧
      (tx_data PAGE_SHIFT up.port.xmit (min p f).toNat).length = (min p f).toNat ∧
      0 ≤ min p f ∧
      up'.port.xmit.tail = (up.port.xmit.tail + min p f) % UART_XMIT_SIZE PAGE_SHIFT ∧
      up'.port.xmit.head = up.port.xmit.head) ∧
    (p = 20 → f = 16 →
      ∃ up1 up2, intel_cln_uart_tx PAGE_SHIFT fuel up = some up1 ∧
        up1.reg_writes = up.reg_writes ++ tx_data PAGE_SHIFT up.port.xmit 16 ∧
        up1.port.xmit.tail = (up.port.xmit.tail + 16) % UART_XMIT_SIZE PAGE_SHIFT ∧
        intel_cln_uart_tx PAGE_SHIFT fuel up1 = some up2 ∧
        up2.reg_writes = up1.reg_writes ++ tx_data PAGE_SHIFT up1.port.xmit 4 ∧
        up2.port.xmit.tail = (up1.port.xmit.tail + 4) % UART_XMIT_SIZE PAGE_SHIFT ∧
        up2.reg_writes = up.reg_writes ++ tx_data PAGE_SHIFT up.port.xmit 20 ∧
        up2.port.xmit.head = up2.port.xmit.tail) := by
  obtain ⟨n, rfl⟩ : ∃ n, fuel = n + 2 := ⟨fuel - 2, by omega⟩
  have hf1 : 1 ≤ f := by
    rw [← hf]; unfold tx_fifo_size
    have : 1 ≤ max (int_of_u32 up.port.fifosize) 1 := le_max_right _ _
    dsimp only
    rw [if_neg (by simp [hx])]; exact this
  obtain ⟨hpe, -⟩ := circ_cnt_eq (UART_XMIT_SIZE PAGE_SHIFT) up.port.xmit.head
    up.port.xmit.tail hh ht
  refine ⟨hf1, ?_, ?_⟩
  · obtain ⟨up', h, hx', hw, -, -, -, -, -, -⟩ :=
      pio_drain PAGE_SHIFT n up p f hstart hstop hx hh ht hp hf
    refine ⟨up', h, hw, by simp [tx_data, ring_bytes], ?_, by rw [hx'], by rw [hx']⟩
    rw [hpe] at hp
    simp only [min_def]; split_ifs at hp ⊢ <;> omega
  · intro hp20 hf16
    subst hp20 hf16
    obtain ⟨up1, h1, x1, w1, -, -, s1, st1, xc1, fs1⟩ :=
      pio_drain PAGE_SHIFT n up 20 16 hstart hstop hx hh ht hp hf
    have hm : min (20 : Int) 16 = 16 := by decide
    rw [hm] at x1 w1
    simp only [show ¬ ((16 : Int) = 0) by decide, if_false, List.append_nil,
      show (16 : Int).toNat = 16 by decide] at w1
    rw [hpe] at hp
    have hS : (20 : Int) < UART_XMIT_SIZE PAGE_SHIFT := by split_ifs at hp <;> omega
    have hc1 := and_mask_cases (UART_XMIT_SIZE PAGE_SHIFT) (up.port.xmit.tail + 16)
      (by omega) (by omega)
    have hh1 : 0 ≤ up1.port.xmit.head ∧ up1.port.xmit.head < UART_XMIT_SIZE PAGE_SHIFT := by
      rw [x1]; exact hh
    have ht1 : 0 ≤ up1.port.xmit.tail ∧ up1.port.xmit.tail < UART_XMIT_SIZE PAGE_SHIFT := by
      rw [x1]
      exact ⟨Int.emod_nonneg _ (by omega), Int.emod_lt_of_pos _ (by omega)⟩
    have hp1 : CIRC_CNT up1.port.xmit.head up1.port.xmit.tail (UART_XMIT_SIZE PAGE_SHIFT) = 4 := by
      rw [(circ_cnt_eq _ _ _ hh1 ht1).1, x1]
      dsimp only
      rw [hc1]
      split_ifs at hp ⊢ <;> omega
    have hf1' : tx_fifo_size up1 = 16 := by
      rw [← hf]; unfold tx_fifo_size; rw [xc1, fs1]
    obtain ⟨up2, h2, x2, w2, -, -, -, -, -, -⟩ :=
      pio_drain PAGE_SHIFT n up1 4 16 (by rw [s1]; exact hstart) (by rw [st1]; exact hstop)
        (by rw [xc1]; exact hx) hh1 ht1 hp1 hf1'
    have hm2 : min (4 : Int) 16 = 4 := by decide
    rw [hm2] at x2 w2
    simp only [show ¬ ((4 : Int) = 0) by decide, if_false, List.append_nil,
      show (4 : Int).toNat = 4 by decide] at w2
    have hadd := tx_data_add PAGE_SHIFT up.port.xmit 16 4
    have hx1' : up1.port.xmit =
        { up.port.xmit with
          tail := and_mask (up.port.xmit.tail + ((16 : Nat) : Int)) (UART_XMIT_SIZE PAGE_SHIFT) } := by
      rw [x1]; rfl
    rw [← hx1'] at hadd
    refine ⟨up1, up2, h1, w1, by rw [x1], h2, w2, by rw [x2], ?_, ?_⟩
    · rw [w2, w1, List.append_assoc, ← hadd]
    · rw [x2]
      dsimp only
      have hc2 := and_mask_cases (UART_XMIT_SIZE PAGE_SHIFT) (up1.port.xmit.tail + 4)
        (by omega) (by omega)
      rw [hc2, x1]
      dsimp only
      rw [hc1]
      split_ifs at hp ⊢ <;> omega

/-- C6 at a concrete port: 20 pending bytes, depth 16. -/
theorem pio_drain_sends_min_witness :
    ∃ up1 up2, intel_cln_uart_tx 12 2 (started_port 20 0) = some up1 ∧
      up1.port.xmit.tail = 16 ∧
      intel_cln_uart_tx 12 2 up1 = some up2 ∧
      up2.port.xmit.tail = 20 ∧ up2.port.xmit.head = up2.port.xmit.tail := by
  obtain ⟨up1, up2, h1, -, t1, h2, -, t2, -, he⟩ :=
    (pio_drain_sends_min 12 2 (started_port 20 0) 20 16 (by decide) (by decide) (by decide)
      (by decide) (by decide) (by decide) (by decide) (by decide)).2.2 rfl rfl
  have t1' : up1.port.xmit.tail = 16 := t1.trans (by decide)
  refine ⟨up1, up2, h1, t1', h2, ?_, he⟩
  rw [t2, t1']; decide

/-! ## The receive engine -/

theorem or_and_not_self (a b c : Nat) : (and_not a b ||| c) &&& b = c &&& b := by
  apply Nat.eq_of_testBit_eq
  intro i
  simp only [and_not, Nat.testBit_and, Nat.testBit_or, Nat.testBit_xor]
  cases a.testBit i <;> cases b.testBit i <;> cases c.testBit i <;> rfl

/-- The line-status register shows data-ready exactly when the receive FIFO
holds a byte. -/
theorem serial_in_lsr (up : intel_cln_uart) :
    (serial_in up UART_LSR).2 = up ∧
      ((serial_in up UART_LSR).1 &&& UART_LSR_DR ≠ 0 ↔ up.rx_fifo ≠ []) := by
  unfold serial_in
  rw [if_neg (by decide), if_pos rfl]
  refine ⟨rfl, ?_⟩
  dsimp only
  rw [or_and_not_self]
  by_cases h : up.rx_fifo = []
  · simp [h]
  · simp [h, UART_LSR_DR]

theorem staged_zero (i : Int) (fifo : List Nat) (buf : Int → Nat) : staged i 0 fifo buf = buf := by
  funext j
  unfold staged
  rw [if_neg (by push_cast; omega)]

theorem staged_succ (i : Int) (m : Nat) (b : Nat) (rest : List Nat) (buf : Int → Nat) :
    staged (i + 1) m rest (Function.update buf i b) = staged i (m + 1) (b :: rest) buf := by
  funext j
  unfold staged
  by_cases h1 : j = i
  · subst h1
    rw [if_neg (by omega), if_pos (by push_cast; omega)]
    simp
  · by_cases h2 : i + 1 ≤ j ∧ j < i + 1 + (m : Int)
    · rw [if_pos h2, if_pos (by push_cast; omega)]
      have : (j - i).toNat = (j - (i + 1)).toNat + 1 := by omega
      rw [this]
      rfl
    · rw [if_neg h2, if_neg (by push_cast; omega), Function.update_noteq h1]

/-- The read loop of `intel_cln_uart_hal_read` in closed form: from index `i`
it takes `min(rx_size - i, FIFO length)` bytes out of the FIFO, in order,
into the staging buffer. -/
theorem hal_read_loop_spec (rx_size : Int) :
    ∀ (n : Nat) (i : Int) (up : intel_cln_uart), (rx_size - i).toNat ≤ n →
      hal_read_loop rx_size n i (serial_in up UART_LSR).1 up =
        (i + ((min (rx_size - i).toNat up.rx_fifo.length : Nat) : Int),
          { up with
            rx_fifo := up.rx_fifo.drop (min (rx_size - i).toNat up.rx_fifo.length)
            rbr_reads := up.rbr_reads ++
              up.rx_fifo.take (min (rx_size - i).toNat up.rx_fifo.length)
            rxbuf := { up.rxbuf with
              buf_virt := staged i (min (rx_size - i).toNat up.rx_fifo.length) up.rx_fifo
                up.rxbuf.buf_virt } }) := by
  intro n
  induction n with
  | zero =>
    intro i up hn
    have h0 : (rx_size - i).toNat = 0 := by omega
    simp [hal_read_loop, h0, staged_zero]
  | succ n ih =>
    intro i up hn
    rw [hal_read_loop]
    by_cases hc : i < rx_size ∧ (serial_in up UART_LSR).1 &&& UART_LSR_DR ≠ 0
    · rw [if_pos hc]
      have hne := (serial_in_lsr up).2.mp hc.2
      obtain ⟨b, rest, hfifo⟩ := List.exists_cons_of_ne_nil hne
      have hrx : serial_in up UART_RX =
          (b, { up with rx_fifo := rest, rbr_reads := up.rbr_reads ++ [b] }) := by
        unfold serial_in
        rw [if_pos rfl, hfifo]
      rw [hrx]
      dsimp only
      rw [(serial_in_lsr _).1]
      have := ih (i + 1)
        { up with
          rx_fifo := rest
          rbr_reads := up.rbr_reads ++ [b]
          rxbuf := { up.rxbuf with buf_virt := Function.update up.rxbuf.buf_virt i b } }
        (by omega)
      rw [this]
      dsimp only
      have hm : min (rx_size - i).toNat up.rx_fifo.length =
          min (rx_size - (i + 1)).toNat rest.length + 1 := by
        rw [hfifo, List.length_cons]
        have : (rx_size - i).toNat = (rx_size - (i + 1)).toNat + 1 := by omega
        rw [this, Nat.succ_min_succ]
      rw [hm, hfifo, staged_succ]
      simp only [List.drop_succ_cons, List.take_succ_cons, List.append_assoc, List.singleton_append,
        Nat.cast_add, Nat.cast_one]
      congr 1
      ring
    · rw [if_neg hc]
      have h0 : min (rx_size - i).toNat up.rx_fifo.length = 0 := by
        by_cases hi : i < rx_size
        · have : up.rx_fifo = [] := by
            by_contra hne
            exact hc ⟨hi, (serial_in_lsr up).2.mpr hne⟩
          simp [this]
        · have : (rx_size - i).toNat = 0 := by omega
          simp [this]
      simp [h0, staged_zero]

/-- `intel_cln_uart_hal_read` in closed form. -/
theorem hal_read_spec (up : intel_cln_uart) (rx_size : Int) :
    intel_cln_uart_hal_read up rx_size =
      (((min rx_size.toNat up.rx_fifo.length : Nat) : Int),
        { up with
          rx_fifo := up.rx_fifo.drop (min rx_size.toNat up.rx_fifo.length)
          rbr_reads := up.rbr_reads ++ up.rx_fifo.take (min rx_size.toNat up.rx_fifo.length)
          rxbuf := { up.rxbuf with
            buf_virt := staged 0 (min rx_size.toNat up.rx_fifo.length) up.rx_fifo
              up.rxbuf.buf_virt } }) := by
  unfold intel_cln_uart_hal_read
  dsimp only
  rw [(serial_in_lsr up).1, (serial_in_lsr up).1]
  have := hal_read_loop_spec rx_size rx_size.toNat 0 up (by simp)
  simp only [sub_zero, zero_add] at this
  exact this

/-- The batch that `push_rx` passes on after a read of `m` bytes is the `m`
bytes read. -/
theorem staged_batch (m : Nat) (fifo : List Nat) (buf : Int → Nat) (hm : m ≤ fifo.length) :
    (List.range m).map (fun (i : Nat) => staged 0 m fifo buf (i : Int)) = fifo.take m := by
  apply List.ext_getElem
  · simp [hm]
  · intro i h1 h2
    simp only [List.length_map, List.length_range] at h1
    simp only [List.getElem_map, List.getElem_range, List.getElem_take, staged]
    rw [if_pos (by omega)]
    simp only [sub_zero, Int.toNat_ofNat]
    rw [List.getD_eq_getElem _ _ (by omega)]

/-- `push_rx` with the consumer present. -/
theorem push_rx_spec (up : intel_cln_uart) (size : Int) (htty : up.tty_present = true) :
    push_rx up size =
      (0, { up with
        tty_batches := up.tty_batches ++
          [(List.range size.toNat).map fun (i : Nat) => up.rxbuf.buf_virt (i : Int)]
        tty_flip := up.tty_flip ++
          ((List.range size.toNat).map fun (i : Nat) => up.rxbuf.buf_virt (i : Int)).take
            (min size.toNat up.tty_room)
        tty_room := up.tty_room - min size.toNat up.tty_room
        tty_pushes := up.tty_pushes + 1 }) := by
  simp [push_rx, tty_insert_flip_string, htty]

theorem push_rx_fst (up : intel_cln_uart) (size : Int) (htty : up.tty_present = true) :
    (push_rx up size).1 = 0 := by
  rw [push_rx_spec up size htty]

theorem rx_pass_eq (up : intel_cln_uart) (htty : up.tty_present = true) :
    rx_pass up =
      { up with
        rx_fifo := up.rx_fifo.drop (min up.rxbuf.size.toNat up.rx_fifo.length)
        rbr_reads := up.rbr_reads ++ up.rx_fifo.take (min up.rxbuf.size.toNat up.rx_fifo.length)
        rxbuf := { up.rxbuf with
          buf_virt := staged 0 (min up.rxbuf.size.toNat up.rx_fifo.length) up.rx_fifo
            up.rxbuf.buf_virt }
        tty_batches := up.tty_batches ++
          [up.rx_fifo.take (min up.rxbuf.size.toNat up.rx_fifo.length)]
        tty_flip := up.tty_flip ++
          (up.rx_fifo.take (min up.rxbuf.size.toNat up.rx_fifo.length)).take
            (min (min up.rxbuf.size.toNat up.rx_fifo.length) up.tty_room)
        tty_room := up.tty_room - min (min up.rxbuf.size.toNat up.rx_fifo.length) up.tty_room
        tty_pushes := up.tty_pushes + 1 } := by
  unfold rx_pass
  rw [hal_read_spec]
  dsimp only
  rw [push_rx_spec _ _ (by exact htty)]
  dsimp only
  rw [Int.toNat_ofNat, staged_batch _ _ _ (Nat.min_le_right _ _)]

/-- One pass of the receive loop with the consumer present: the chunk read
is `min(rxbuf.size, FIFO length)` bytes, the batch passed on is the chunk,
and the consumer accepts what fits its room. -/
theorem rx_pass_spec (up : intel_cln_uart) (htty : up.tty_present = true) :
    (intel_cln_uart_hal_read up up.rxbuf.size).1 =
        ((min up.rxbuf.size.toNat up.rx_fifo.length : Nat) : Int) ∧
      (push_rx (intel_cln_uart_hal_read up up.rxbuf.size).2
        (intel_cln_uart_hal_read up up.rxbuf.size).1).1 = 0 ∧
      (rx_pass up).rx_fifo = up.rx_fifo.drop (min up.rxbuf.size.toNat up.rx_fifo.length) ∧
      (rx_pass up).rbr_reads =
        up.rbr_reads ++ up.rx_fifo.take (min up.rxbuf.size.toNat up.rx_fifo.length) ∧
      (rx_pass up).tty_batches =
        up.tty_batches ++ [up.rx_fifo.take (min up.rxbuf.size.toNat up.rx_fifo.length)] ∧
      (rx_pass up).tty_flip =
        up.tty_flip ++ (up.rx_fifo.take (min up.rxbuf.size.toNat up.rx_fifo.length)).take
          up.tty_room ∧
      (rx_pass up).tty_room =
        up.tty_room - min up.rxbuf.size.toNat up.rx_fifo.length ∧
      (rx_pass up).tty_present = true ∧
      (rx_pass up).rxbuf.size = up.rxbuf.size := by
  have hrd := hal_read_spec up up.rxbuf.size
  have hps := rx_pass_eq up htty
  refine ⟨by rw [hrd], ?_, ?_, ?_, ?_, ?_, ?_, ?_, ?_⟩
  · rw [hrd]; exact push_rx_fst _ _ (by exact htty)
  · rw [hps]
  · rw [hps]
  · rw [hps]
  · rw [hps]
    dsimp only
    generalize min up.rxbuf.size.toNat up.rx_fifo.length = m
    simp only [List.take_take]
    congr 2
    simp only [Nat.min_def]; split_ifs <;> omega
  · rw [hps]
    dsimp only
    generalize min up.rxbuf.size.toNat up.rx_fifo.length = m
    simp only [Nat.min_def]; split_ifs <;> omega
  · rw [hps]; exact htty
  · rw [hps]

theorem rx_to_loop_succ (fuel : Nat) (up : intel_cln_uart) (htty : up.tty_present = true) :
    rx_to_loop (fuel + 1) up =
      if ((min up.rxbuf.size.toNat up.rx_fifo.length : Nat) : Int) = up.rxbuf.size then
        rx_to_loop fuel (rx_pass up)
      else some (rx_pass up) := by
  obtain ⟨h1, h2, -, -, -, -, -, -, h9⟩ := rx_pass_spec up htty
  rw [rx_to_loop]
  show (if (push_rx (intel_cln_uart_hal_read up up.rxbuf.size).2
        (intel_cln_uart_hal_read up up.rxbuf.size).1).1 ≠ 0 then some (rx_pass up)
      else if (intel_cln_uart_hal_read up up.rxbuf.size).1 = (rx_pass up).rxbuf.size then
        rx_to_loop fuel (rx_pass up)
      else some (rx_pass up)) = _
  rw [h2, h1, h9, if_neg (by simp)]

/-- Every batch handed to the consumer is what was read: whenever the
receive loop returns, the concatenated batches are the bytes read. -/
theorem rx_to_loop_stream (fuel : Nat) :
    ∀ (up up' : intel_cln_uart), up.tty_present = true → rx_to_loop fuel up = some up' →
      ∃ batches, up'.tty_batches = up.tty_batches ++ batches ∧
        up'.rbr_reads = up.rbr_reads ++ batches.flatten := by
  induction fuel with
  | zero => intro up up' _ h; simp [rx_to_loop] at h
  | succ fuel ih =>
    intro up up' htty h
    obtain ⟨-, -, -, h4, h5, -, -, h8, -⟩ := rx_pass_spec up htty
    rw [rx_to_loop_succ fuel up htty] at h
    split_ifs at h
    · obtain ⟨bs, hb, hr⟩ := ih _ _ h8 h
      refine ⟨up.rx_fifo.take (min up.rxbuf.size.toNat up.rx_fifo.length) :: bs, ?_, ?_⟩
      · rw [hb, h5, List.append_assoc]; rfl
      · rw [hr, h4, List.append_assoc]; rfl
    · simp only [Option.some.injEq] at h
      subst h
      exact ⟨[up.rx_fifo.take (min up.rxbuf.size.toNat up.rx_fifo.length)], h5, by rw [h4]; simp⟩

/-- With a staging buffer of at least one byte the receive loop ends (fuel
beyond the FIFO length suffices) and has then read the whole FIFO, in
order; the consumer has accepted what fits the room it offered. -/
theorem rx_to_loop_drains (fuel : Nat) :
    ∀ (up : intel_cln_uart), up.tty_present = true → 1 ≤ up.rxbuf.size →
      up.rx_fifo.length < fuel →
      ∃ up', rx_to_loop fuel up = some up' ∧ up'.rx_fifo = [] ∧
        up'.rbr_reads = up.rbr_reads ++ up.rx_fifo ∧
        (∃ batches, up'.tty_batches = up.tty_batches ++ batches ∧ batches.flatten = up.rx_fifo) ∧
        up'.tty_flip = up.tty_flip ++ up.rx_fifo.take up.tty_room := by
  induction fuel with
  | zero => intro up _ _ h; omega
  | succ fuel ih =>
    intro up htty hsz hlen
    obtain ⟨-, -, h3, h4, h5, h6, h7, h8, h9⟩ := rx_pass_spec up htty
    rw [rx_to_loop_succ fuel up htty]
    by_cases hfull : ((min up.rxbuf.size.toNat up.rx_fifo.length : Nat) : Int) = up.rxbuf.size
    · rw [if_pos hfull]
      have hm : min up.rxbuf.size.toNat up.rx_fifo.length = up.rxbuf.size.toNat := by omega
      rw [hm] at h3 h4 h5 h6 h7
      have hle : up.rxbuf.size.toNat ≤ up.rx_fifo.length := by omega
      obtain ⟨up', e, hf, hr, ⟨bs, hb, hj⟩, hfl⟩ := ih (rx_pass up) h8 (by rw [h9]; exact hsz)
        (by rw [h3, List.length_drop]; omega)
      refine ⟨up', e, hf, ?_, ⟨up.rx_fifo.take up.rxbuf.size.toNat :: bs, ?_, ?_⟩, ?_⟩
      · rw [hr, h4, h3, List.append_assoc, List.take_append_drop]
      · rw [hb, h5, List.append_assoc]; rfl
      · rw [List.flatten_cons, hj, h3, List.take_append_drop]
      · rw [hfl, h6, h7, h3, List.append_assoc, List.take_take]
        congr 1
        conv_rhs => rw [← List.take_append_drop up.rxbuf.size.toNat up.rx_fifo]
        rw [List.take_append_eq_append_take, List.take_take, List.length_take,
          Nat.min_eq_left hle, Nat.min_comm]
    · rw [if_neg hfull]
      have hm : min up.rxbuf.size.toNat up.rx_fifo.length = up.rx_fifo.length := by omega
      rw [hm] at h3 h4 h5 h6
      rw [List.drop_length] at h3
      rw [List.take_length] at h4 h5 h6
      exact ⟨_, rfl, h3, h4, ⟨[up.rx_fifo], h5, by simp⟩, h6⟩

/-- C7. PIO receive preserves the byte stream: with RX started and the
consumer available, whenever `intel_cln_uart_rx_to` returns, the batches it
handed to the consumer, concatenated, are exactly the bytes it read from the
receive register, in the same order.  With a staging buffer of at least one
byte it does return (fuel beyond the FIFO length suffices), it has then read
every byte the hardware presented in its receive FIFO, once and in order,
and the consumer has accepted them as far as the room it offers reaches. -/
theorem rx_to_preserves_stream (fuel : Nat) (up : intel_cln_uart)
    (hstart : up.start_rx ≠ 0) (htty : up.tty_present = true) :
    (∀ up', intel_cln_uart_rx_to fuel up = some up' →
      ∃ batches, up'.tty_batches = up.tty_batches ++ batches ∧
        up'.rbr_reads = up.rbr_reads ++ batches.flatten) ∧
    (1 ≤ up.rxbuf.size → up.rx_fifo.length < fuel →
      ∃ up', intel_cln_uart_rx_to fuel up = some up' ∧ up'.rx_fifo = [] ∧
        up'.rbr_reads = up.rbr_reads ++ up.rx_fifo ∧
        (∃ batches, up'.tty_batches = up.tty_batches ++ batches ∧
          batches.flatten = up.rx_fifo) ∧
        up'.tty_flip = up.tty_flip ++ up.rx_fifo.take up.tty_room) := by
  have hrun : intel_cln_uart_rx_to fuel up = rx_to_loop fuel up := by
    unfold intel_cln_uart_rx_to
    rw [if_neg hstart]
  rw [hrun]
  exact ⟨fun up' h => rx_to_loop_stream fuel up up' htty h,
    fun hsz hlen => rx_to_loop_drains fuel up htty hsz hlen⟩

/-- C7 at a concrete port: 40 bytes in the hardware FIFO. -/
theorem rx_to_preserves_stream_witness :
    ∃ up', intel_cln_uart_rx_to 41 (receiving_port (List.range 40) 100) = some up' ∧
      up'.rbr_reads = List.range 40 ∧ up'.tty_flip = List.range 40 ∧
      up'.tty_batches.flatten = List.range 40 := by
  obtain ⟨up', h, -, hr, ⟨bs, hb, hj⟩, hf⟩ :=
    (rx_to_preserves_stream 41 (receiving_port (List.range 40) 100) (by decide) (by decide)).2
      (by decide) (by decide)
  refine ⟨up', h, hr.trans (by decide), hf.trans (by decide), ?_⟩
  rw [hb, List.flatten_append, hj]
  decide

/-- `intel_cln_uart_dma_push_rx` with the consumer present and less room
than the burst is long. -/
theorem dma_push_rx_short (up : intel_cln_uart) (C : Int) (htty : up.tty_present = true)
    (hlt : (up.tty_room : Int) < C) :
    (intel_cln_uart_dma_push_rx up C).1 = (up.tty_room : Int) ∧
      (intel_cln_uart_dma_push_rx up C).2.rx_overrun_warn =
        up.rx_overrun_warn ++ [C - (up.tty_room : Int)] ∧
      (intel_cln_uart_dma_push_rx up C).2.tty_flip =
        up.tty_flip ++ (rx_burst up C).take up.tty_room ∧
      (intel_cln_uart_dma_push_rx up C).2.tty_batches =
        (if up.tty_room = 0 then up.tty_batches else up.tty_batches ++ [rx_burst up C]) ∧
      (intel_cln_uart_dma_push_rx up C).2.port.icount_rx =
        (if up.tty_room = 0 then up.port.icount_rx
          else u32_add up.port.icount_rx (up.tty_room : Int)) := by
  have hroom : tty_buffer_request_room up C = (up.tty_room : Int) := by
    unfold tty_buffer_request_room
    exact min_eq_right (by omega)
  unfold intel_cln_uart_dma_push_rx
  simp only [htty, Bool.true_eq_false, if_false, hroom, hlt, if_true]
  by_cases h0 : up.tty_room = 0
  · simp [h0]
  · have h0' : ¬ ((up.tty_room : Int) = 0) := by omega
    have hmin : min C.toNat up.tty_room = up.tty_room := by
      simp only [Nat.min_def]; split_ifs <;> omega
    simp only [h0', h0, if_false, tty_insert_flip_string, hmin, rx_burst]
    exact ⟨trivial, trivial, trivial, trivial, trivial⟩

/-- C8 (amended). RX overrun accounting on DMA completion: for a completed
burst of `C` bytes in the staging buffer and a consumer offering `room < C`
bytes, `intel_cln_uart_dma_push_rx` reports exactly `C - room` bytes as
dropped.  When `room` is not 0 it passes the whole burst of `C` bytes to the
insert routine of the consumer (nothing when `room` is 0), and the consumer
accepts exactly the first `room` bytes of it: the burst splits into a
delivered part of `room` bytes and a dropped part of `C - room` bytes that
does not appear in the delivered output.  The completion callback calls it
with `C = rx_trigger_level`. -/
theorem dma_push_rx_overrun (up : intel_cln_uart) (C : Int) (room : Nat)
    (htty : up.tty_present = true) (hroom : up.tty_room = room) (hlt : (room : Int) < C) :
    (intel_cln_uart_dma_push_rx up C).2.rx_overrun_warn =
        up.rx_overrun_warn ++ [C - (room : Int)] ∧
      (intel_cln_uart_dma_push_rx up C).2.tty_batches =
        (if room = 0 then up.tty_batches else up.tty_batches ++ [rx_burst up C]) ∧
      ((rx_burst up C).length : Int) = C ∧
      (∃ delivered dropped, rx_burst up C = delivered ++ dropped ∧
        delivered.length = room ∧ (dropped.length : Int) = C - (room : Int) ∧
        (intel_cln_uart_dma_push_rx up C).2.tty_flip = up.tty_flip ++ delivered) ∧
      (intel_cln_uart_dma_push_rx up C).1 = (room : Int) ∧
      (int_of_u32 up.rx_trigger_level = C →
        (intel_cln_uart_dma_rx_complete up).rx_overrun_warn =
            up.rx_overrun_warn ++ [C - (room : Int)] ∧
          (intel_cln_uart_dma_rx_complete up).tty_flip =
            up.tty_flip ++ (rx_burst up C).take room) := by
  subst hroom
  obtain ⟨h1, h2, h3, h4, -⟩ := dma_push_rx_short up C htty hlt
  have hlen : (rx_burst up C).length = C.toNat := by simp [rx_burst]
  refine ⟨h2, h4, by rw [hlen]; omega,
    ⟨(rx_burst up C).take up.tty_room, (rx_burst up C).drop up.tty_room,
      (List.take_append_drop _ _).symm, ?_, ?_, h3⟩, h1, ?_⟩
  · rw [List.length_take, hlen]; omega
  · rw [List.length_drop, hlen]; omega
  · intro hC
    unfold intel_cln_uart_dma_rx_complete
    simp only [htty, Bool.true_eq_false, if_false, hC]
    split <;> exact ⟨h2, h3⟩

/-- C8, the claim as stated fails: for a burst of 14 bytes and a consumer
offering room for 5, the batch that `intel_cln_uart_dma_push_rx` hands to the
consumer is the whole burst of 14 bytes, not at most 5. -/
theorem dma_push_rx_passes_whole_burst :
    (receiving_port [] 5).tty_present = true ∧ (receiving_port [] 5).tty_room = 5 ∧
      (intel_cln_uart_dma_push_rx (receiving_port [] 5) 14).2.tty_batches =
        [rx_burst (receiving_port [] 5) 14] ∧
      (rx_burst (receiving_port [] 5) 14).length = 14 := by
  decide

/-- C8 (amended) at a concrete port: a burst of 14 bytes, room for 5. -/
theorem dma_push_rx_overrun_witness :
    (intel_cln_uart_dma_push_rx (receiving_port [] 5) 14).2.rx_overrun_warn = [9] ∧
      (intel_cln_uart_dma_push_rx (receiving_port [] 5) 14).2.tty_flip.length = 5 ∧
      (intel_cln_uart_dma_rx_complete (receiving_port [] 5)).rx_overrun_warn = [9] := by
  obtain ⟨h1, -, -, ⟨d, x, -, hd, -, hf⟩, -, h4⟩ :=
    dma_push_rx_overrun (receiving_port [] 5) 14 5 (by decide) (by decide) (by decide)
  refine ⟨h1.trans (by decide), ?_, (h4 (by decide)).1.trans (by decide)⟩
  rw [hf, List.length_append, hd]
  decide

/-! ## At most one TX descriptor set outstanding -/

theorem dma_tx_submit_in_flight (PAGE_SHIFT avail : Nat) (prep_ok : Bool) (f b : Int)
    (up : intel_cln_uart) (hd : up.tx_descs = []) :
    tx_in_flight_ok (dma_tx_submit PAGE_SHIFT avail prep_ok f b up) := by
  unfold dma_tx_submit tx_in_flight_ok
  dsimp only
  split_ifs <;> simp [hd]

theorem tx_send_x_char_use (up : intel_cln_uart) :
    (tx_send_x_char up).2.tx_dma_use = up.tx_dma_use := by
  by_cases hx : up.port.x_char = 0
  · rw [tx_send_x_char_none up hx]
  · rw [tx_send_x_char_some up hx]

/-- Every event other than `stop_tx` keeps the in-flight bookkeeping. -/
theorem tx_apply_in_flight (PAGE_SHIFT : Nat) (e : tx_event) (up up' : intel_cln_uart)
    (he : e ≠ tx_event.stop_tx) (h : tx_apply PAGE_SHIFT e up = some up')
    (hi : tx_in_flight_ok up) : tx_in_flight_ok up' := by
  cases e with
  | start_tx =>
    simp only [tx_apply, Option.some.injEq] at h
    subst h; exact hi
  | stop_tx => exact absurd rfl he
  | drain avail prep_ok =>
    simp only [tx_apply] at h
    by_cases hstart : up.start_tx = 0
    · simp only [intel_cln_uart_dma_tx, hstart, if_true, Option.some.injEq] at h
      subst h; exact hi
    by_cases huse : up.tx_dma_use = 0
    · have hd : up.tx_descs = [] := by
        by_contra hne; exact hi.2 hne huse
      rw [dma_tx_idle PAGE_SHIFT avail prep_ok up hstart huse] at h
      split_ifs at h
      · simp only [Option.some.injEq] at h
        subst h
        unfold tx_in_flight_ok
        have h1 : (thri_disable (tx_send_x_char up).2).tx_descs = up.tx_descs :=
          tx_send_x_char_descs up
        show ((thri_disable (tx_send_x_char up).2).tx_descs.length ≤ 1 ∧ _)
        rw [h1, hd]
        exact ⟨by simp, fun hne => absurd rfl hne⟩
      · simp only [Option.some.injEq] at h
        subst h
        exact dma_tx_submit_in_flight PAGE_SHIFT avail prep_ok _ _ _
          ((tx_send_x_char_descs up).trans hd)
    · simp only [intel_cln_uart_dma_tx, hstart, huse, if_false, ne_eq, not_false_eq_true,
        if_true, Option.some.injEq] at h
      subst h; exact hi
  | complete =>
    simp only [tx_apply] at h
    cases hd : up.tx_descs with
    | nil => rw [hd] at h; simp at h
    | cons d rest =>
      rw [hd] at h
      dsimp only at h
      have hrest : rest = [] := by
        have := hi.1
        rw [hd, List.length_cons] at this
        exact List.length_eq_zero.mp (by omega)
      subst hrest
      unfold intel_cln_uart_dma_tx_complete at h
      split_ifs at h
      simp only [Option.some.injEq] at h
      subst h
      exact ⟨by simp [thri_enable, serial_out], fun hne => absurd rfl hne⟩

/-- Without `stop_tx` the in-flight flag does its job: in every state
reached from a freshly probed port by `start_tx`, drain and completion
events, at most one submitted TX descriptor set is outstanding. -/
theorem tx_run_single_outstanding (PAGE_SHIFT : Nat) (es : List tx_event) :
    ∀ (up up' : intel_cln_uart), tx_event.stop_tx ∉ es → tx_in_flight_ok up →
      tx_run PAGE_SHIFT es up = some up' → tx_in_flight_ok up' := by
  induction es with
  | nil =>
    intro up up' _ hi h
    simp only [tx_run, Option.some.injEq] at h
    subst h; exact hi
  | cons e es ih =>
    intro up up' hne hi h
    simp only [tx_run] at h
    cases h1 : tx_apply PAGE_SHIFT e up with
    | none => rw [h1] at h; simp at h
    | some up1 =>
      rw [h1] at h
      exact ih up1 up' (fun hm => hne (List.mem_cons_of_mem _ hm))
        (tx_apply_in_flight PAGE_SHIFT e up up1
          (fun he => hne (he ▸ List.mem_cons_self _ _)) h1 hi) h

theorem probe_in_flight_ok (dma_en : Bool) (xmit : circ_buf) :
    tx_in_flight_ok (intel_cln_uart_probe dma_en xmit) := by
  unfold tx_in_flight_ok intel_cln_uart_probe
  cases dma_en <;> simp

/-- C10, the code at the failing input: from a freshly probed port with one
pending byte, the events `start_tx`, drain, `stop_tx`, `start_tx`, drain
(no completion fires) leave two submitted TX descriptor sets outstanding.
After the first drain one set is outstanding and `tx_dma_use` is 1;
`stop_tx` clears `tx_dma_use` although that set is still outstanding, so
the second drain passes the in-flight check and submits again, for the same
ring byte (`tail` has not moved). -/
theorem tx_stop_restart_double_submission :
    (tx_run 12 (stop_restart_events.take 2) probed_port_one_byte).map
        (fun up => (up.tx_descs.length, up.tx_dma_use)) = some (1, 1) ∧
      (tx_run 12 (stop_restart_events.take 3) probed_port_one_byte).map
        (fun up => (up.tx_descs.length, up.tx_dma_use)) = some (1, 0) ∧
      (tx_run 12 stop_restart_events probed_port_one_byte).map
        (fun up => (up.tx_descs.length, up.port.xmit.tail)) = some (2, 0) ∧
      (tx_run 12 stop_restart_events probed_port_one_byte).map
        (fun up => up.tx_descs.map fun d => d.map fun sg => (sg.offset, sg.dma_length)) =
          some [[(0, 1)], [(0, 1)]] := by
  decide

/-! ## Submission bookkeeping, empty ring and out-of-band character -/

/-- C11, the code at the failing input.  `intel_cln_uart_dma_rx` has no check
for an outstanding RX descriptor: whenever the preparation succeeds it
submits one more.  On a port in DMA mode, two Received-Data-Available
interrupts (two invocations of the handler, the identification register
reading `0x04` once in each) with no RX completion in between leave two RX
descriptors outstanding, both of 14 bytes into the one staging buffer. -/
theorem dma_rx_double_submission :
    (∀ up : intel_cln_uart,
      (intel_cln_uart_dma_rx true up).rx_descs.length = up.rx_descs.length + 1) ∧
    (isr_with [INTEL_CLN_UART_IIR_RXD] dma_pending_service (dma_mode_port empty_ring)).map
      (fun s => s.2.rx_descs) = some [{ offset := 0, length := 14, dma_length := 14 }] ∧
    ((isr_with [INTEL_CLN_UART_IIR_RXD] dma_pending_service (dma_mode_port empty_ring)).bind
      fun s => isr_with [INTEL_CLN_UART_IIR_RXD] dma_pending_service s.2).map
      (fun s => s.2.rx_descs) =
        some [{ offset := 0, length := 14, dma_length := 14 },
              { offset := 0, length := 14, dma_length := 14 }] := by
  refine ⟨fun up => ?_, by decide, by decide⟩
  simp [intel_cln_uart_dma_rx]

/-- C12, the code at the failing input.  From a freshly probed port with one
pending byte: after `start_tx`, a drain in which `dma_map_sg` maps nothing
(or in which `dmaengine_prep_slave_sg` gives no descriptor) returns with
`tx_dma_use = 1` and nothing submitted; the next drain, with a DMA service
that works, finds the flag set and submits nothing either: the byte stays
pending and no descriptor set is outstanding whose completion could clear the
flag.  And the failure path does not touch `tx_empty`: on the port with 10
wrapped bytes, after a first submission and its completion, a failed drain
leaves `tx_empty = 0` with 5 bytes pending. -/
theorem dma_tx_failure_stays_in_flight :
    (tx_run 12 [.start_tx, .drain 0 true] probed_port_one_byte).map
      (fun up => (up.tx_dma_use, up.tx_descs.length)) = some (1, 0) ∧
    (tx_run 12 [.start_tx, .drain 1 false] probed_port_one_byte).map
      (fun up => (up.tx_dma_use, up.tx_descs.length)) = some (1, 0) ∧
    (tx_run 12 [.start_tx, .drain 0 true, .drain 1 true] probed_port_one_byte).map
      (fun up => (up.tx_dma_use, up.tx_descs.length, up.port.xmit.head, up.port.xmit.tail)) =
        some (1, 0, 1, 0) ∧
    (tx_run 12 [.start_tx, .drain 1 false, .drain 1 true] probed_port_one_byte).map
      (fun up => (up.tx_dma_use, up.tx_descs.length, up.port.xmit.head, up.port.xmit.tail)) =
        some (1, 0, 1, 0) ∧
    (tx_run 12 [.start_tx, .drain 1 true, .complete, .drain 0 true] probed_port_wrapped).map
      (fun up => (up.tx_dma_use, up.tx_empty, up.tx_descs.length,
        up.port.xmit.head, up.port.xmit.tail)) = some (1, 0, 0, 5, 0) := by
  decide

/-- C13, the code at the failing inputs.  PIO: on a started port with an empty
ring and no out-of-band character, `intel_cln_uart_tx` wakes the writer and
sets `tx_empty = 1`, but the interrupt-enable mask it writes has the THRE bit
set (`ier |= UART_IER_THRI`), not cleared.  DMA: after `start_tx`, a
submission of the one pending byte and its completion, the port is started
and idle with an empty ring; the drain then clears the THRE bit in the mask
it writes and wakes the writer, but leaves `tx_empty` at 0. -/
theorem empty_ring_drain_diverges :
    (intel_cln_uart_tx 12 2 (started_port 0 0)).map
      (fun up => (up.reg_writes.getLast?, up.ier &&& UART_IER_THRI)) =
        some (some (UART_IER, 2), UART_IER_THRI) ∧
    (intel_cln_uart_tx 12 2 (started_port 0 0)).map
      (fun up => (up.write_wakeups, up.tx_empty)) = some (1, 1) ∧
    (tx_run 12 [.start_tx, .drain 1 true, .complete] probed_port_one_byte).map
      (fun up => (up.start_tx, up.tx_dma_use, up.port.x_char)) = some (1, 0, 0) ∧
    (tx_run 12 [.start_tx, .drain 1 true, .complete] probed_port_one_byte).map
      (fun up => (up.port.xmit.head, up.port.xmit.tail, up.write_wakeups, up.tx_empty)) =
        some (1, 1, 0, 0) ∧
    (tx_run 12 [.start_tx, .drain 1 true, .complete, .drain 1 true] probed_port_one_byte).map
      (fun up => (up.reg_writes.getLast?, up.ier &&& UART_IER_THRI)) =
        some (some (UART_IER, 0), 0) ∧
    (tx_run 12 [.start_tx, .drain 1 true, .complete, .drain 1 true] probed_port_one_byte).map
      (fun up => (up.write_wakeups, up.tx_empty)) = some (1, 0) := by
  decide

/-- C14, the code at the failing input.  On a started port with the
out-of-band character `0x13` pending and the ring bytes `a`, `b`, `c` (97, 98,
99) pending at indices 0, 1, 2, the PIO drain writes `0x13, 0x13, b, c` to the
data register: `pop_tx_x` stores the character in `buf[0]` of the ring, over
the pending byte `a`, which is never sent.  The DMA drain writes `0x13` to the
data register and submits the segment (0, 3) over the ring whose byte 0 is
now `0x13`.  In both, the pending character is cleared and `tail` advances
only by the ring bytes sent (3 in PIO, 0 before the DMA completion). -/
theorem x_char_overwrites_pending_byte :
    ring_bytes 12 x_char_port.port.xmit 3 = [97, 98, 99] ∧
    (intel_cln_uart_tx 12 2 x_char_port).map
      (fun up => up.reg_writes.drop x_char_port.reg_writes.length) =
      some [(UART_TX, 0x13), (UART_TX, 0x13), (UART_TX, 98), (UART_TX, 99)] ∧
    (intel_cln_uart_tx 12 2 x_char_port).map
      (fun up => (up.port.x_char, up.port.xmit.tail)) = some (0, 3) ∧
    (intel_cln_uart_dma_tx 12 1 true x_char_port).map
      (fun up => up.reg_writes.drop x_char_port.reg_writes.length) = some [(UART_TX, 0x13)] ∧
    (intel_cln_uart_dma_tx 12 1 true x_char_port).map
      (fun up => (up.port.x_char, up.port.xmit.tail, tx_segments up)) = some (0, 0, [(0, 3)]) ∧
    (intel_cln_uart_dma_tx 12 1 true x_char_port).map
      (fun up => ring_bytes 12 up.port.xmit 3) = some [0x13, 98, 99] := by
  decide

/-! ## Mode selection -/

theorem and_not_testBit (a b i : Nat) :
    (and_not a b).testBit i = (a.testBit i && !b.testBit i) := by
  simp only [and_not, Nat.testBit_xor, Nat.testBit_and]
  cases a.testBit i <;> cases b.testBit i <;> rfl

theorem and_two_pow_ne_zero (x i : Nat) : x &&& 2 ^ i ≠ 0 ↔ x.testBit i = true := by
  rw [Nat.and_two_pow]
  cases x.testBit i <;> simp

/-- C20. Mode selection at port open: for every port and every request flag
word, `intel_cln_uart_verify_port` returns 0 and changes nothing of the port
but the mode word; bit 1 of the mode word (`CLN_UART_MODE_DMA`) ends up clear
when the request carries the low-latency flag (bit 13) and set when it does
not, and every other bit of the mode word is unchanged; the flag word of the
request keeps every bit except the low-latency flag, which ends up clear. -/
theorem verify_port_mode_selection (up : intel_cln_uart) (ser_flags : Nat) :
    (intel_cln_uart_verify_port up ser_flags).1 = 0 ∧
    (intel_cln_uart_verify_port up ser_flags).2.2 =
      { up with mode := (intel_cln_uart_verify_port up ser_flags).2.2.mode } ∧
    ((intel_cln_uart_verify_port up ser_flags).2.2.mode &&& CLN_UART_MODE_DMA =
      if ser_flags &&& UPF_LOW_LATENCY ≠ 0 then 0 else CLN_UART_MODE_DMA) ∧
    (∀ i, (intel_cln_uart_verify_port up ser_flags).2.2.mode.testBit i =
      if i = 1 then !ser_flags.testBit 13 else up.mode.testBit i) ∧
    (intel_cln_uart_verify_port up ser_flags).2.1 &&& UPF_LOW_LATENCY = 0 ∧
    (∀ i, (intel_cln_uart_verify_port up ser_flags).2.1.testBit i =
      if i = 13 then false else ser_flags.testBit i) := by
  have hdma : CLN_UART_MODE_DMA = 2 ^ 1 := rfl
  unfold intel_cln_uart_verify_port
  by_cases h : ser_flags &&& UPF_LOW_LATENCY ≠ 0
  · have h13 : ser_flags.testBit 13 = true := (and_two_pow_ne_zero ser_flags 13).mp h
    rw [if_pos h, if_pos h]
    refine ⟨rfl, rfl, and_not_and_self _ _, fun i => ?_, and_not_and_self _ _, fun i => ?_⟩
    · show (and_not up.mode CLN_UART_MODE_DMA).testBit i = _
      rw [and_not_testBit, hdma, Nat.testBit_two_pow, h13]
      by_cases hi : i = 1
      · subst hi; simp
      · have : ¬ (1 = i) := fun e => hi e.symm
        simp [hi, this]
    · show (and_not ser_flags UPF_LOW_LATENCY).testBit i = _
      rw [and_not_testBit, UPF_LOW_LATENCY, Nat.testBit_two_pow]
      by_cases hi : i = 13
      · subst hi; simp
      · have : ¬ (13 = i) := fun e => hi e.symm
        simp [hi, this]
  · have h0 : ser_flags &&& UPF_LOW_LATENCY = 0 := not_not.mp h
    have h13 : ser_flags.testBit 13 = false := by
      cases hb : ser_flags.testBit 13
      · rfl
      · exact absurd h0 ((and_two_pow_ne_zero ser_flags 13).mpr hb)
    rw [if_neg h, if_neg h]
    refine ⟨rfl, rfl, or_and_self _ _, fun i => ?_, h0, fun i => ?_⟩
    · show (up.mode ||| CLN_UART_MODE_DMA).testBit i = _
      rw [Nat.testBit_or, hdma, Nat.testBit_two_pow, h13]
      by_cases hi : i = 1
      · subst hi; simp
      · have : ¬ (1 = i) := fun e => hi e.symm
        simp [hi, this]
    · show ser_flags.testBit i = _
      by_cases hi : i = 13
      · subst hi; simp [h13]
      · simp [hi]

/-! ## Capacity of the receive staging buffer -/

theorem staged_outside (i : Int) (m : Nat) (fifo : List Nat) (buf : Int → Nat) (j : Int)
    (hj : j < i ∨ i + (m : Int) ≤ j) : staged i m fifo buf j = buf j := by
  unfold staged
  rw [if_neg]
  omega

theorem set_termios_fifo_rx_level (up : intel_cln_uart) :
    (set_termios_fifo up).rx_trigger_level = (up.port.fifosize % 2 ^ 32 + 2 ^ 32 - 2) % 2 ^ 32 ∧
      (set_termios_fifo up).rxbuf = up.rxbuf ∧ (set_termios_fifo up).port = up.port := by
  unfold set_termios_fifo
  dsimp only
  split_ifs <;> exact ⟨rfl, rfl, rfl⟩

/-- C19. The receive staging buffer capacity is never exceeded.  For every
port state (every content of the hardware FIFO and every line status) and
every capacity `n ≥ 0`, `intel_cln_uart_hal_read` with `rx_size = n` returns a
count `i` with `0 ≤ i ≤ n`, leaves every index of the buffer outside
`0 .. i-1` as it was, and reads the receive register exactly `i` times.  And
for every port FIFO size from 2 on (an `unsigned int`), the RX trigger level
that reconfigure stores is the FIFO size minus 2, and the length of the RX
DMA descriptor that `intel_cln_uart_dma_rx` then programs is that level, at
most the FIFO size, which is the capacity of the staging buffer when it is
sized as probe sizes it. -/
theorem rx_staging_capacity (up : intel_cln_uart) (n : Int) (prep_ok : Bool) (hn : 0 ≤ n) :
    (0 ≤ (intel_cln_uart_hal_read up n).1 ∧ (intel_cln_uart_hal_read up n).1 ≤ n ∧
      (∀ j, j < 0 ∨ (intel_cln_uart_hal_read up n).1 ≤ j →
        (intel_cln_uart_hal_read up n).2.rxbuf.buf_virt j = up.rxbuf.buf_virt j) ∧
      ∃ reads, (intel_cln_uart_hal_read up n).2.rbr_reads = up.rbr_reads ++ reads ∧
        (reads.length : Int) = (intel_cln_uart_hal_read up n).1) ∧
    (2 ≤ up.port.fifosize → up.port.fifosize < 2 ^ 32 →
      (set_termios_fifo up).rx_trigger_level + 2 = up.port.fifosize ∧
      (intel_cln_uart_dma_rx prep_ok (set_termios_fifo up)).sg_rx.dma_length =
        ((set_termios_fifo up).rx_trigger_level : Int) ∧
      (intel_cln_uart_dma_rx prep_ok (set_termios_fifo up)).sg_rx.dma_length ≤
        (up.port.fifosize : Int) ∧
      (up.rxbuf.size = (up.port.fifosize : Int) →
        (intel_cln_uart_dma_rx prep_ok (set_termios_fifo up)).sg_rx.dma_length ≤
          (set_termios_fifo up).rxbuf.size)) := by
  constructor
  · rw [hal_read_spec]
    dsimp only
    have hle : min n.toNat up.rx_fifo.length ≤ n.toNat := Nat.min_le_left _ _
    have hlen : (up.rx_fifo.take (min n.toNat up.rx_fifo.length)).length =
        min n.toNat up.rx_fifo.length := by
      rw [List.length_take]
      omega
    refine ⟨by omega, by omega, fun j hj => ?_, _, rfl, ?_⟩
    · apply staged_outside
      omega
    · rw [hlen]
  · intro h2 h32
    obtain ⟨hlev, hbuf, _⟩ := set_termios_fifo_rx_level up
    have hlev' : (set_termios_fifo up).rx_trigger_level = up.port.fifosize - 2 := by
      rw [hlev]
      omega
    have hdl : (intel_cln_uart_dma_rx prep_ok (set_termios_fifo up)).sg_rx.dma_length =
        ((set_termios_fifo up).rx_trigger_level : Int) := by
      unfold intel_cln_uart_dma_rx
      dsimp only
      have hmod : (set_termios_fifo up).rx_trigger_level % 2 ^ 32 =
          (set_termios_fifo up).rx_trigger_level := by
        rw [hlev']
        omega
      split_ifs <;> simp only [hmod]
    refine ⟨by omega, hdl, ?_, fun hsz => ?_⟩
    · rw [hdl, hlev']
      omega
    · rw [hdl, hbuf, hsz, hlev']
      omega

/-- C19 at the port as probe leaves it (FIFO size 16, staging buffer of 16
bytes) with 40 bytes in the hardware FIFO: a read with capacity 16 returns
16, and the RX descriptor after reconfigure has length 14. -/
theorem rx_staging_capacity_witness :
    (intel_cln_uart_hal_read (receiving_port (List.range 40) 100) 16).1 = 16 ∧
      (set_termios_fifo (receiving_port (List.range 40) 100)).rx_trigger_level + 2 = 16 ∧
      (intel_cln_uart_dma_rx true
        (set_termios_fifo (receiving_port (List.range 40) 100))).sg_rx.dma_length ≤
          (set_termios_fifo (receiving_port (List.range 40) 100)).rxbuf.size :=
  ⟨by decide,
    ((rx_staging_capacity (receiving_port (List.range 40) 100) 16 true (by decide)).2
      (by decide) (by decide)).1,
    ((rx_staging_capacity (receiving_port (List.range 40) 100) 16 true (by decide)).2
      (by decide) (by decide)).2.2.2 (by decide)⟩

/-! ## Backpressure in the PIO receive drain -/

theorem rx_to_busy (fuel : Nat) (up : intel_cln_uart) (hstart : up.start_rx ≠ 0)
    (hbusy : up.tty_present = false) :
    intel_cln_uart_rx_to (fuel + 1) up = some (intel_cln_uart_hal_read up up.rxbuf.size).2 := by
  unfold intel_cln_uart_rx_to
  rw [if_neg hstart]
  unfold rx_to_loop
  have hp : (intel_cln_uart_hal_read up up.rxbuf.size).2.tty_present = false := by
    rw [hal_read_spec]
    exact hbusy
  have hpush : push_rx (intel_cln_uart_hal_read up up.rxbuf.size).2
      (intel_cln_uart_hal_read up up.rxbuf.size).1 =
      (-EBUSY, (intel_cln_uart_hal_read up up.rxbuf.size).2) := by
    unfold push_rx
    rw [if_pos hp]
  dsimp only
  rw [hpush]
  dsimp only
  rw [if_pos (by decide)]

/-- C18 (amended). When `intel_cln_uart_rx_to` runs with RX started and the
consumer unavailable (`push_rx` reports busy), the engine stops after one
read of at most `rxbuf.size` bytes: the `k` bytes it read are taken out of the
hardware FIFO and nothing is passed to the consumer.  The bytes are dropped:
whatever a later drain passes to the consumer, once the consumer is
available, is what that drain itself reads from the receive register,
and when it empties the FIFO that is exactly the rest of the FIFO after the
`k` bytes, followed by the bytes that arrived since. -/
theorem rx_to_busy_drops_batch (fuel later : Nat) (up : intel_cln_uart) (room : Nat)
    (more : List Nat) (hstart : up.start_rx ≠ 0) (hbusy : up.tty_present = false)
    (hfuel : 1 ≤ fuel) :
    ∃ up1, intel_cln_uart_rx_to fuel up = some up1 ∧
      up1.rbr_reads = up.rbr_reads ++ up.rx_fifo.take up.rxbuf.size.toNat ∧
      up1.rx_fifo = up.rx_fifo.drop up.rxbuf.size.toNat ∧
      up1.tty_batches = up.tty_batches ∧ up1.tty_flip = up.tty_flip ∧
      (∀ up2, intel_cln_uart_rx_to later (consumer_arrives up1 room more) = some up2 →
        ∃ batches, up2.tty_batches = up.tty_batches ++ batches ∧
          up2.rbr_reads = up1.rbr_reads ++ batches.flatten) ∧
      (1 ≤ up.rxbuf.size → (up.rx_fifo.drop up.rxbuf.size.toNat ++ more).length < later →
        ∃ up2, intel_cln_uart_rx_to later (consumer_arrives up1 room more) = some up2 ∧
          (∃ batches, up2.tty_batches = up.tty_batches ++ batches ∧
            batches.flatten = up.rx_fifo.drop up.rxbuf.size.toNat ++ more) ∧
          up2.tty_flip =
            up.tty_flip ++ (up.rx_fifo.drop up.rxbuf.size.toNat ++ more).take room) := by
  obtain ⟨f, rfl⟩ : ∃ f, fuel = f + 1 := ⟨fuel - 1, by omega⟩
  have htake : up.rx_fifo.take (min up.rxbuf.size.toNat up.rx_fifo.length) =
      up.rx_fifo.take up.rxbuf.size.toNat := by
    by_cases h : up.rxbuf.size.toNat ≤ up.rx_fifo.length
    · rw [Nat.min_eq_left h]
    · rw [Nat.min_eq_right (by omega), List.take_of_length_le (le_refl _),
        List.take_of_length_le (by omega)]
  have hdrop : up.rx_fifo.drop (min up.rxbuf.size.toNat up.rx_fifo.length) =
      up.rx_fifo.drop up.rxbuf.size.toNat := by
    by_cases h : up.rxbuf.size.toNat ≤ up.rx_fifo.length
    · rw [Nat.min_eq_left h]
    · rw [Nat.min_eq_right (by omega), List.drop_of_length_le (le_refl _),
        List.drop_of_length_le (by omega)]
  have hr : (intel_cln_uart_hal_read up up.rxbuf.size).2.rbr_reads =
      up.rbr_reads ++ up.rx_fifo.take up.rxbuf.size.toNat := by
    rw [hal_read_spec, ← htake]
  have hf : (intel_cln_uart_hal_read up up.rxbuf.size).2.rx_fifo =
      up.rx_fifo.drop up.rxbuf.size.toNat := by
    rw [hal_read_spec, ← hdrop]
  have hb : (intel_cln_uart_hal_read up up.rxbuf.size).2.tty_batches = up.tty_batches := by
    rw [hal_read_spec]
  have hfl : (intel_cln_uart_hal_read up up.rxbuf.size).2.tty_flip = up.tty_flip := by
    rw [hal_read_spec]
  have hst : (intel_cln_uart_hal_read up up.rxbuf.size).2.start_rx = up.start_rx := by
    rw [hal_read_spec]
  have hsz : (intel_cln_uart_hal_read up up.rxbuf.size).2.rxbuf.size = up.rxbuf.size := by
    rw [hal_read_spec]
  have hlater : intel_cln_uart_rx_to later
      (consumer_arrives (intel_cln_uart_hal_read up up.rxbuf.size).2 room more) =
      rx_to_loop later
        (consumer_arrives (intel_cln_uart_hal_read up up.rxbuf.size).2 room more) := by
    unfold intel_cln_uart_rx_to
    rw [if_neg]
    show (intel_cln_uart_hal_read up up.rxbuf.size).2.start_rx ≠ 0
    rw [hst]
    exact hstart
  refine ⟨_, rx_to_busy f up hstart hbusy, hr, hf, hb, hfl, fun up2 h2 => ?_, fun h1 hlen => ?_⟩
  · rw [hlater] at h2
    obtain ⟨batches, h3, h4⟩ := rx_to_loop_stream later
      (consumer_arrives (intel_cln_uart_hal_read up up.rxbuf.size).2 room more) up2 rfl h2
    refine ⟨batches, ?_, h4⟩
    rw [h3]
    show (intel_cln_uart_hal_read up up.rxbuf.size).2.tty_batches ++ batches = _
    rw [hb]
  · rw [hlater]
    obtain ⟨up2, h3, _, _, ⟨batches, h5, h6⟩, h7⟩ := rx_to_loop_drains later
      (consumer_arrives (intel_cln_uart_hal_read up up.rxbuf.size).2 room more) rfl
      (by show 1 ≤ (intel_cln_uart_hal_read up up.rxbuf.size).2.rxbuf.size; rw [hsz]; exact h1)
      (by show ((intel_cln_uart_hal_read up up.rxbuf.size).2.rx_fifo ++ more).length < later
          rw [hf]; exact hlen)
    refine ⟨up2, h3, ⟨batches, ?_, ?_⟩, ?_⟩
    · rw [h5]
      show (intel_cln_uart_hal_read up up.rxbuf.size).2.tty_batches ++ batches = _
      rw [hb]
    · rw [h6]
      show (intel_cln_uart_hal_read up up.rxbuf.size).2.rx_fifo ++ more = _
      rw [hf]
    · rw [h7]
      show (intel_cln_uart_hal_read up up.rxbuf.size).2.tty_flip ++
        ((intel_cln_uart_hal_read up up.rxbuf.size).2.rx_fifo ++ more).take room = _
      rw [hfl, hf]

/-- C18, the claim as stated fails: with the consumer unavailable and the
bytes 1, 2, 3 in the hardware FIFO, the drain reads the three bytes out of the
FIFO and passes nothing on; the next drain, with the consumer available and
room for 100 bytes, passes one empty batch: the three bytes are never
delivered. -/
theorem rx_to_busy_loses_bytes :
    (intel_cln_uart_rx_to 2 (busy_port [1, 2, 3])).map
      (fun up => (up.rbr_reads, up.rx_fifo, up.tty_batches, up.tty_flip)) =
        some ([1, 2, 3], [], [], []) ∧
    ((intel_cln_uart_rx_to 2 (busy_port [1, 2, 3])).bind
      fun up => intel_cln_uart_rx_to 2 (consumer_arrives up 100 [])).map
      (fun up => (up.rbr_reads, up.tty_batches, up.tty_flip)) = some ([1, 2, 3], [[]], []) := by
  decide

/-- C18 (amended) at a concrete port: the bytes 1, 2, 3 are read while the
consumer is unavailable; the next drain, with the bytes 4, 5 arrived since,
delivers 4, 5 only. -/
theorem rx_to_busy_drops_batch_witness :
    ∃ up1, intel_cln_uart_rx_to 2 (busy_port [1, 2, 3]) = some up1 ∧
      up1.rbr_reads = [1, 2, 3] ∧
      ∃ up2, intel_cln_uart_rx_to 3 (consumer_arrives up1 100 [4, 5]) = some up2 ∧
        up2.tty_flip = [4, 5] := by
  obtain ⟨up1, h1, hr, _, _, _, _, h2⟩ :=
    rx_to_busy_drops_batch 2 3 (busy_port [1, 2, 3]) 100 [4, 5] (by decide) (by decide)
      (by decide)
  obtain ⟨up2, h3, _, hf⟩ := h2 (by decide) (by decide)
  exact ⟨up1, h1, hr, up2, h3, hf⟩

/-! ## The interrupt coordinator: what the engines leave in the event record -/

theorem hal_write_events (up : intel_cln_uart) (buf : Int → Nat) (n : Int) :
    (intel_cln_uart_hal_write up buf n).events = up.events := by
  rw [hal_write_eq]

theorem tx_send_x_char_events (up : intel_cln_uart) :
    (tx_send_x_char up).2.events = up.events := by
  by_cases hx : up.port.x_char = 0
  · rw [tx_send_x_char_none up hx]
  · rw [tx_send_x_char_some up hx]

theorem dma_tx_submit_events (PAGE_SHIFT avail : Nat) (prep_ok : Bool) (f b : Int)
    (up : intel_cln_uart) :
    (dma_tx_submit PAGE_SHIFT avail prep_ok f b up).events = up.events := by
  unfold dma_tx_submit
  dsimp only
  split_ifs <;> rfl

theorem dma_tx_events (PAGE_SHIFT avail : Nat) (prep_ok : Bool) (up up' : intel_cln_uart)
    (h : intel_cln_uart_dma_tx PAGE_SHIFT avail prep_ok up = some up') :
    up'.events = up.events := by
  by_cases hstart : up.start_tx = 0
  · simp only [intel_cln_uart_dma_tx, hstart, if_true, Option.some.injEq] at h
    subst h; rfl
  by_cases huse : up.tx_dma_use = 0
  · rw [dma_tx_idle PAGE_SHIFT avail prep_ok up hstart huse] at h
    split_ifs at h
    · simp only [Option.some.injEq] at h
      subst h
      exact tx_send_x_char_events up
    · simp only [Option.some.injEq] at h
      subst h
      rw [dma_tx_submit_events]
      exact tx_send_x_char_events up
  · simp only [intel_cln_uart_dma_tx, hstart, huse, if_false, ne_eq, not_false_eq_true,
      if_true, Option.some.injEq] at h
    subst h; rfl

theorem dma_tx_complete_events (PAGE_SHIFT : Nat) (up up' : intel_cln_uart)
    (h : intel_cln_uart_dma_tx_complete PAGE_SHIFT up = some up') :
    up'.events = up.events := by
  unfold intel_cln_uart_dma_tx_complete at h
  split_ifs at h
  simp only [Option.some.injEq] at h
  subst h
  rfl

theorem pop_tx_loop_events (PAGE_SHIFT : Nat) (size : Int) :
    ∀ (fuel : Nat) (count : Int) (up : intel_cln_uart) (r : Int × intel_cln_uart),
      pop_tx_loop PAGE_SHIFT size fuel count up = some r → r.2.events = up.events := by
  intro fuel
  induction fuel with
  | zero => intro count up r h; simp [pop_tx_loop] at h
  | succ n ih =>
    intro count up r h
    rw [pop_tx_loop_succ] at h
    split_ifs at h
    · have h2 := ih _ _ r h
      exact h2
    · simp only [Option.some.injEq] at h
      subst h
      rfl

theorem pop_tx_events (PAGE_SHIFT fuel : Nat) (up : intel_cln_uart) (size : Int)
    (r : Int × intel_cln_uart) (h : pop_tx PAGE_SHIFT fuel up size = some r) :
    r.2.events = up.events := by
  unfold pop_tx at h
  split_ifs at h
  · simp only [Option.some.injEq] at h
    subst h; rfl
  · exact pop_tx_loop_events PAGE_SHIFT size fuel 0 up r h

theorem tx_finish_events (tx_empty tx_size : Int) (up : intel_cln_uart) :
    (tx_finish tx_empty tx_size up).events = up.events := by
  unfold tx_finish
  dsimp only
  split_ifs <;> rfl

theorem intel_cln_uart_tx_events (PAGE_SHIFT fuel : Nat) (up up' : intel_cln_uart)
    (h : intel_cln_uart_tx PAGE_SHIFT fuel up = some up') : up'.events = up.events := by
  unfold intel_cln_uart_tx at h
  by_cases hstart : up.start_tx = 0
  · rw [if_pos hstart] at h
    simp only [Option.some.injEq] at h
    subst h; rfl
  · rw [if_neg hstart] at h
    dsimp only at h
    split at h
    · exact absurd h (by simp)
    · rename_i tx_size u hp
      simp only [Option.some.injEq] at h
      subst h
      rw [tx_finish_events]
      have hu := pop_tx_events PAGE_SHIFT fuel _ _ _ hp
      exact hu.trans (tx_send_x_char_events up)

theorem rx_to_loop_events :
    ∀ (fuel : Nat) (up up' : intel_cln_uart), rx_to_loop fuel up = some up' →
      up'.events = up.events := by
  intro fuel
  induction fuel with
  | zero => intro up up' h; simp [rx_to_loop] at h
  | succ n ih =>
    intro up up' h
    unfold rx_to_loop at h
    dsimp only at h
    have hr : (intel_cln_uart_hal_read up up.rxbuf.size).2.events = up.events := by
      rw [hal_read_spec]
    have hp : (push_rx (intel_cln_uart_hal_read up up.rxbuf.size).2
        (intel_cln_uart_hal_read up up.rxbuf.size).1).2.events = up.events := by
      rw [← hr]
      unfold push_rx tty_insert_flip_string
      split_ifs <;> rfl
    split_ifs at h
    · simp only [Option.some.injEq] at h
      subst h; exact hp
    · rw [ih _ _ h]; exact hp
    · simp only [Option.some.injEq] at h
      subst h; exact hp

theorem rx_to_events (fuel : Nat) (up up' : intel_cln_uart)
    (h : intel_cln_uart_rx_to fuel up = some up') : up'.events = up.events := by
  unfold intel_cln_uart_rx_to at h
  split_ifs at h
  · simp only [Option.some.injEq] at h
    subst h; rfl
  · exact rx_to_loop_events fuel up up' h

theorem dma_rx_events (prep_ok : Bool) (up : intel_cln_uart) :
    (intel_cln_uart_dma_rx prep_ok up).events = up.events := by
  unfold intel_cln_uart_dma_rx
  dsimp only
  split_ifs <;> rfl

theorem dma_rx_complete_events (up : intel_cln_uart) :
    (intel_cln_uart_dma_rx_complete up).events = up.events := by
  unfold intel_cln_uart_dma_rx_complete intel_cln_uart_dma_push_rx tty_insert_flip_string
  dsimp only
  split_ifs <;> rfl

theorem events_extend_of_eq (up u : intel_cln_uart) (h : u.events = up.events) :
    events_extend up u :=
  ⟨[], by rw [h, List.append_nil], by simp⟩

theorem events_extend_trans (a b c : intel_cln_uart) (h1 : events_extend a b)
    (h2 : events_extend b c) : events_extend a c := by
  obtain ⟨e1, h1, n1⟩ := h1
  obtain ⟨e2, h2, n2⟩ := h2
  refine ⟨e1 ++ e2, by rw [h2, h1, List.append_assoc], ?_⟩
  simp only [List.mem_append, not_or]
  exact ⟨n1, n2⟩

theorem events_extend_log (up : intel_cln_uart) (e : isr_event)
    (he : e ≠ isr_event.dma_interrupt) : events_extend up (log_event up e) :=
  ⟨[e], rfl, by simpa using he.symm⟩

theorem events_extend_log_if (c : Bool) (up : intel_cln_uart) (e : isr_event)
    (he : e ≠ isr_event.dma_interrupt) : events_extend up (log_event_if c e up) := by
  unfold log_event_if
  split_ifs
  · exact events_extend_log up e he
  · exact events_extend_of_eq up up rfl

theorem log_event_if_frame (c : Bool) (e : isr_event) (up : intel_cln_uart) :
    (log_event_if c e up).reg_writes = up.reg_writes ∧
      (log_event_if c e up).tty_batches = up.tty_batches ∧
      (log_event_if c e up).tty_flip = up.tty_flip ∧
      (log_event_if c e up).rbr_reads = up.rbr_reads ∧
      (log_event_if c e up).rx_fifo = up.rx_fifo := by
  unfold log_event_if
  split_ifs <;> exact ⟨rfl, rfl, rfl, rfl, rfl⟩

theorem serial_in_iir_cons (up : intel_cln_uart) (v : Nat) (rest : List Nat)
    (hs : up.iir_script = v :: rest) :
    serial_in up UART_IIR = (v % 256, after_iir_read up v rest) := by
  unfold serial_in after_iir_read
  rw [if_neg (by decide), if_neg (by decide), if_pos rfl, hs]

theorem serial_in_iir_nil (up : intel_cln_uart) (hs : up.iir_script = []) :
    serial_in up UART_IIR =
      (INTEL_CLN_UART_IIR_NOIRQ,
        { up with events := up.events ++ [.iir_read INTEL_CLN_UART_IIR_NOIRQ] }) := by
  unfold serial_in
  rw [if_neg (by decide), if_neg (by decide), if_pos rfl, hs]

theorem serial_in_iir_frame (up : intel_cln_uart) :
    (serial_in up UART_IIR).2.events = up.events ++ [.iir_read (serial_in up UART_IIR).1] ∧
      (serial_in up UART_IIR).2.reg_writes = up.reg_writes ∧
      (serial_in up UART_IIR).2.tty_batches = up.tty_batches ∧
      (serial_in up UART_IIR).2.tty_flip = up.tty_flip ∧
      (serial_in up UART_IIR).2.rbr_reads = up.rbr_reads ∧
      (serial_in up UART_IIR).2.rx_fifo = up.rx_fifo := by
  cases hs : up.iir_script with
  | nil => rw [serial_in_iir_nil up hs]; exact ⟨rfl, rfl, rfl, rfl, rfl, rfl⟩
  | cons v rest => rw [serial_in_iir_cons up v rest hs]; exact ⟨rfl, rfl, rfl, rfl, rfl, rfl⟩

theorem or_clear_rcvr (w : Nat) :
    ((w ||| UART_FCR_CLEAR_RCVR) % 256) &&& UART_FCR_CLEAR_RCVR ≠ 0 := by
  have h2 : UART_FCR_CLEAR_RCVR = 2 ^ 1 := rfl
  have h256 : (256 : Nat) = 2 ^ 8 := rfl
  rw [h2, and_two_pow_ne_zero, h256, Nat.testBit_mod_two_pow, Nat.testBit_or,
    Nat.testBit_two_pow_self]
  simp

theorem lsr_reports_events (c1 c2 c3 c4 : Bool) (b1 b2 b3 b4 : Nat) (x : intel_cln_uart) :
    events_extend x
      (log_event_if c4 (.lsr_error b4) (log_event_if c3 (.lsr_error b3)
        (log_event_if c2 (.lsr_error b2) (log_event_if c1 (.lsr_error b1) x)))) := by
  have h1 := events_extend_log_if c1 x (.lsr_error b1) (fun h => by cases h)
  have h2 := events_extend_log_if c2 (log_event_if c1 (.lsr_error b1) x) (.lsr_error b2)
    (fun h => by cases h)
  have h3 := events_extend_log_if c3
    (log_event_if c2 (.lsr_error b2) (log_event_if c1 (.lsr_error b1) x)) (.lsr_error b3)
    (fun h => by cases h)
  have h4 := events_extend_log_if c4
    (log_event_if c3 (.lsr_error b3)
      (log_event_if c2 (.lsr_error b2) (log_event_if c1 (.lsr_error b1) x))) (.lsr_error b4)
    (fun h => by cases h)
  exact events_extend_trans _ _ _ (events_extend_trans _ _ _ (events_extend_trans _ _ _ h1 h2) h3)
    h4

theorem err_ir_frame (up : intel_cln_uart) (lsr : Nat) :
    (∃ w, (intel_cln_uart_err_ir up lsr).reg_writes = up.reg_writes ++ [(UART_FCR, w)] ∧
      w &&& UART_FCR_CLEAR_RCVR ≠ 0) ∧
    (intel_cln_uart_err_ir up lsr).tty_batches = up.tty_batches ∧
    (intel_cln_uart_err_ir up lsr).tty_flip = up.tty_flip ∧
    (intel_cln_uart_err_ir up lsr).rbr_reads = up.rbr_reads ∧
    (intel_cln_uart_err_ir up lsr).rx_fifo = up.rx_fifo ∧
    events_extend up (intel_cln_uart_err_ir up lsr) := by
  have hfcr : UART_IIR = UART_FCR := rfl
  have H := serial_in_iir_frame up
  rw [hfcr] at H
  obtain ⟨he, hw, hb, hf, hr, hx⟩ := H
  unfold intel_cln_uart_err_ir
  dsimp only
  generalize hu : serial_out
    { (serial_in up UART_FCR).2 with
      fcr := (serial_in up UART_FCR).1 % 256 ||| UART_FCR_CLEAR_RCVR } UART_FCR
    ((serial_in up UART_FCR).1 % 256 ||| UART_FCR_CLEAR_RCVR) = u
  have hu1 : u.reg_writes = up.reg_writes ++
      [(UART_FCR, ((serial_in up UART_FCR).1 % 256 ||| UART_FCR_CLEAR_RCVR) % 256)] := by
    rw [← hu, ← hw]; rfl
  have hu2 : u.tty_batches = up.tty_batches := by rw [← hu, ← hb]; rfl
  have hu3 : u.tty_flip = up.tty_flip := by rw [← hu, ← hf]; rfl
  have hu4 : u.rbr_reads = up.rbr_reads := by rw [← hu, ← hr]; rfl
  have hu5 : u.rx_fifo = up.rx_fifo := by rw [← hu, ← hx]; rfl
  have hu6 : events_extend up u :=
    ⟨[.iir_read (serial_in up UART_FCR).1], by rw [← hu, ← he]; rfl, by simp⟩
  refine ⟨⟨_, ?_, or_clear_rcvr ((serial_in up UART_FCR).1 % 256)⟩, ?_, ?_, ?_, ?_, ?_⟩
  · rw [(log_event_if_frame _ _ _).1, (log_event_if_frame _ _ _).1,
      (log_event_if_frame _ _ _).1, (log_event_if_frame _ _ _).1, hu1]
  · rw [(log_event_if_frame _ _ _).2.1, (log_event_if_frame _ _ _).2.1,
      (log_event_if_frame _ _ _).2.1, (log_event_if_frame _ _ _).2.1, hu2]
  · rw [(log_event_if_frame _ _ _).2.2.1, (log_event_if_frame _ _ _).2.2.1,
      (log_event_if_frame _ _ _).2.2.1, (log_event_if_frame _ _ _).2.2.1, hu3]
  · rw [(log_event_if_frame _ _ _).2.2.2.1, (log_event_if_frame _ _ _).2.2.2.1,
      (log_event_if_frame _ _ _).2.2.2.1, (log_event_if_frame _ _ _).2.2.2.1, hu4]
  · rw [(log_event_if_frame _ _ _).2.2.2.2, (log_event_if_frame _ _ _).2.2.2.2,
      (log_event_if_frame _ _ _).2.2.2.2, (log_event_if_frame _ _ _).2.2.2.2, hu5]
  · exact events_extend_trans _ _ _ hu6 (lsr_reports_events _ _ _ _ _ _ _ _ u)

theorem msr_reports_events (c1 c2 : Bool) (s1 s2 : Nat) (x : intel_cln_uart) :
    events_extend x
      (log_event (log_event_if c2 (.cts_change s2) (log_event_if c1 (.dcd_change s1) x))
        .delta_msr_wakeup) := by
  have h1 := events_extend_log_if c1 x (.dcd_change s1) (fun h => by cases h)
  have h2 := events_extend_log_if c2 (log_event_if c1 (.dcd_change s1) x) (.cts_change s2)
    (fun h => by cases h)
  have h3 := events_extend_log
    (log_event_if c2 (.cts_change s2) (log_event_if c1 (.dcd_change s1) x)) .delta_msr_wakeup
    (fun h => by cases h)
  exact events_extend_trans _ _ _ (events_extend_trans _ _ _ h1 h2) h3

theorem check_modem_status_events (up : intel_cln_uart) :
    events_extend up (check_modem_status up) := by
  unfold check_modem_status
  have hm : serial_in up UART_MSR = (up.msr % 256, up) := by
    unfold serial_in
    rw [if_neg (by decide), if_neg (by decide), if_neg (by decide), if_pos rfl]
  rw [hm]
  dsimp only
  split_ifs
  · exact events_extend_of_eq up up rfl
  all_goals
    exact events_extend_trans _ _ _ (events_extend_of_eq up _ rfl) (msr_reports_events _ _ _ _ _)

theorem dma_rx_retire_events (up : intel_cln_uart) : (dma_rx_retire up).events = up.events := by
  unfold dma_rx_retire
  split
  · rfl
  · rw [dma_rx_complete_events]

theorem dma_tx_retire_events (PAGE_SHIFT : Nat) (up u : intel_cln_uart)
    (h : dma_tx_retire PAGE_SHIFT up = some u) : u.events = up.events := by
  unfold dma_tx_retire at h
  split at h
  · simp only [Option.some.injEq] at h
    subst h; rfl
  · rw [dma_tx_complete_events PAGE_SHIFT _ u h]

theorem dma_interrupt_events (PAGE_SHIFT : Nat) (dma : dma_service) (up u : intel_cln_uart)
    (h : intel_mid_dma_interrupt PAGE_SHIFT dma up = some u) :
    u.events = up.events ++ [.dma_interrupt] := by
  unfold intel_mid_dma_interrupt at h
  dsimp only at h
  generalize hx : (if dma.rx_done = true then dma_rx_retire (log_event up .dma_interrupt)
      else log_event up .dma_interrupt) = x at h
  have h1 : x.events = up.events ++ [.dma_interrupt] := by
    rw [← hx]
    split_ifs
    · rw [dma_rx_retire_events]; rfl
    · rfl
  split_ifs at h with h2
  · rw [dma_tx_retire_events PAGE_SHIFT _ u h, h1]
  · simp only [Option.some.injEq] at h
    rw [← h, h1]

theorem isr_case_events (PAGE_SHIFT fuel : Nat) (dma : dma_service) (iid ret : Nat)
    (up : intel_cln_uart) (c : Nat × intel_cln_uart)
    (h : isr_case PAGE_SHIFT fuel dma iid ret up = some c) :
    events_extend up c.2 ∧ (c.1 = ret ∨ c.1 = 2 ^ 32 - 1) := by
  unfold isr_case at h
  dsimp only at h
  by_cases h1 : iid = INTEL_CLN_UART_IIR_RLS
  · rw [if_pos h1, (serial_in_lsr up).1] at h
    split_ifs at h
    · simp only [Option.some.injEq] at h
      subst h
      exact ⟨(err_ir_frame up _).2.2.2.2.2, Or.inl rfl⟩
    · simp only [Option.some.injEq] at h
      subst h
      exact ⟨events_extend_of_eq _ _ rfl, Or.inl rfl⟩
  rw [if_neg h1] at h
  by_cases h2 : iid = INTEL_CLN_UART_IIR_RXD
  · rw [if_pos h2] at h
    split_ifs at h
    · simp only [Option.some.injEq] at h
      subst h
      exact ⟨events_extend_of_eq _ _ (dma_rx_events _ _), Or.inl rfl⟩
    · obtain ⟨u, hu, rfl⟩ := Option.map_eq_some'.mp h
      exact ⟨events_extend_of_eq _ _ (rx_to_events fuel up u hu), Or.inl rfl⟩
  rw [if_neg h2] at h
  by_cases h3 : iid = INTEL_CLN_UART_IIR_TO
  · rw [if_pos h3] at h
    obtain ⟨u, hu, rfl⟩ := Option.map_eq_some'.mp h
    exact ⟨events_extend_of_eq _ _ (rx_to_events fuel up u hu), Or.inl rfl⟩
  rw [if_neg h3] at h
  by_cases h4 : iid = INTEL_CLN_UART_IIR_THRE
  · rw [if_pos h4] at h
    split_ifs at h
    · obtain ⟨u, hu, rfl⟩ := Option.map_eq_some'.mp h
      exact ⟨events_extend_of_eq _ _ (dma_tx_events _ _ _ up u hu), Or.inl rfl⟩
    · obtain ⟨u, hu, rfl⟩ := Option.map_eq_some'.mp h
      exact ⟨events_extend_of_eq _ _ (intel_cln_uart_tx_events _ _ up u hu), Or.inl rfl⟩
  rw [if_neg h4] at h
  simp only [Option.some.injEq] at h
  subst h
  exact ⟨events_extend_log up _ (fun e => by cases e), Or.inr rfl⟩

theorem isr_loop_succ (PAGE_SHIFT fuel : Nat) (dma : dma_service) (n ret : Nat)
    (up : intel_cln_uart) :
    isr_loop PAGE_SHIFT fuel dma (n + 1) ret up =
      if (serial_in up UART_IIR).1 > 1 then
        (isr_case PAGE_SHIFT fuel dma (serial_in up UART_IIR).1 ret (serial_in up UART_IIR).2).bind
          fun c => isr_loop PAGE_SHIFT fuel dma n c.1 c.2
      else some (ret, (serial_in up UART_IIR).2) := by
  rw [isr_loop]
  split_ifs
  · cases isr_case PAGE_SHIFT fuel dma (serial_in up UART_IIR).1 ret (serial_in up UART_IIR).2 <;>
      rfl
  · rfl

theorem isr_loop_events (PAGE_SHIFT fuel : Nat) (dma : dma_service) :
    ∀ (n ret : Nat) (up : intel_cln_uart) (s : Nat × intel_cln_uart),
      isr_loop PAGE_SHIFT fuel dma n ret up = some s →
      ∃ evs w, s.2.events = up.events ++ evs ++ [.iir_read w] ∧ w ≤ 1 ∧
        isr_event.dma_interrupt ∉ evs ∧ (s.1 = ret ∨ s.1 = 2 ^ 32 - 1) := by
  intro n
  induction n with
  | zero => intro ret up s h; simp [isr_loop] at h
  | succ n ih =>
    intro ret up s h
    rw [isr_loop_succ] at h
    have he := (serial_in_iir_frame up).1
    split_ifs at h with hgt
    · obtain ⟨c, hc, hl⟩ := Option.bind_eq_some.mp h
      obtain ⟨⟨e1, he1, hn1⟩, hret⟩ := isr_case_events _ _ _ _ _ _ c hc
      obtain ⟨e2, w, he2, hw, hn2, hret2⟩ := ih c.1 c.2 s hl
      refine ⟨[.iir_read (serial_in up UART_IIR).1] ++ e1 ++ e2, w, ?_, hw, ?_, ?_⟩
      · rw [he2, he1, he]
        simp only [List.append_assoc]
      · simp [hn1, hn2]
      · rcases hret2 with h1 | h1
        · rcases hret with h2 | h2
          · exact Or.inl (h1.trans h2)
          · exact Or.inr (h1.trans h2)
        · exact Or.inr h1
    · simp only [Option.some.injEq] at h
      subst h
      exact ⟨[], (serial_in up UART_IIR).1, by rw [he, List.append_nil], by omega, by simp,
        Or.inl rfl⟩

theorem or_eq_zero_iff' (a b : Nat) : a ||| b = 0 ↔ a = 0 ∧ b = 0 := by
  constructor
  · intro h
    have hbit : ∀ i, a.testBit i = false ∧ b.testBit i = false := fun i => by
      have := congrArg (fun n => Nat.testBit n i) h
      simpa [Nat.testBit_or] using this
    exact ⟨Nat.eq_of_testBit_eq fun i => by rw [(hbit i).1, Nat.zero_testBit],
      Nat.eq_of_testBit_eq fun i => by rw [(hbit i).2, Nat.zero_testBit]⟩
  · rintro ⟨rfl, rfl⟩
    rfl

theorem lsr_error_bits (lsr : Nat) :
    lsr &&& (UART_LSR_FIFOE ||| UART_LSR_FE ||| UART_LSR_PE ||| UART_LSR_OE) ≠ 0 ↔
      (lsr &&& UART_LSR_FIFOE ≠ 0 ∨ lsr &&& UART_LSR_FE ≠ 0 ∨ lsr &&& UART_LSR_PE ≠ 0 ∨
        lsr &&& UART_LSR_OE ≠ 0) := by
  rw [Nat.and_or_distrib_left, Nat.and_or_distrib_left, Nat.and_or_distrib_left, ne_eq,
    or_eq_zero_iff', or_eq_zero_iff', or_eq_zero_iff']
  tauto

theorem isr_loop_cons (PAGE_SHIFT fuel : Nat) (dma : dma_service) (n ret : Nat)
    (up : intel_cln_uart) (v : Nat) (rest : List Nat) (hs : up.iir_script = v :: rest)
    (h1 : 1 < v % 256) :
    isr_loop PAGE_SHIFT fuel dma (n + 1) ret up =
      (isr_case PAGE_SHIFT fuel dma (v % 256) ret (after_iir_read up v rest)).bind
        fun c => isr_loop PAGE_SHIFT fuel dma n c.1 c.2 := by
  rw [isr_loop_succ, serial_in_iir_cons up v rest hs]
  exact if_pos h1

/-! ## Unrecognised interrupt cause -/

/-- The default branch of the switch.  When the interrupt-identification
register reads a value greater than 1 that is none of Receiver Line Status
(0x06), Received Data Available (0x04), Character Timeout (0x08) or Transmit
Holding Register Empty (0x02), the polling loop of `intel_cln_uart_isr` logs
it, sets the value to return to -1 (as an `unsigned int`) and goes on
polling: it continues as the same loop from the logged state, so it reads the
identification register again, and whenever the loop ends it has read the
register at least once more after the log, the last read returned a value of
at most 1, and the value returned is -1. -/
theorem isr_unrecognised_iid_continues (PAGE_SHIFT fuel n : Nat) (dma : dma_service)
    (ret : Nat) (up : intel_cln_uart) (v : Nat) (rest : List Nat)
    (hs : up.iir_script = v :: rest) (h1 : 1 < v % 256)
    (hRLS : v % 256 ≠ INTEL_CLN_UART_IIR_RLS) (hRXD : v % 256 ≠ INTEL_CLN_UART_IIR_RXD)
    (hTO : v % 256 ≠ INTEL_CLN_UART_IIR_TO) (hTHRE : v % 256 ≠ INTEL_CLN_UART_IIR_THRE) :
    isr_loop PAGE_SHIFT fuel dma (n + 1) ret up =
        isr_loop PAGE_SHIFT fuel dma n (2 ^ 32 - 1)
          (log_event (after_iir_read up v rest) (.bad_iid (v % 256))) ∧
      ∀ s, isr_loop PAGE_SHIFT fuel dma (n + 1) ret up = some s →
        s.1 = 2 ^ 32 - 1 ∧
        ∃ evs w, s.2.events =
            up.events ++ [.iir_read (v % 256), .bad_iid (v % 256)] ++ evs ++ [.iir_read w] ∧
          w ≤ 1 := by
  have hstep : isr_loop PAGE_SHIFT fuel dma (n + 1) ret up =
      isr_loop PAGE_SHIFT fuel dma n (2 ^ 32 - 1)
        (log_event (after_iir_read up v rest) (.bad_iid (v % 256))) := by
    rw [isr_loop_cons PAGE_SHIFT fuel dma n ret up v rest hs h1]
    unfold isr_case
    rw [if_neg hRLS, if_neg hRXD, if_neg hTO, if_neg hTHRE]
    rfl
  refine ⟨hstep, fun s h => ?_⟩
  rw [hstep] at h
  obtain ⟨evs, w, he, hw, _, hret⟩ := isr_loop_events PAGE_SHIFT fuel dma n _ _ s h
  refine ⟨by rcases hret with h | h <;> exact h, evs, w, ?_, hw⟩
  rw [he]
  simp [log_event, after_iir_read]

/-- C15, the code at the failing input.  On a freshly probed port, when the
identification register reads 0x07 and then 0x02, the handler logs 0x07,
reads the register again, serves the Transmit Holding Register Empty cause
it finds (the PIO drain writes the interrupt-enable register) and only stops
at the read that returns 0x01.  When the register keeps reading 0x07 (three
times here), the handler logs it and reads the register again each time: the
loop ends only when the register no longer reports the cause, and with three
reads allowed it has not ended. -/
theorem isr_unrecognised_iid_reads_again :
    (isr_with [INTEL_CLN_UART_IIR_BUSY, INTEL_CLN_UART_IIR_THRE] dma_pending_service
      (intel_cln_uart_probe dma_enable empty_ring)).map
      (fun s => (s.1, s.2.events, s.2.reg_writes)) =
        some (2 ^ 32 - 1, [.iir_read 7, .bad_iid 7, .iir_read 2, .iir_read 1],
          [(UART_IER, 2)]) ∧
    (isr_with [INTEL_CLN_UART_IIR_BUSY, INTEL_CLN_UART_IIR_BUSY, INTEL_CLN_UART_IIR_BUSY]
      dma_pending_service (intel_cln_uart_probe dma_enable empty_ring)).map
      (fun s => (s.1, s.2.events)) =
        some (2 ^ 32 - 1, [.iir_read 7, .bad_iid 7, .iir_read 7, .bad_iid 7, .iir_read 7,
          .bad_iid 7, .iir_read 1]) ∧
    (intel_cln_uart_isr 12 3 dma_pending_service
      { intel_cln_uart_probe dma_enable empty_ring with
        iir_script := [INTEL_CLN_UART_IIR_BUSY, INTEL_CLN_UART_IIR_BUSY,
          INTEL_CLN_UART_IIR_BUSY] }).isNone = true := by
  decide

/-- The default branch at a concrete port: the register reads 0x07 and then
0x02. -/
theorem isr_unrecognised_iid_continues_witness :
    isr_loop 12 4 dma_pending_service 3 IRQ_HANDLED
        { intel_cln_uart_probe dma_enable empty_ring with iir_script := [7, 2] } =
      isr_loop 12 4 dma_pending_service 2 (2 ^ 32 - 1)
        (log_event (after_iir_read
          { intel_cln_uart_probe dma_enable empty_ring with iir_script := [7, 2] } 7 [2])
          (.bad_iid (7 % 256))) :=
  (isr_unrecognised_iid_continues 12 4 2 dma_pending_service IRQ_HANDLED
    { intel_cln_uart_probe dma_enable empty_ring with iir_script := [7, 2] } 7 [2] rfl
    (by decide) (by decide) (by decide) (by decide) (by decide)).1

/-! ## The DMA controller's interrupt handler -/

/-- C16, the claim as stated fails: on a freshly probed port (PIO mode, mode
word 0) the handler goes straight to the identification register and never
calls the DMA controller's interrupt handler. -/
theorem isr_pio_skips_dma_handler :
    (intel_cln_uart_probe dma_enable empty_ring).mode &&& CLN_UART_MODE_DMA = 0 ∧
    (isr_with [INTEL_CLN_UART_IIR_THRE] dma_pending_service
      (intel_cln_uart_probe dma_enable empty_ring)).map (fun s => s.2.events) =
        some [.iir_read 2, .iir_read 1] := by
  decide

/-! ## Interrupt dispatch -/

theorem bind_map_pair (o : Option intel_cln_uart) (ret : Nat)
    (f : Nat → intel_cln_uart → Option (Nat × intel_cln_uart)) :
    ((o.map fun u => (ret, u)).bind fun c => f c.1 c.2) = o.bind (f ret) := by
  cases o <;> rfl

theorem serial_in_lsr_value (up : intel_cln_uart) :
    serial_in up UART_LSR =
      (and_not up.lsr_flags UART_LSR_DR ||| (if up.rx_fifo = [] then 0 else UART_LSR_DR), up) := by
  unfold serial_in
  rw [if_neg (by decide), if_pos rfl]

/-- C17. Interrupt dispatch follows the mode table.  When the polling loop of
`intel_cln_uart_isr` reads the identification value `v` (the next value the
register returns), with `u` the port state after that read:
Received Data Available: in DMA mode the loop continues from
`intel_cln_uart_dma_rx u`, in PIO mode from `intel_cln_uart_rx_to u`;
Character Timeout: from `intel_cln_uart_rx_to u` in both modes;
Transmit Holding Register Empty: in DMA mode from `intel_cln_uart_dma_tx u`,
in PIO mode from `intel_cln_uart_tx u`;
Receiver Line Status: the loop continues from a state in which nothing was
passed to the consumer and nothing was read from the receive register, and in
which one write to the FIFO control register with the RX-FIFO reset bit set
has been added exactly when one of the FIFO-error, framing, parity or overrun
bits is set in the line-status value (otherwise no register was written). -/
theorem isr_dispatch_table (PAGE_SHIFT fuel n : Nat) (dma : dma_service) (ret : Nat)
    (up : intel_cln_uart) (v : Nat) (rest : List Nat) (hs : up.iir_script = v :: rest) :
    (v % 256 = INTEL_CLN_UART_IIR_RXD →
      isr_loop PAGE_SHIFT fuel dma (n + 1) ret up =
        if up.mode &&& CLN_UART_MODE_DMA ≠ 0 then
          isr_loop PAGE_SHIFT fuel dma n ret
            (intel_cln_uart_dma_rx dma.rx_prep_ok (after_iir_read up v rest))
        else
          (intel_cln_uart_rx_to fuel (after_iir_read up v rest)).bind
            (isr_loop PAGE_SHIFT fuel dma n ret)) ∧
    (v % 256 = INTEL_CLN_UART_IIR_TO →
      isr_loop PAGE_SHIFT fuel dma (n + 1) ret up =
        (intel_cln_uart_rx_to fuel (after_iir_read up v rest)).bind
          (isr_loop PAGE_SHIFT fuel dma n ret)) ∧
    (v % 256 = INTEL_CLN_UART_IIR_THRE →
      isr_loop PAGE_SHIFT fuel dma (n + 1) ret up =
        if up.mode &&& CLN_UART_MODE_DMA ≠ 0 then
          (intel_cln_uart_dma_tx PAGE_SHIFT dma.tx_avail dma.tx_prep_ok
            (after_iir_read up v rest)).bind (isr_loop PAGE_SHIFT fuel dma n ret)
        else
          (intel_cln_uart_tx PAGE_SHIFT fuel (after_iir_read up v rest)).bind
            (isr_loop PAGE_SHIFT fuel dma n ret)) ∧
    (v % 256 = INTEL_CLN_UART_IIR_RLS →
      ∃ u, isr_loop PAGE_SHIFT fuel dma (n + 1) ret up = isr_loop PAGE_SHIFT fuel dma n ret u ∧
        u.tty_batches = up.tty_batches ∧ u.tty_flip = up.tty_flip ∧
        u.rbr_reads = up.rbr_reads ∧ u.rx_fifo = up.rx_fifo ∧
        ((∃ w, u.reg_writes = up.reg_writes ++ [(UART_FCR, w)] ∧
            w &&& UART_FCR_CLEAR_RCVR ≠ 0) ↔
          ((serial_in up UART_LSR).1 &&& UART_LSR_FIFOE ≠ 0 ∨
            (serial_in up UART_LSR).1 &&& UART_LSR_FE ≠ 0 ∨
            (serial_in up UART_LSR).1 &&& UART_LSR_PE ≠ 0 ∨
            (serial_in up UART_LSR).1 &&& UART_LSR_OE ≠ 0)) ∧
        (u.reg_writes = up.reg_writes ∨ ∃ w, u.reg_writes = up.reg_writes ++ [(UART_FCR, w)])) := by
  refine ⟨fun hv => ?_, fun hv => ?_, fun hv => ?_, fun hv => ?_⟩
  · rw [isr_loop_cons PAGE_SHIFT fuel dma n ret up v rest hs (by rw [hv]; decide), hv]
    unfold isr_case
    rw [if_neg (by decide), if_pos rfl]
    show (if up.mode &&& CLN_UART_MODE_DMA ≠ 0 then _ else _ : Option _).bind _ = _
    split_ifs
    · rfl
    · exact bind_map_pair _ ret _
  · rw [isr_loop_cons PAGE_SHIFT fuel dma n ret up v rest hs (by rw [hv]; decide), hv]
    unfold isr_case
    rw [if_neg (by decide), if_neg (by decide), if_pos rfl]
    exact bind_map_pair _ ret _
  · rw [isr_loop_cons PAGE_SHIFT fuel dma n ret up v rest hs (by rw [hv]; decide), hv]
    unfold isr_case
    rw [if_neg (by decide), if_neg (by decide), if_neg (by decide), if_pos rfl]
    show (if up.mode &&& CLN_UART_MODE_DMA ≠ 0 then _ else _ : Option _).bind _ = _
    split_ifs
    · exact bind_map_pair _ ret _
    · exact bind_map_pair _ ret _
  · rw [isr_loop_cons PAGE_SHIFT fuel dma n ret up v rest hs (by rw [hv]; decide), hv]
    unfold isr_case
    rw [if_pos rfl]
    have hl : serial_in (after_iir_read up v rest) UART_LSR =
        ((serial_in up UART_LSR).1, after_iir_read up v rest) := by
      rw [serial_in_lsr_value, serial_in_lsr_value]
      rfl
    rw [hl]
    dsimp only
    by_cases herr : (serial_in up UART_LSR).1 &&&
        (UART_LSR_FIFOE ||| UART_LSR_FE ||| UART_LSR_PE ||| UART_LSR_OE) ≠ 0
    · rw [if_pos herr]
      obtain ⟨⟨w, hw, hbit⟩, hb, hf, hr, hx, _⟩ :=
        err_ir_frame (after_iir_read up v rest) (serial_in up UART_LSR).1
      refine ⟨_, rfl, hb, hf, hr, hx, ?_, Or.inr ⟨w, hw⟩⟩
      exact ⟨fun _ => (lsr_error_bits _).mp herr, fun _ => ⟨w, hw, hbit⟩⟩
    · rw [if_neg herr]
      refine ⟨_, rfl, rfl, rfl, rfl, rfl, ?_, Or.inl rfl⟩
      constructor
      · rintro ⟨w, hw, _⟩
        have hlen := congrArg List.length hw
        rw [List.length_append] at hlen
        have : (after_iir_read up v rest).reg_writes.length = up.reg_writes.length := rfl
        simp only [List.length_singleton] at hlen
        omega
      · intro h
        exact absurd ((lsr_error_bits _).mpr h) herr

/-- C17 at concrete ports: Received Data Available on a port in DMA mode, and
Receiver Line Status with the framing bit set on a freshly probed port. -/
theorem isr_dispatch_table_witness :
    isr_loop 12 4 dma_pending_service 2 IRQ_HANDLED
        { dma_mode_port empty_ring with iir_script := [4] } =
      isr_loop 12 4 dma_pending_service 1 IRQ_HANDLED
        (intel_cln_uart_dma_rx true
          (after_iir_read { dma_mode_port empty_ring with iir_script := [4] } 4 [])) ∧
    ∃ u, isr_loop 12 4 dma_pending_service 2 IRQ_HANDLED
        { intel_cln_uart_probe dma_enable empty_ring with
          iir_script := [6], lsr_flags := UART_LSR_FE } =
        isr_loop 12 4 dma_pending_service 1 IRQ_HANDLED u ∧
      ∃ w, u.reg_writes = [] ++ [(UART_FCR, w)] ∧ w &&& UART_FCR_CLEAR_RCVR ≠ 0 := by
  refine ⟨((isr_dispatch_table 12 4 1 dma_pending_service IRQ_HANDLED
    { dma_mode_port empty_ring with iir_script := [4] } 4 [] rfl).1 (by decide)).trans
      (if_pos (by decide)), ?_⟩
  obtain ⟨u, hu, _, _, _, _, hiff, _⟩ :=
    (isr_dispatch_table 12 4 1 dma_pending_service IRQ_HANDLED
      { intel_cln_uart_probe dma_enable empty_ring with
        iir_script := [6], lsr_flags := UART_LSR_FE } 6 [] rfl).2.2.2 (by decide)
  exact ⟨u, hu, hiff.mpr (Or.inr (Or.inl (by decide)))⟩

/-! ## Port bring-up -/

/-- C21, the code at its default.  The module parameter `dma_enable` is
`false` although its description reads "default true", and probe leaves the
mode word 0, the DMA bit clear, also when the parameter is true: the bit set
by `up->mode |= CLN_UART_MODE_DMA` is overwritten by the `up->mode = 0` that
follows. -/
theorem dma_enable_default_and_probe_mode :
    dma_enable = false ∧
      ∀ xmit, (intel_cln_uart_probe true xmit).mode = 0 ∧
        (intel_cln_uart_probe true xmit).mode &&& CLN_UART_MODE_DMA = 0 := by
  refine ⟨rfl, fun xmit => ?_⟩
  simp [intel_cln_uart_probe]

theorem serial_in_reg_frame (up : intel_cln_uart) (offset : Nat) :
    (serial_in up offset).2.reg_writes = up.reg_writes ∧
      (serial_in up offset).2.fcr = up.fcr ∧
      (serial_in up offset).2.ier = up.ier ∧
      (serial_in up offset).2.mcr = up.mcr ∧
      (serial_in up offset).2.mode = up.mode ∧
      (serial_in up offset).2.port = up.port := by
  unfold serial_in
  split_ifs <;> (try split) <;> simp

theorem clear_interrupt_registers_frame (up : intel_cln_uart) :
    (clear_interrupt_registers up).reg_writes = up.reg_writes ∧
      (clear_interrupt_registers up).mode = up.mode ∧
      (clear_interrupt_registers up).port = up.port ∧
      (clear_interrupt_registers up).mcr = up.mcr := by
  unfold clear_interrupt_registers
  simp only [serial_in_reg_frame, and_self]

theorem fcr_writes_append (up : intel_cln_uart) (ws : List (Nat × Nat)) (u : intel_cln_uart)
    (h : u.reg_writes = up.reg_writes ++ ws) :
    fcr_writes u = fcr_writes up ++ (ws.filter fun w => w.1 = UART_FCR).map fun w => w.2 := by
  simp [fcr_writes, h]

/-- `intel_cln_uart_set_mctrl` is one write to the modem-control register. -/
theorem set_mctrl_write :
    ∃ f : Nat → Nat → Nat, ∀ (up : intel_cln_uart) (mctrl : Nat),
      intel_cln_uart_set_mctrl up mctrl = serial_out up UART_MCR (f mctrl up.mcr) :=
  ⟨fun mctrl mcr =>
    let m : Nat := 0
    let m := if mctrl &&& TIOCM_RTS ≠ 0 then m ||| UART_MCR_RTS else m
    let m := if mctrl &&& TIOCM_DTR ≠ 0 then m ||| UART_MCR_DTR else m
    let m := if mctrl &&& TIOCM_OUT1 ≠ 0 then m ||| UART_MCR_OUT1 else m
    let m := if mctrl &&& TIOCM_OUT2 ≠ 0 then m ||| UART_MCR_OUT2 else m
    let m := if mctrl &&& TIOCM_LOOP ≠ 0 then m ||| UART_MCR_LOOP else m
    m ||| mcr, fun _ _ => rfl⟩

/-- The register writes of `intel_cln_uart_startup`. -/
theorem startup_reg_writes (up : intel_cln_uart) :
    ∃ m i, (intel_cln_uart_startup up).2.reg_writes =
      up.reg_writes ++ [(UART_FCR, 1), (UART_FCR, 7), (UART_FCR, 0), (UART_LCR, 3),
        (UART_MCR, m), (UART_IER, i)] := by
  obtain ⟨f, hf⟩ := set_mctrl_write
  unfold intel_cln_uart_startup
  simp only [hf, serial_out, clear_interrupt_registers_frame]
  refine ⟨f (up.port.mctrl ||| TIOCM_OUT2) up.mcr % 256,
    if up.mode &&& CLN_UART_MODE_DMA = 0 then 21 else 0, ?_⟩
  split_ifs <;> simp <;> decide

/-- The register writes of `set_termios_regs`. -/
theorem set_termios_regs_writes (cval quot : Nat) (up : intel_cln_uart) :
    (set_termios_regs cval quot up).lcr = cval ∧
      (set_termios_regs cval quot up).fcr = 0 ∧
      (set_termios_regs cval quot up).port = up.port ∧
      ∃ m, (set_termios_regs cval quot up).reg_writes =
        up.reg_writes ++ [(UART_LCR, (cval ||| UART_LCR_DLAB) % 256),
          (UART_DLL, (quot &&& 0xff) % 256), (UART_DLM, (quot >>> 8) % 256),
          (UART_LCR, cval % 256), (UART_MCR, m), (UART_FCR, 0), (UART_IER, up.ier % 256)] := by
  obtain ⟨f, hf⟩ := set_mctrl_write
  unfold set_termios_regs
  simp only [hf, serial_out]
  exact ⟨trivial, trivial, trivial, f up.port.mctrl up.mcr % 256, by simp⟩

theorem set_termios_fifo_frame (up : intel_cln_uart) :
    (set_termios_fifo up).reg_writes = up.reg_writes ∧
      (set_termios_fifo up).port = up.port ∧ (set_termios_fifo up).ier = up.ier := by
  unfold set_termios_fifo
  dsimp only
  split_ifs <;> exact ⟨rfl, rfl, rfl⟩

theorem set_termios_masks_frame (termios : ktermios) (up : intel_cln_uart) :
    (set_termios_masks termios up).reg_writes = up.reg_writes := by
  unfold set_termios_masks
  dsimp only
  split_ifs <;> rfl

theorem set_termios_modem_frame (termios : ktermios) (up : intel_cln_uart) :
    (set_termios_modem termios up).reg_writes = up.reg_writes ∧
      (set_termios_modem termios up).port = up.port := by
  unfold set_termios_modem
  dsimp only
  split_ifs <;> exact ⟨rfl, rfl⟩

/-- The line-control shadow, the FIFO-control shadow and the register writes
of `intel_cln_uart_set_termios`. -/
theorem set_termios_writes (up : intel_cln_uart) (termios : ktermios) (quot : Nat) :
    (intel_cln_uart_set_termios up termios quot).2.lcr = termios_cval termios.c_cflag ∧
      (intel_cln_uart_set_termios up termios quot).2.fcr = 0 ∧
      ∃ m i, (intel_cln_uart_set_termios up termios quot).2.reg_writes =
        up.reg_writes ++ [(UART_LCR, (termios_cval termios.c_cflag ||| UART_LCR_DLAB) % 256),
          (UART_DLL, (quot &&& 0xff) % 256), (UART_DLM, (quot >>> 8) % 256),
          (UART_LCR, termios_cval termios.c_cflag % 256), (UART_MCR, m), (UART_FCR, 0),
          (UART_IER, i)] := by
  unfold intel_cln_uart_set_termios
  dsimp only
  obtain ⟨h1, h2, -, m, h4⟩ := set_termios_regs_writes (termios_cval termios.c_cflag) quot
    (set_termios_modem { termios with c_cflag := and_not termios.c_cflag CMSPAR }
      (set_termios_masks { termios with c_cflag := and_not termios.c_cflag CMSPAR }
        (set_termios_fifo up)))
  refine ⟨h1, h2, m, (set_termios_modem { termios with c_cflag := and_not termios.c_cflag CMSPAR }
      (set_termios_masks { termios with c_cflag := and_not termios.c_cflag CMSPAR }
        (set_termios_fifo up))).ier % 256, ?_⟩
  rw [h4, (set_termios_modem_frame _ _).1, set_termios_masks_frame, (set_termios_fifo_frame _).1]

/-- C22, the code on every bring-up.  `intel_cln_uart_startup` followed by
`intel_cln_uart_set_termios` writes the values 1, 7, 0 and 0 to the FIFO
control register, for every port (PIO or DMA mode), every termios structure
and every divisor: the last value written is 0, with the FIFO-enable bit
clear, and the stored shadow `up->fcr` is 0 as well.  The value with the
enable bit and the trigger levels that `set_termios` computes first is
overwritten by `up->fcr = 0` before the register is written. -/
theorem bring_up_leaves_fifo_disabled (up : intel_cln_uart) (termios : ktermios) (quot : Nat) :
    fcr_writes (bring_up up termios quot) = fcr_writes up ++ [1, 7, 0, 0] ∧
      (bring_up up termios quot).fcr = 0 ∧
      (set_termios_fifo (intel_cln_uart_startup up).2).fcr &&& UART_FCR_ENABLE_FIFO ≠ 0 := by
  unfold bring_up
  obtain ⟨m, i, hs⟩ := startup_reg_writes up
  obtain ⟨-, hf, m2, i2, hw⟩ := set_termios_writes (intel_cln_uart_startup up).2 termios quot
  refine ⟨?_, hf, ?_⟩
  · rw [fcr_writes_append _ _ _ hw, fcr_writes_append _ _ _ hs]
    simp [UART_FCR, UART_LCR, UART_MCR, UART_IER, UART_DLL, UART_DLM]
  · unfold set_termios_fifo
    dsimp only
    split_ifs
    · exact (by decide : (UART_FCR_ENABLE_FIFO ||| UART_FCR_T_TRIG_11 ||| UART_FCR_R_TRIG_11 |||
        UART_FCR_DMA_SELECT) &&& UART_FCR_ENABLE_FIFO ≠ 0)
    · exact (by decide : (UART_FCR_ENABLE_FIFO ||| UART_FCR_T_TRIG_11 ||| UART_FCR_R_TRIG_11) &&&
        UART_FCR_ENABLE_FIFO ≠ 0)

/-! ## Line settings -/

theorem termios_cval_eq (c : Nat) :
    termios_cval c =
      (if c &&& CSIZE = CS5 then 0 else if c &&& CSIZE = CS6 then 1
        else if c &&& CSIZE = CS7 then 2 else 3) |||
      (if c &&& CSTOPB ≠ 0 then 0x04 else 0) ||| (if c &&& PARENB ≠ 0 then 0x08 else 0) |||
      (if c &&& PARODD = 0 then 0x10 else 0) := by
  unfold termios_cval
  dsimp only
  split_ifs <;> decide

theorem termios_cval_lt (c : Nat) : termios_cval c < 32 := by
  unfold termios_cval
  dsimp only
  split_ifs <;> decide

theorem lt_32_dlab (v : Nat) (h : v < 32) :
    v % 256 = v ∧ (v ||| 0x80) % 256 = v ||| 0x80 ∧ v &&& 0x80 = 0 ∧ (v ||| 0x80) &&& 0x80 ≠ 0 := by
  interval_cases v <;> decide

/-- C23. Line-control byte of `intel_cln_uart_set_termios`: for every port,
every termios structure and every divisor, the value saved as the shadow
`up->lcr` and written last to the line-control register is the word-length
code (`CS5` gives 0, `CS6` 1, `CS7` 2, anything else 3) OR 0x04 iff `CSTOPB`
is set, OR 0x08 iff `PARENB` is set, OR 0x10 iff `PARODD` is clear.  The call
writes the line-control register twice: first that value with the
divisor-latch bit 0x80 set, then the two divisor bytes, then the value itself,
in which bit 0x80 is clear; the three writes that follow go to the
modem-control, FIFO-control and interrupt-enable registers. -/
theorem set_termios_line_control (up : intel_cln_uart) (termios : ktermios) (quot : Nat) :
    let c := termios.c_cflag
    let cval := (if c &&& CSIZE = CS5 then 0 else if c &&& CSIZE = CS6 then 1
        else if c &&& CSIZE = CS7 then 2 else 3) |||
      (if c &&& CSTOPB ≠ 0 then 0x04 else 0) ||| (if c &&& PARENB ≠ 0 then 0x08 else 0) |||
      (if c &&& PARODD = 0 then 0x10 else 0)
    let r := (intel_cln_uart_set_termios up termios quot).2
    r.lcr = cval ∧ cval &&& 0x80 = 0 ∧ (cval ||| 0x80) &&& 0x80 ≠ 0 ∧
      ∃ m i, r.reg_writes = up.reg_writes ++
        [(UART_LCR, cval ||| 0x80), (UART_DLL, quot % 256), (UART_DLM, quot / 256 % 256),
          (UART_LCR, cval), (UART_MCR, m), (UART_FCR, 0), (UART_IER, i)] := by
  intro c cval r
  have hc : termios_cval termios.c_cflag = cval := termios_cval_eq _
  obtain ⟨h1, -, m, i, hw⟩ := set_termios_writes up termios quot
  obtain ⟨e1, e2, e3, e4⟩ := lt_32_dlab _ (termios_cval_lt termios.c_cflag)
  rw [hc] at h1 e1 e2 e3 e4 hw
  refine ⟨h1, e3, e4, m, i, ?_⟩
  have hq : (quot &&& 0xff) % 256 = quot % 256 := by
    rw [show (0xff : Nat) = 2 ^ 8 - 1 from rfl, Nat.and_pow_two_sub_one_eq_mod]
    simp
  have hs : (quot >>> 8) % 256 = quot / 256 % 256 := by
    rw [Nat.shiftRight_eq_div_pow]
  have e2' : (cval ||| UART_LCR_DLAB) % 256 = cval ||| 0x80 := e2
  rw [hw, e2', e1, hq, hs]

theorem set_termios_port (up : intel_cln_uart) (termios : ktermios) (quot : Nat) :
    (intel_cln_uart_set_termios up termios quot).2.port =
      (set_termios_masks { termios with c_cflag := and_not termios.c_cflag CMSPAR }
        (set_termios_fifo up)).port := by
  unfold intel_cln_uart_set_termios
  dsimp only
  rw [(set_termios_regs_writes _ _ _).2.2.1, (set_termios_modem_frame _ _).2]

theorem set_termios_masks_values (termios : ktermios) (up : intel_cln_uart) :
    (set_termios_masks termios up).port.read_status_mask =
        0x23 ||| (if termios.c_iflag &&& INPCK ≠ 0 then 0x0c else 0) |||
          (if termios.c_iflag &&& (BRKINT ||| PARMRK) ≠ 0 then 0x10 else 0) ∧
      (set_termios_masks termios up).port.ignore_status_mask =
        (if termios.c_iflag &&& IGNPAR ≠ 0 then 0x0c else 0) |||
          (if termios.c_iflag &&& IGNBRK ≠ 0 then 0x10 else 0) |||
          (if termios.c_iflag &&& IGNBRK ≠ 0 ∧ termios.c_iflag &&& IGNPAR ≠ 0 then 0x02 else 0) |||
          (if termios.c_cflag &&& CREAD = 0 then 0x01 else 0) := by
  unfold set_termios_masks
  dsimp only
  split_ifs <;> simp_all <;> decide

theorem cmspar_keeps_cread (c : Nat) : and_not c CMSPAR &&& CREAD = c &&& CREAD := by
  apply Nat.eq_of_testBit_eq
  intro i
  rw [Nat.testBit_and, Nat.testBit_and, and_not_testBit]
  rw [show CMSPAR = 2 ^ 30 from rfl, show CREAD = 2 ^ 7 from rfl, Nat.testBit_two_pow,
    Nat.testBit_two_pow]
  by_cases h7 : 7 = i
  · subst h7
    simp
  · simp [h7]

theorem and_or_ne_zero (x a b : Nat) : x &&& (a ||| b) ≠ 0 ↔ x &&& a ≠ 0 ∨ x &&& b ≠ 0 := by
  rw [Nat.and_or_distrib_left, Ne, or_eq_zero_iff']
  tauto

/-- C24. Status masks of `intel_cln_uart_set_termios`: for every port, every
input-flag and control-flag word, the ignore mask has the overrun bit iff
`IGNPAR` and `IGNBRK` are both set, the parity and framing bits iff `IGNPAR`
is set, the break bit iff `IGNBRK` is set and the data-ready bit iff `CREAD`
is clear; the read mask always has the overrun, transmit-holding-empty and
data-ready bits, the framing and parity bits iff `INPCK` is set, and the
break bit iff `BRKINT` or `PARMRK` is set. -/
theorem set_termios_status_masks (up : intel_cln_uart) (termios : ktermios) (quot : Nat) :
    let p := (intel_cln_uart_set_termios up termios quot).2.port
    let i := termios.c_iflag
    (p.ignore_status_mask &&& UART_LSR_OE ≠ 0 ↔ i &&& IGNPAR ≠ 0 ∧ i &&& IGNBRK ≠ 0) ∧
      (p.ignore_status_mask &&& UART_LSR_PE ≠ 0 ↔ i &&& IGNPAR ≠ 0) ∧
      (p.ignore_status_mask &&& UART_LSR_FE ≠ 0 ↔ i &&& IGNPAR ≠ 0) ∧
      (p.ignore_status_mask &&& UART_LSR_BI ≠ 0 ↔ i &&& IGNBRK ≠ 0) ∧
      (p.ignore_status_mask &&& UART_LSR_DR ≠ 0 ↔ termios.c_cflag &&& CREAD = 0) ∧
      p.read_status_mask &&& UART_LSR_OE ≠ 0 ∧
      p.read_status_mask &&& UART_LSR_THRE ≠ 0 ∧
      p.read_status_mask &&& UART_LSR_DR ≠ 0 ∧
      (p.read_status_mask &&& UART_LSR_FE ≠ 0 ↔ i &&& INPCK ≠ 0) ∧
      (p.read_status_mask &&& UART_LSR_PE ≠ 0 ↔ i &&& INPCK ≠ 0) ∧
      (p.read_status_mask &&& UART_LSR_BI ≠ 0 ↔ i &&& BRKINT ≠ 0 ∨ i &&& PARMRK ≠ 0) := by
  intro p i
  have hp : p = _ := set_termios_port up termios quot
  obtain ⟨hr, hi⟩ := set_termios_masks_values
    { termios with c_cflag := and_not termios.c_cflag CMSPAR } (set_termios_fifo up)
  rw [← hp] at hr hi
  dsimp only at hr hi
  rw [cmspar_keeps_cread] at hi
  rw [hr, hi, ← and_or_ne_zero]
  split_ifs <;> simp_all <;> decide

/-- For the port clock 1843200 every rate from 2 to 115200 has a divisor
that fits 16 bits, and the two bytes written reconstruct it. -/
theorem divisor_fits_from_two (b : Nat) (h2 : 2 ≤ b) (hb : b ≤ 115200) :
    1 ≤ uart_get_divisor 1843200 b ∧ uart_get_divisor 1843200 b ≤ 65535 ∧
      (uart_get_divisor 1843200 b &&& 0xff) % 256 +
        256 * ((uart_get_divisor 1843200 b >>> 8) % 256) = uart_get_divisor 1843200 b := by
  have h1 : 1 ≤ uart_get_divisor 1843200 b := by
    unfold uart_get_divisor
    rw [Nat.one_le_div_iff (by omega)]
    omega
  have h3 : uart_get_divisor 1843200 b < 65536 := by
    unfold uart_get_divisor
    rw [Nat.div_lt_iff_lt_mul (by omega)]
    omega
  refine ⟨h1, by omega, ?_⟩
  rw [show (0xff : Nat) = 2 ^ 8 - 1 from rfl, Nat.and_pow_two_sub_one_eq_mod,
    Nat.shiftRight_eq_div_pow]
  omega

/-- C25, the code at the failing input.  For the port clock 1843200 of probe
the range passed to the serial core is 1..115200, so the rate 1 is accepted;
its divisor (1843200 + 8) / 16 = 115200 does not fit 16 bits, and
`intel_cln_uart_set_termios` writes the divisor-latch bytes 0 and 194 (the
low eight bits of 115200 and of 115200 >> 8 = 450), which stand for the
divisor 49664 and not for 115200. -/
theorem baud_one_divisor_overflows :
    termios_baud_range (intel_cln_uart_probe dma_enable empty_ring).port.uartclk.toNat =
        (1, 115200) ∧
      uart_get_divisor (intel_cln_uart_probe dma_enable empty_ring).port.uartclk.toNat 1 =
        115200 ∧
      ¬ (115200 ≤ 65535) ∧
      ((intel_cln_uart_set_termios (intel_cln_uart_probe dma_enable empty_ring) termios_8n1
        (uart_get_divisor (intel_cln_uart_probe dma_enable empty_ring).port.uartclk.toNat
          1)).2.reg_writes.take 4 =
        [(UART_LCR, 0x93), (UART_DLL, 0), (UART_DLM, 194), (UART_LCR, 0x13)]) ∧
      0 + 256 * 194 = 49664 := by
  decide

/-! ## Out-of-band character and the ring storage -/

/-- C26. The out-of-band character overwrites ring storage: `pop_tx_x` stores
a pending character `X` in `buf[0]` of the transmit ring.  On a started port
that is not flow-stopped, with `tail = 0`, `head = 3` (three pending bytes
`a`, `b`, `c` at indices 0, 1, 2), a FIFO depth of at least 4 and a ring of
more than 3 bytes, one PIO drain writes `X`, `X`, `b`, `c` to the data
register: `X` is sent twice and the byte `a` that was pending at index 0 is
not sent; afterwards `tail = head = 3`, the character is cleared and `buf[0]`
holds `X`. -/
theorem x_char_sent_twice (PAGE_SHIFT fuel : Nat) (up : intel_cln_uart) (X : Nat)
    (hstart : up.start_tx ≠ 0) (hstop : up.tx_stopped = false)
    (hx : up.port.x_char = X) (hX : X ≠ 0)
    (hf : 4 ≤ int_of_u32 up.port.fifosize)
    (hS : 3 < UART_XMIT_SIZE PAGE_SHIFT)
    (hh : up.port.xmit.head = 3) (ht : up.port.xmit.tail = 0) :
    (pop_tx_x up).1 = 1 ∧ (pop_tx_x up).2.port.xmit.buf 0 = X ∧
      ∃ u, intel_cln_uart_tx PAGE_SHIFT (fuel + 2) up = some u ∧
        u.reg_writes = up.reg_writes ++
          [(UART_TX, X % 256), (UART_TX, X % 256), (UART_TX, up.port.xmit.buf 1 % 256),
            (UART_TX, up.port.xmit.buf 2 % 256)] ∧
        u.port.xmit.tail = 3 ∧ u.port.xmit.head = 3 ∧ u.port.x_char = 0 ∧
        u.port.xmit.buf 0 = X := by
  have hx0 : up.port.x_char ≠ 0 := by rw [hx]; exact hX
  refine ⟨by simp [pop_tx_x, hx0], by unfold pop_tx_x; rw [if_pos hx0]; simp [hx], ?_⟩
  have hsend := tx_send_x_char_some up hx0
  have hmax : max (int_of_u32 up.port.fifosize) 1 = int_of_u32 up.port.fifosize :=
    max_eq_left (by omega)
  have hpop := pop_tx_spec PAGE_SHIFT fuel (tx_send_x_char up).2 3 3
    (by rw [hsend]; exact hstop)
    (by rw [hsend]; dsimp only; rw [hh]; omega)
    (by rw [hsend]; dsimp only; rw [ht]; omega)
    (by
      rw [hsend]; dsimp only
      rw [(circ_cnt_eq _ _ _ (by rw [hh]; omega) (by rw [ht]; omega)).1, hh, ht]
      rw [if_pos (by omega)]
      decide)
  have hsize : (if min ((tx_send_x_char up).2.port.xmit.head - (tx_send_x_char up).2.port.xmit.tail)
        (int_of_u32 up.port.fifosize - 1) < 0 then int_of_u32 up.port.fifosize - 1
      else min ((tx_send_x_char up).2.port.xmit.head - (tx_send_x_char up).2.port.xmit.tail)
        (int_of_u32 up.port.fifosize - 1)) = 3 := by
    rw [(tx_send_x_char_xmit up).1, (tx_send_x_char_xmit up).2, hh, ht]
    simp only [min_def]
    split_ifs <;> omega
  have hrun : intel_cln_uart_tx PAGE_SHIFT (fuel + 2) up =
      (pop_tx PAGE_SHIFT (fuel + 2) (tx_send_x_char up).2 3).bind
        fun r => some (tx_finish 0 r.1 r.2) := by
    unfold intel_cln_uart_tx
    rw [if_neg hstart]
    dsimp only
    have h1 : (tx_send_x_char up).1 ≠ 0 := by rw [hsend]; exact one_ne_zero
    rw [if_pos h1, if_pos h1, hmax, hsize]
    cases pop_tx PAGE_SHIFT (fuel + 2) (tx_send_x_char up).2 3 <;> rfl
  rw [hrun, hpop, hsend]
  refine ⟨_, rfl, ?_, ?_, ?_, ?_, ?_⟩
  · have e1 : (1 : Int) % UART_XMIT_SIZE PAGE_SHIFT = 1 :=
      Int.emod_eq_of_lt (by omega) (by omega)
    have e2 : (2 : Int) % UART_XMIT_SIZE PAGE_SHIFT = 2 :=
      Int.emod_eq_of_lt (by omega) (by omega)
    have d1 : ¬ UART_XMIT_SIZE PAGE_SHIFT ∣ 1 := fun h => by
      have := Int.emod_eq_zero_of_dvd h
      omega
    have d2 : ¬ UART_XMIT_SIZE PAGE_SHIFT ∣ 2 := fun h => by
      have := Int.emod_eq_zero_of_dvd h
      omega
    simp [tx_finish, tx_data, ring_bytes, and_mask, List.range_succ, Function.update_apply, ht,
      hx, e1, e2, d1, d2]
  · simp only [tx_finish, and_mask, ht]
    simp
    exact Int.emod_eq_of_lt (by omega) (by omega)
  · simp only [tx_finish]
    simp [hh]
  · simp only [tx_finish]
    simp
  · simp only [tx_finish]
    simp [hx]

/-- C26 at the ring of size 4096 with `a`, `b`, `c` = 97, 98, 99 and the
character `0x13`. -/
theorem x_char_sent_twice_witness :
    ring_bytes 12 x_char_port.port.xmit 3 = [97, 98, 99] ∧
      ∃ u, intel_cln_uart_tx 12 2 x_char_port = some u ∧
        u.reg_writes = x_char_port.reg_writes ++
          [(UART_TX, 0x13), (UART_TX, 0x13), (UART_TX, 98), (UART_TX, 99)] ∧
        u.port.xmit.tail = 3 ∧ u.port.xmit.buf 0 = 0x13 := by
  obtain ⟨-, -, u, h1, h2, h3, -, -, h6⟩ := x_char_sent_twice 12 0 x_char_port 0x13 (by decide)
    (by decide) (by decide) (by decide) (by decide) (by decide) (by decide) (by decide)
  exact ⟨by decide, u, h1, h2.trans (by decide), h3, h6⟩

/-! ## The segment table of a DMA drain -/

theorem sg_fixup_lengths (t f size rem nent : Int) (l : List scatterlist) :
    ∀ i : Int, (dma_tx_sg_fixup t f size rem nent i l).map (fun sg => sg.length) =
      l.map fun sg => sg.length := by
  induction l with
  | nil => intro i; rfl
  | cons a l ih =>
    intro i
    simp only [dma_tx_sg_fixup, List.map_cons, ih]
    split_ifs <;> rfl

/-- The lengths set by `sg_set_page` in the table that the submission stage
leaves at `sg_tx_p`, whatever the mapping and the preparation answer. -/
theorem dma_tx_submit_table (PAGE_SHIFT avail : Nat) (prep_ok : Bool) (f b : Int)
    (up : intel_cln_uart) (hb1 : 1 ≤ b) (hf1 : 1 ≤ f) :
    (dma_tx_submit PAGE_SHIFT avail prep_ok f b up).sg_tx_p.map (fun sg => sg.length) =
      if b ≤ f then [b] else List.replicate (b / f).toNat f ++ [b % f] := by
  have htab : (dma_tx_sg_table f (dma_tx_size b f) (dma_tx_rem b f) (dma_tx_num b f)).map
      (fun sg => sg.length) =
        if b ≤ f then [b] else List.replicate (b / f).toNat f ++ [b % f] := by
    rw [← dma_tx_lengths_closed b f hb1 hf1, ← sg_dma_lengths _ _ _ (dma_tx_num_pos b f hb1 hf1)]
    unfold dma_tx_sg_table
    rw [List.map_map]
    rfl
  have hsub : (dma_tx_submit PAGE_SHIFT avail prep_ok f b up).sg_tx_p.map (fun sg => sg.length) =
      (dma_tx_sg_table f (dma_tx_size b f) (dma_tx_rem b f) (dma_tx_num b f)).map
        fun sg => sg.length := by
    unfold dma_tx_submit
    dsimp only
    split_ifs
    · rfl
    · exact sg_fixup_lengths _ _ _ _ _ _ _
    · exact sg_fixup_lengths _ _ _ _ _ _ _
  rw [hsub, htab]

/-- C27. Zero-length trailing segment: on a started, idle port with `b ≥ 1`
contiguous pending bytes and effective FIFO depth `f ≥ 1`, the drain returns
and the table it builds has the lengths `[b]` if `b ≤ f`, otherwise `b / f`
entries of length `f` followed by one of length `b mod f`, whatever the
mapping and the preparation answer.  When `b > f` and `b` is a multiple of
`f` the table has `b / f + 1` entries and the last has length 0; in every
other case all entries have length at least 1.  With a full mapping the
segments handed to the DMA engine have the same lengths.  For `b = 32`,
`f = 16` the lengths are 16, 16, 0. -/
theorem dma_tx_zero_length_segment (PAGE_SHIFT avail : Nat) (prep_ok : Bool)
    (up : intel_cln_uart) (b f : Int) (hstart : up.start_tx ≠ 0) (huse : up.tx_dma_use = 0)
    (hb : dma_tx_bytes PAGE_SHIFT up.port.xmit = b) (hf : tx_fifo_size up = f)
    (hb1 : 1 ≤ b) (hf1 : 1 ≤ f) :
    ∃ up', intel_cln_uart_dma_tx PAGE_SHIFT avail prep_ok up = some up' ∧
      (up'.sg_tx_p.map fun sg => sg.length) =
        (if b ≤ f then [b] else List.replicate (b / f).toNat f ++ [b % f]) ∧
      (f < b → b % f = 0 →
        up'.sg_tx_p.length = (b / f).toNat + 1 ∧
          (up'.sg_tx_p.map fun sg => sg.length).getLast? = some 0) ∧
      (¬ (f < b ∧ b % f = 0) → ∀ l ∈ up'.sg_tx_p.map fun sg => sg.length, 1 ≤ l) ∧
      (dma_map_sg avail (dma_tx_num b f) = dma_tx_num b f →
        (tx_segments up').map Prod.snd = up'.sg_tx_p.map fun sg => sg.length) ∧
      (b = 32 → f = 16 → (up'.sg_tx_p.map fun sg => sg.length) = [16, 16, 0]) := by
  have htab := dma_tx_submit_table PAGE_SHIFT avail prep_ok f b (tx_send_x_char up).2 hb1 hf1
  refine ⟨dma_tx_submit PAGE_SHIFT avail prep_ok f b (tx_send_x_char up).2, ?_, htab, ?_, ?_,
    ?_, ?_⟩
  · rw [dma_tx_idle PAGE_SHIFT avail prep_ok up hstart huse, hb, hf,
      if_neg (by omega), if_neg (by omega)]
  · intro hlt hmod
    have hlen := congrArg List.length htab
    rw [List.length_map, if_neg (by omega)] at hlen
    rw [htab, if_neg (by omega), hmod]
    refine ⟨by simpa using hlen, by simp⟩
  · intro hn l hl
    rw [htab] at hl
    split at hl
    · simp at hl; omega
    · rcases List.mem_append.mp hl with h | h
      · rw [(List.mem_replicate.mp h).2]; exact hf1
      · simp at h
        have := Int.emod_nonneg b (show f ≠ 0 by omega)
        have hne : b % f ≠ 0 := fun h0 => hn ⟨by omega, h0⟩
        omega
  · intro hmap
    have hnum := dma_tx_num_pos b f hb1 hf1
    have hne : dma_map_sg avail (dma_tx_num b f) ≠ 0 := by rw [hmap]; omega
    rw [htab, dma_tx_submit_segments PAGE_SHIFT avail prep_ok f b _ hne, hmap, List.map_map,
      ← dma_tx_lengths_closed b f hb1 hf1, ← sg_dma_lengths _ _ _ hnum]
    rfl
  · intro hb32 hf16
    rw [htab, hb32, hf16]
    decide

/-- C27 at a concrete port: 32 pending bytes from `tail = 0`, depth 16. -/
theorem dma_tx_zero_length_segment_witness :
    ∃ up', intel_cln_uart_dma_tx 12 3 true (started_port 32 0) = some up' ∧
      (up'.sg_tx_p.map fun sg => sg.length) = [16, 16, 0] ∧
      (tx_segments up').map Prod.snd = [16, 16, 0] := by
  obtain ⟨up', h1, -, -, -, h5, h6⟩ := dma_tx_zero_length_segment 12 3 true (started_port 32 0)
    32 16 (by decide) (by decide) (by decide) (by decide) (by decide) (by decide)
  exact ⟨up', h1, h6 rfl rfl, (h5 (by decide)).trans (h6 rfl rfl)⟩

/-! ## The divisor of the segmentation -/

/-- C28 as stated fails at the FIFO size `0x80000000`: the cast
`(int)port->fifosize` is negative there, `max` gives the depth 1, a pending
out-of-band character makes it 0, and with 3 bytes pending the drain divides
by zero. -/
theorem dma_tx_huge_fifo_divides_by_zero :
    2 ≤ huge_fifo_port.port.fifosize ∧ huge_fifo_port.port.fifosize < 2 ^ 32 ∧
      huge_fifo_port.port.x_char ≠ 0 ∧
      int_of_u32 huge_fifo_port.port.fifosize = -2147483648 ∧
      tx_fifo_size huge_fifo_port = 0 ∧
      dma_tx_bytes 12 huge_fifo_port.port.xmit = 3 ∧
      (intel_cln_uart_dma_tx 12 1 true huge_fifo_port).isNone = true := by
  decide

theorem tx_fifo_size_pos (up : intel_cln_uart) (h2 : 2 ≤ up.port.fifosize)
    (hs : up.port.fifosize < 2 ^ 31) : 1 ≤ tx_fifo_size up := by
  have hi : int_of_u32 up.port.fifosize = (up.port.fifosize : Int) := by
    unfold int_of_u32
    have hm : up.port.fifosize % 2 ^ 32 = up.port.fifosize := Nat.mod_eq_of_lt (by omega)
    rw [hm, if_pos hs]
  unfold tx_fifo_size
  dsimp only
  rw [hi, max_eq_left (by omega)]
  split_ifs <;> omega

theorem dma_tx_returns (PAGE_SHIFT avail : Nat) (prep_ok : Bool) (up : intel_cln_uart)
    (hf : 1 ≤ tx_fifo_size up) :
    (intel_cln_uart_dma_tx PAGE_SHIFT avail prep_ok up).isSome = true := by
  by_cases hstart : up.start_tx = 0
  · unfold intel_cln_uart_dma_tx
    rw [if_pos hstart]; rfl
  · by_cases huse : up.tx_dma_use = 0
    · rw [dma_tx_idle PAGE_SHIFT avail prep_ok up hstart huse]
      split_ifs with h1 h2
      · rfl
      · omega
      · rfl
    · unfold intel_cln_uart_dma_tx
      rw [if_neg hstart, if_pos huse]; rfl

/-- C28 (amended). For every port FIFO size `s` with `2 ≤ s ≤ 0x7fffffff` (16
as set at probe), with or without a pending out-of-band character, the local
`fifo_size` of `intel_cln_uart_dma_tx`, the divisor of `bytes / fifo_size`
and `bytes % fifo_size`, is at least 1, and the drain returns (it never
divides by zero), whatever the state of the port and the answers of the DMA
service. -/
theorem dma_tx_divisor_pos (PAGE_SHIFT avail : Nat) (prep_ok : Bool) (up : intel_cln_uart)
    (h2 : 2 ≤ up.port.fifosize) (hs : up.port.fifosize < 2 ^ 31) :
    (if (tx_send_x_char up).1 ≠ 0 then max (int_of_u32 up.port.fifosize) 1 - 1
        else max (int_of_u32 up.port.fifosize) 1) = tx_fifo_size up ∧
      1 ≤ tx_fifo_size up ∧
      (intel_cln_uart_dma_tx PAGE_SHIFT avail prep_ok up).isSome = true :=
  ⟨tx_send_x_char_fifo up, tx_fifo_size_pos up h2 hs,
    dma_tx_returns PAGE_SHIFT avail prep_ok up (tx_fifo_size_pos up h2 hs)⟩

/-- C28 (amended) at the FIFO size 16 of probe with a character pending. -/
theorem dma_tx_divisor_pos_witness :
    x_char_port.port.fifosize = 16 ∧ x_char_port.port.x_char ≠ 0 ∧
      tx_fifo_size x_char_port = 15 ∧
      (intel_cln_uart_dma_tx 12 1 true x_char_port).isSome = true := by
  obtain ⟨-, -, h⟩ := dma_tx_divisor_pos 12 1 true x_char_port (by decide) (by decide)
  exact ⟨by decide, by decide, by decide, h⟩

/-! ## The ring-index invariant -/

theorem circ_cnt_advance (S h t c : Int) (hh : 0 ≤ h ∧ h < S) (ht : 0 ≤ t ∧ t < S)
    (hc0 : 0 ≤ c) (hc : c ≤ CIRC_CNT h t S) :
    0 ≤ (t + c) % S ∧ (t + c) % S < S ∧ CIRC_CNT h ((t + c) % S) S = CIRC_CNT h t S - c := by
  have hS : 0 < S := by omega
  have h1 := Int.emod_nonneg (t + c) (show S ≠ 0 by omega)
  have h2 := Int.emod_lt_of_pos (t + c) hS
  refine ⟨h1, h2, ?_⟩
  rw [(circ_cnt_eq S h t hh ht).1] at hc ⊢
  rw [(circ_cnt_eq S h _ hh ⟨h1, h2⟩).1]
  have hcase := and_mask_cases S (t + c) (by omega) (by split_ifs at hc <;> omega)
  rw [hcase]
  split_ifs at hc ⊢ <;> omega

theorem seg_sum_nonneg (b f nent : Int) (hb1 : 1 ≤ b) (hf1 : 1 ≤ f) :
    0 ≤ ((List.range nent.toNat).map
      (fun (i : Nat) => if (i : Int) = nent - 1 then dma_tx_rem b f else dma_tx_size b f)).sum := by
  apply List.sum_nonneg
  intro x hx
  obtain ⟨i, -, rfl⟩ := List.mem_map.mp hx
  unfold dma_tx_rem dma_tx_size
  split_ifs
  · rw [Int.tmod_eq_emod (by omega) (by omega)]
    exact Int.emod_nonneg b (by omega)
  · omega
  · omega
  · omega


theorem pop_tx_ring_invariant (PAGE_SHIFT fuel : Nat) (up : intel_cln_uart) (size : Int)
    (hh : 0 ≤ up.port.xmit.head ∧ up.port.xmit.head < UART_XMIT_SIZE PAGE_SHIFT)
    (ht : 0 ≤ up.port.xmit.tail ∧ up.port.xmit.tail < UART_XMIT_SIZE PAGE_SHIFT) :
    ∃ c u, pop_tx PAGE_SHIFT (fuel + 2) up size = some (c, u) ∧ 0 ≤ c ∧
      u.port.xmit.head = up.port.xmit.head ∧
      0 ≤ u.port.xmit.tail ∧ u.port.xmit.tail < UART_XMIT_SIZE PAGE_SHIFT ∧
      CIRC_CNT u.port.xmit.head u.port.xmit.tail (UART_XMIT_SIZE PAGE_SHIFT) =
        CIRC_CNT up.port.xmit.head up.port.xmit.tail (UART_XMIT_SIZE PAGE_SHIFT) - c := by
  by_cases hstop : up.tx_stopped = true
  · refine ⟨0, up, ?_, le_refl _, rfl, ht.1, ht.2, (sub_zero _).symm⟩
    unfold pop_tx
    rw [if_pos (Or.inl hstop)]
  · have hstop' : up.tx_stopped = false := by simpa using hstop
    have hp0 : 0 ≤ CIRC_CNT up.port.xmit.head up.port.xmit.tail (UART_XMIT_SIZE PAGE_SHIFT) :=
      Int.emod_nonneg _ (by omega)
    have hc0 : 0 ≤ min (max size 0)
        (CIRC_CNT up.port.xmit.head up.port.xmit.tail (UART_XMIT_SIZE PAGE_SHIFT)) :=
      le_min (le_max_right _ _) hp0
    obtain ⟨a1, a2, a3⟩ := circ_cnt_advance _ _ _ _ hh ht hc0 (min_le_right _ _)
    exact ⟨_, _, pop_tx_spec PAGE_SHIFT fuel up size _ hstop' hh ht rfl, hc0, rfl, a1, a2, a3⟩

/-- C29. Ring-index invariant of the transmit engine, for `head` and `tail`
inside the ring.  (a) `pop_tx` with any size argument returns (two passes of
fuel suffice) a count `c ≥ 0`, leaves `head` alone, leaves `tail` inside the
ring, and the pending count `(head - tail) mod UART_XMIT_SIZE` afterwards is
the previous one minus `c`.  (b) After a drain of a started, idle port (at
least one contiguous pending byte, depth at least 1, at least one entry
mapped) has submitted a descriptor set, and the producer has advanced `head`
by `k ≥ 0` bytes without filling the ring, the completion callback returns,
leaves `head` alone and `tail` inside the ring, and the pending count
afterwards is the pending count before the completion minus the total
length `L` of the completed segments, where `0 ≤ L` and `L` is at most the
pending count at the submission: `tail` does not pass `head`. -/
theorem tx_ring_index_invariant (PAGE_SHIFT fuel avail : Nat) (up : intel_cln_uart)
    (size k : Int)
    (hh : 0 ≤ up.port.xmit.head ∧ up.port.xmit.head < UART_XMIT_SIZE PAGE_SHIFT)
    (ht : 0 ≤ up.port.xmit.tail ∧ up.port.xmit.tail < UART_XMIT_SIZE PAGE_SHIFT) :
    (∃ c u, pop_tx PAGE_SHIFT (fuel + 2) up size = some (c, u) ∧ 0 ≤ c ∧
      u.port.xmit.head = up.port.xmit.head ∧
      0 ≤ u.port.xmit.tail ∧ u.port.xmit.tail < UART_XMIT_SIZE PAGE_SHIFT ∧
      CIRC_CNT u.port.xmit.head u.port.xmit.tail (UART_XMIT_SIZE PAGE_SHIFT) =
        CIRC_CNT up.port.xmit.head up.port.xmit.tail (UART_XMIT_SIZE PAGE_SHIFT) - c) ∧
    (up.start_tx ≠ 0 → up.tx_dma_use = 0 → 1 ≤ dma_tx_bytes PAGE_SHIFT up.port.xmit →
      1 ≤ tx_fifo_size up → 1 ≤ avail → 0 ≤ k →
      CIRC_CNT up.port.xmit.head up.port.xmit.tail (UART_XMIT_SIZE PAGE_SHIFT) + k <
        UART_XMIT_SIZE PAGE_SHIFT →
      ∃ u1 u2, intel_cln_uart_dma_tx PAGE_SHIFT avail true up = some u1 ∧
        u1.tx_descs = up.tx_descs ++ [u1.sg_tx_p.take u1.dma_tx_nent.toNat] ∧
        intel_cln_uart_dma_tx_complete PAGE_SHIFT (producer_advances PAGE_SHIFT u1 k) =
          some u2 ∧
        0 ≤ ((tx_segments u1).map Prod.snd).sum ∧
        ((tx_segments u1).map Prod.snd).sum ≤
          CIRC_CNT up.port.xmit.head up.port.xmit.tail (UART_XMIT_SIZE PAGE_SHIFT) ∧
        u2.port.xmit.head = (producer_advances PAGE_SHIFT u1 k).port.xmit.head ∧
        0 ≤ u2.port.xmit.tail ∧ u2.port.xmit.tail < UART_XMIT_SIZE PAGE_SHIFT ∧
        CIRC_CNT (producer_advances PAGE_SHIFT u1 k).port.xmit.head
            (producer_advances PAGE_SHIFT u1 k).port.xmit.tail (UART_XMIT_SIZE PAGE_SHIFT) =
          CIRC_CNT up.port.xmit.head up.port.xmit.tail (UART_XMIT_SIZE PAGE_SHIFT) + k ∧
        CIRC_CNT u2.port.xmit.head u2.port.xmit.tail (UART_XMIT_SIZE PAGE_SHIFT) =
          CIRC_CNT (producer_advances PAGE_SHIFT u1 k).port.xmit.head
            (producer_advances PAGE_SHIFT u1 k).port.xmit.tail (UART_XMIT_SIZE PAGE_SHIFT) -
            ((tx_segments u1).map Prod.snd).sum) := by
  refine ⟨pop_tx_ring_invariant PAGE_SHIFT fuel up size hh ht, ?_⟩
  intro hstart huse hb1 hf1 hav hk0 hk
  generalize hS : UART_XMIT_SIZE PAGE_SHIFT = S at *
  have hnum := dma_tx_num_pos _ _ hb1 hf1
  have hmap1 : 1 ≤ dma_map_sg avail
      (dma_tx_num (dma_tx_bytes PAGE_SHIFT up.port.xmit) (tx_fifo_size up)) := by
    unfold dma_map_sg
    exact le_min (by exact_mod_cast hav) hnum
  have hne : dma_map_sg avail
      (dma_tx_num (dma_tx_bytes PAGE_SHIFT up.port.xmit) (tx_fifo_size up)) ≠ 0 := by omega
  have hrun : intel_cln_uart_dma_tx PAGE_SHIFT avail true up =
      some (dma_tx_submit PAGE_SHIFT avail true (tx_fifo_size up)
        (dma_tx_bytes PAGE_SHIFT up.port.xmit) (tx_send_x_char up).2) := by
    rw [dma_tx_idle PAGE_SHIFT avail true up hstart huse, if_neg (by omega), if_neg (by omega)]
  obtain ⟨m1, -, -, m4⟩ := dma_tx_submit_mapped PAGE_SHIFT avail true (tx_fifo_size up)
    (dma_tx_bytes PAGE_SHIFT up.port.xmit) (tx_send_x_char up).2 hne
  have hlen := dma_tx_submit_table_length PAGE_SHIFT avail true (tx_fifo_size up)
    (dma_tx_bytes PAGE_SHIFT up.port.xmit) (tx_send_x_char up).2 hne
  have hport := dma_tx_submit_port PAGE_SHIFT avail true (tx_fifo_size up)
    (dma_tx_bytes PAGE_SHIFT up.port.xmit) (tx_send_x_char up).2
  have hsegs := dma_tx_submit_segments PAGE_SHIFT avail true (tx_fifo_size up)
    (dma_tx_bytes PAGE_SHIFT up.port.xmit) (tx_send_x_char up).2 hne
  set u1 := dma_tx_submit PAGE_SHIFT avail true (tx_fifo_size up)
    (dma_tx_bytes PAGE_SHIFT up.port.xmit) (tx_send_x_char up).2 with hu1
  have hhead : u1.port.xmit.head = up.port.xmit.head := by
    rw [hport, (tx_send_x_char_xmit up).1]
  have htail : u1.port.xmit.tail = up.port.xmit.tail := by
    rw [hport, (tx_send_x_char_xmit up).2]
  have hL : ((tx_segments u1).map Prod.snd).sum =
      ((List.range (dma_map_sg avail
        (dma_tx_num (dma_tx_bytes PAGE_SHIFT up.port.xmit) (tx_fifo_size up))).toNat).map
        (fun (i : Nat) => if (i : Int) = dma_map_sg avail
            (dma_tx_num (dma_tx_bytes PAGE_SHIFT up.port.xmit) (tx_fifo_size up)) - 1
          then dma_tx_rem (dma_tx_bytes PAGE_SHIFT up.port.xmit) (tx_fifo_size up)
          else dma_tx_size (dma_tx_bytes PAGE_SHIFT up.port.xmit) (tx_fifo_size up))).sum := by
    rw [hsegs, List.map_map]
    rfl
  have hL0 : 0 ≤ ((tx_segments u1).map Prod.snd).sum := by
    rw [hL]; exact seg_sum_nonneg _ _ _ hb1 hf1
  have hLb : ((tx_segments u1).map Prod.snd).sum ≤ dma_tx_bytes PAGE_SHIFT up.port.xmit := by
    rw [hL]; exact seg_sum_le _ _ _ hb1 hf1 hmap1 (dma_map_sg_le _ _)
  have hbp : dma_tx_bytes PAGE_SHIFT up.port.xmit ≤ CIRC_CNT up.port.xmit.head up.port.xmit.tail S := by
    unfold dma_tx_bytes
    rw [hS]
    exact min_le_left _ _
  have hp0 : 0 ≤ CIRC_CNT up.port.xmit.head up.port.xmit.tail S := Int.emod_nonneg _ (by omega)
  have hph : (producer_advances PAGE_SHIFT u1 k).port.xmit.head = (up.port.xmit.head + k) % S := by
    unfold producer_advances and_mask
    rw [hS, hhead]
  have hpt : (producer_advances PAGE_SHIFT u1 k).port.xmit.tail = up.port.xmit.tail := htail
  have hph0 := Int.emod_nonneg (up.port.xmit.head + k) (show S ≠ 0 by omega)
  have hph1 := Int.emod_lt_of_pos (up.port.xmit.head + k) (show 0 < S by omega)
  have hpc : CIRC_CNT ((up.port.xmit.head + k) % S) up.port.xmit.tail S =
      CIRC_CNT up.port.xmit.head up.port.xmit.tail S + k := by
    rw [(circ_cnt_eq S _ _ ⟨hph0, hph1⟩ ht).1]
    have hcase := and_mask_cases S (up.port.xmit.head + k) (by omega) (by
      rw [(circ_cnt_eq S _ _ hh ht).1] at hk
      split_ifs at hk <;> omega)
    rw [(circ_cnt_eq S _ _ hh ht).1] at hk ⊢
    rw [hcase]
    split_ifs at hk ⊢ <;> omega
  have hsegp : tx_segments (producer_advances PAGE_SHIFT u1 k) = tx_segments u1 := rfl
  have hnle : (producer_advances PAGE_SHIFT u1 k).dma_tx_nent ≤
      ((producer_advances PAGE_SHIFT u1 k).sg_tx_p.length : Int) := by
    show u1.dma_tx_nent ≤ (u1.sg_tx_p.length : Int)
    rw [m1, hlen, Int.toNat_of_nonneg (by omega)]
    exact dma_map_sg_le _ _
  obtain ⟨u2, hc, t2, h2, -⟩ := tx_complete_props PAGE_SHIFT (producer_advances PAGE_SHIFT u1 k)
    hnle
  rw [hsegp, hpt, hS] at t2
  obtain ⟨a1, a2, a3⟩ := circ_cnt_advance S ((up.port.xmit.head + k) % S) up.port.xmit.tail
    ((tx_segments u1).map Prod.snd).sum ⟨hph0, hph1⟩ ht hL0 (by rw [hpc]; omega)
  refine ⟨u1, u2, hrun, ?_, hc, hL0, by omega, h2, ?_, ?_, ?_, ?_⟩
  · rw [m4, if_pos rfl, m1, tx_send_x_char_descs]
  · rw [t2]; exact a1
  · rw [t2]; exact a2
  · rw [hph, hpt]; exact hpc
  · rw [h2, t2, hph, hpt]; exact a3

/-- C29 at the ring of size 4096 with 40 pending bytes: `pop_tx` of size 16,
and a full DMA submission completed after the producer added 5 bytes. -/
theorem tx_ring_index_invariant_witness :
    (∃ c u, pop_tx 12 2 (started_port 40 0) 16 = some (c, u) ∧ 0 ≤ c ∧
      u.port.xmit.tail < UART_XMIT_SIZE 12 ∧
      CIRC_CNT u.port.xmit.head u.port.xmit.tail (UART_XMIT_SIZE 12) = 40 - c) ∧
    ∃ u1 u2, intel_cln_uart_dma_tx 12 3 true (started_port 40 0) = some u1 ∧
      intel_cln_uart_dma_tx_complete 12 (producer_advances 12 u1 5) = some u2 ∧
      u2.port.xmit.tail < UART_XMIT_SIZE 12 ∧
      CIRC_CNT u2.port.xmit.head u2.port.xmit.tail (UART_XMIT_SIZE 12) =
        45 - ((tx_segments u1).map Prod.snd).sum := by
  have e : CIRC_CNT (started_port 40 0).port.xmit.head (started_port 40 0).port.xmit.tail
      (UART_XMIT_SIZE 12) = 40 := by decide
  obtain ⟨⟨c, u, a1, a2, -, -, a5, a6⟩, hb⟩ :=
    tx_ring_index_invariant 12 0 3 (started_port 40 0) 16 5 (by decide) (by decide)
  obtain ⟨u1, u2, b1, -, b3, -, -, -, -, b8, b9, b10⟩ :=
    hb (by decide) (by decide) (by decide) (by decide) (by decide) (by decide) (by decide)
  rw [e] at a6 b9
  exact ⟨⟨c, u, a1, a2, a5, a6⟩, u1, u2, b1, b3, b8, by rw [b10, b9]; rfl⟩

/-! ## Accelerometer threshold events -/

theorem threshold_modifier_loop_nibbles :
    ∀ a, a < 16 → ∀ b, b < 16 →
      threshold_modifier_loop ST_SENSORS_NUMBER_DATA_CHANNELS 0 (16 * a + b) ≤ 7 ∧
      threshold_modifier_loop ST_SENSORS_NUMBER_DATA_CHANNELS 0 (16 * a + b) =
        (16 * a + b) / 2 % 2 + 2 * ((16 * a + b) / 8 % 2) + 4 * ((16 * a + b) / 32 % 2) ∧
      (iio_modifier_map[threshold_modifier_loop ST_SENSORS_NUMBER_DATA_CHANNELS 0
        (16 * a + b)]?).map modifier_axes =
          some ((16 * a + b).testBit 1, (16 * a + b).testBit 3, (16 * a + b).testBit 5) := by
  decide

/-- The shift loop on every 8-bit value: the index is at most 7, it is bit 1
plus twice bit 3 plus four times bit 5, and the table entry at the index
names the axes of the set bits. -/
theorem threshold_modifier_loop_bits (d : Nat) (hd : d < 256) :
    threshold_modifier_loop ST_SENSORS_NUMBER_DATA_CHANNELS 0 d ≤ 7 ∧
      threshold_modifier_loop ST_SENSORS_NUMBER_DATA_CHANNELS 0 d =
        d / 2 % 2 + 2 * (d / 8 % 2) + 4 * (d / 32 % 2) ∧
      (iio_modifier_map[threshold_modifier_loop ST_SENSORS_NUMBER_DATA_CHANNELS 0 d]?).map
        modifier_axes = some (d.testBit 1, d.testBit 3, d.testBit 5) := by
  have h := threshold_modifier_loop_nibbles (d / 16) (by omega) (d % 16) (by omega)
  rwa [show 16 * (d / 16) + d % 16 = d by omega] at h

/-- C30. Axis decoding of the accelerometer threshold event: for all 8-bit
values `src` (INT1 source register) and `cfg` (INT1 configuration register)
that both reads return without error, with the interrupt-active bit 0x40 set
in `src`, the index computed by the three-step shift loop is at most 7,
inside the 8-entry `iio_modifier_map`, and equals XH + 2 * YH + 4 * ZH where
XH, YH, ZH are bits 1, 3, 5 of `src AND cfg`; the handler returns
`IRQ_HANDLED` and pushes one event whose modifier is the table entry at that
index, which names the x, y, z axes exactly when bit 1, 3, 5 is set in both
registers. -/
theorem threshold_event_axes (timestamp e1 e2 : Int) (src cfg : Nat)
    (he1 : 0 ≤ e1) (he2 : 0 ≤ e2) (hs : src < 256) (hc : cfg < 256)
    (hia : src &&& ST_ACCEL_2_INT_IA_MASK ≠ 0) :
    threshold_modifier_loop ST_SENSORS_NUMBER_DATA_CHANNELS 0 (src &&& cfg) ≤ 7 ∧
      threshold_modifier_loop ST_SENSORS_NUMBER_DATA_CHANNELS 0 (src &&& cfg) <
        iio_modifier_map.length ∧
      threshold_modifier_loop ST_SENSORS_NUMBER_DATA_CHANNELS 0 (src &&& cfg) =
        (src &&& cfg) / 2 % 2 + 2 * ((src &&& cfg) / 8 % 2) + 4 * ((src &&& cfg) / 32 % 2) ∧
      ∃ m, iio_modifier_map[threshold_modifier_loop ST_SENSORS_NUMBER_DATA_CHANNELS 0
          (src &&& cfg)]? = some m ∧
        lis331dlh_intel_cln_threshold_event_handler timestamp (e1, src) (e2, cfg) =
          some (IRQ_HANDLED, some { modifier := m, timestamp := timestamp }) ∧
        modifier_axes m =
          (src.testBit 1 && cfg.testBit 1, src.testBit 3 && cfg.testBit 3,
            src.testBit 5 && cfg.testBit 5) := by
  have hd : src &&& cfg < 256 := lt_of_le_of_lt Nat.and_le_left hs
  obtain ⟨h1, h2, h3⟩ := threshold_modifier_loop_bits (src &&& cfg) hd
  refine ⟨h1, lt_of_le_of_lt h1 (by decide), h2, ?_⟩
  obtain ⟨m, hm, hax⟩ := Option.map_eq_some'.mp h3
  rw [Nat.testBit_and, Nat.testBit_and, Nat.testBit_and] at hax
  refine ⟨m, hm, ?_, hax⟩
  unfold lis331dlh_intel_cln_threshold_event_handler
  dsimp only
  rw [if_neg (by omega), if_neg (by omega), Nat.mod_eq_of_lt hs, Nat.mod_eq_of_lt hc, if_pos hia,
    hm]

/-- C30 at `src = 0x6a` (active, all three high bits) and `cfg = 0x22` (x and
z enabled): the event names x and z. -/
theorem threshold_event_axes_witness :
    threshold_modifier_loop ST_SENSORS_NUMBER_DATA_CHANNELS 0 (0x6a &&& 0x22) = 5 ∧
      lis331dlh_intel_cln_threshold_event_handler 7 (0, 0x6a) (0, 0x22) =
        some (IRQ_HANDLED, some { modifier := .IIO_MOD_X_AND_Z, timestamp := 7 }) := by
  obtain ⟨-, -, h3, m, h4, h5, -⟩ := threshold_event_axes 7 0 0 0x6a 0x22 (by decide) (by decide)
    (by decide) (by decide) (by decide)
  have hm : m = .IIO_MOD_X_AND_Z := by
    have h : iio_modifier_map[threshold_modifier_loop ST_SENSORS_NUMBER_DATA_CHANNELS 0
        (0x6a &&& 0x22)]? = some .IIO_MOD_X_AND_Z := by decide
    rw [h4] at h
    exact Option.some.inj h
  rw [hm] at h5
  exact ⟨h3.trans (by decide), h5⟩

/-! ## The interrupt handler returns -/

theorem isr_keeps_refl (PAGE_SHIFT : Nat) (up : intel_cln_uart) : isr_keeps PAGE_SHIFT up up :=
  ⟨rfl, rfl, id, rfl, le_refl _, le_refl _⟩

theorem isr_keeps_trans (PAGE_SHIFT : Nat) (a b c : intel_cln_uart)
    (h1 : isr_keeps PAGE_SHIFT a b) (h2 : isr_keeps PAGE_SHIFT b c) : isr_keeps PAGE_SHIFT a c := by
  obtain ⟨a1, a2, a3, a4, a5, a6⟩ := h1
  obtain ⟨b1, b2, b3, b4, b5, b6⟩ := h2
  exact ⟨b1.trans a1, b2.trans a2, fun h => b3 (a3 h), b4.trans a4, le_trans b5 a5,
    le_trans b6 a6⟩

theorem isr_ready_keeps (PAGE_SHIFT fuel : Nat) (up u : intel_cln_uart)
    (hr : isr_ready PAGE_SHIFT fuel up) (hk : isr_keeps PAGE_SHIFT up u) :
    isr_ready PAGE_SHIFT fuel u := by
  obtain ⟨r1, r2, r3, r4, r5, r6, r7⟩ := hr
  obtain ⟨k1, k2, k3, k4, k5, k6⟩ := hk
  exact ⟨by rw [k1]; exact r1, by rw [k1]; exact r2, by rw [k2]; exact r3, k3 r4,
    by rw [k4]; exact r5, lt_of_le_of_lt k5 r6, r7⟩

theorem serial_in_keeps (PAGE_SHIFT : Nat) (up : intel_cln_uart) (offset : Nat) :
    isr_keeps PAGE_SHIFT up (serial_in up offset).2 := by
  unfold serial_in
  by_cases h1 : offset = UART_RX
  · rw [if_pos h1]
    split
    · exact isr_keeps_refl _ _
    · rename_i b rest hq
      refine ⟨rfl, rfl, id, rfl, ?_, le_refl _⟩
      show rest.length ≤ up.rx_fifo.length
      rw [hq]; simp
  rw [if_neg h1]
  by_cases h2 : offset = UART_LSR
  · rw [if_pos h2]; exact isr_keeps_refl _ _
  rw [if_neg h2]
  by_cases h3 : offset = UART_IIR
  · rw [if_pos h3]
    split
    · exact ⟨rfl, rfl, id, rfl, le_refl _, le_refl _⟩
    · rename_i v rest hq
      refine ⟨rfl, rfl, id, rfl, le_refl _, ?_⟩
      show rest.length ≤ up.iir_script.length
      rw [hq]; simp
  rw [if_neg h3]
  by_cases h4 : offset = UART_MSR
  · rw [if_pos h4]; exact isr_keeps_refl _ _
  · rw [if_neg h4]; exact isr_keeps_refl _ _

theorem log_event_if_keeps (PAGE_SHIFT : Nat) (c : Bool) (e : isr_event) (up : intel_cln_uart) :
    isr_keeps PAGE_SHIFT up (log_event_if c e up) := by
  unfold log_event_if
  split_ifs
  · exact ⟨rfl, rfl, id, rfl, le_refl _, le_refl _⟩
  · exact isr_keeps_refl _ _

theorem err_ir_keeps (PAGE_SHIFT : Nat) (up : intel_cln_uart) (lsr : Nat) :
    isr_keeps PAGE_SHIFT up (intel_cln_uart_err_ir up lsr) := by
  unfold intel_cln_uart_err_ir
  dsimp only
  have h0 := serial_in_keeps PAGE_SHIFT up UART_FCR
  have h1 : isr_keeps PAGE_SHIFT up (serial_out
      { (serial_in up UART_FCR).2 with
        fcr := (serial_in up UART_FCR).1 % 256 ||| UART_FCR_CLEAR_RCVR } UART_FCR
      ((serial_in up UART_FCR).1 % 256 ||| UART_FCR_CLEAR_RCVR)) := h0
  exact isr_keeps_trans _ _ _ _ (isr_keeps_trans _ _ _ _ (isr_keeps_trans _ _ _ _
    (isr_keeps_trans _ _ _ _ h1 (log_event_if_keeps _ _ _ _)) (log_event_if_keeps _ _ _ _))
    (log_event_if_keeps _ _ _ _)) (log_event_if_keeps _ _ _ _)

theorem dma_rx_keeps (PAGE_SHIFT : Nat) (prep_ok : Bool) (up : intel_cln_uart) :
    isr_keeps PAGE_SHIFT up (intel_cln_uart_dma_rx prep_ok up) := by
  unfold intel_cln_uart_dma_rx
  dsimp only
  split_ifs <;> exact ⟨rfl, rfl, id, rfl, le_refl _, le_refl _⟩

theorem dma_rx_complete_keeps (PAGE_SHIFT : Nat) (up : intel_cln_uart) :
    isr_keeps PAGE_SHIFT up (intel_cln_uart_dma_rx_complete up) ∧
      (intel_cln_uart_dma_rx_complete up).dma_tx_nent = up.dma_tx_nent ∧
      (intel_cln_uart_dma_rx_complete up).sg_tx_p = up.sg_tx_p ∧
      (intel_cln_uart_dma_rx_complete up).tx_descs = up.tx_descs := by
  unfold intel_cln_uart_dma_rx_complete intel_cln_uart_dma_push_rx tty_insert_flip_string
  dsimp only
  split_ifs <;> exact ⟨⟨rfl, rfl, id, rfl, le_refl _, le_refl _⟩, rfl, rfl, rfl⟩


theorem rx_to_loop_returns (PAGE_SHIFT : Nat) :
    ∀ (fuel : Nat) (up : intel_cln_uart), 1 ≤ up.rxbuf.size → up.rx_fifo.length < fuel →
      ∃ u, rx_to_loop fuel up = some u ∧ isr_keeps PAGE_SHIFT up u := by
  intro fuel
  induction fuel with
  | zero => intro up _ h; omega
  | succ fuel ih =>
    intro up hsz hlen
    have hread := hal_read_spec up up.rxbuf.size
    have hk1 : isr_keeps PAGE_SHIFT up (intel_cln_uart_hal_read up up.rxbuf.size).2 := by
      rw [hread]
      refine ⟨rfl, rfl, id, rfl, ?_, le_refl _⟩
      show (up.rx_fifo.drop _).length ≤ _
      rw [List.length_drop]; omega
    by_cases htty : up.tty_present = true
    · obtain ⟨-, -, h3, -, -, -, -, h8, h9⟩ := rx_pass_spec up htty
      have hk2 : isr_keeps PAGE_SHIFT up (rx_pass up) := by
        rw [rx_pass_eq up htty]
        refine ⟨rfl, rfl, id, rfl, ?_, le_refl _⟩
        show (up.rx_fifo.drop _).length ≤ _
        rw [List.length_drop]; omega
      rw [rx_to_loop_succ fuel up htty]
      split_ifs with hfull
      · obtain ⟨u, hu, hk⟩ := ih (rx_pass up) (by rw [h9]; exact hsz)
          (by rw [h3, List.length_drop]; omega)
        exact ⟨u, hu, isr_keeps_trans _ _ _ _ hk2 hk⟩
      · exact ⟨_, rfl, hk2⟩
    · have hbusy : up.tty_present = false := by simpa using htty
      refine ⟨(intel_cln_uart_hal_read up up.rxbuf.size).2, ?_, hk1⟩
      unfold rx_to_loop
      have hp : (intel_cln_uart_hal_read up up.rxbuf.size).2.tty_present = false := by
        rw [hread]; exact hbusy
      have hpush : push_rx (intel_cln_uart_hal_read up up.rxbuf.size).2
          (intel_cln_uart_hal_read up up.rxbuf.size).1 =
          (-EBUSY, (intel_cln_uart_hal_read up up.rxbuf.size).2) := by
        unfold push_rx
        rw [if_pos hp]
      dsimp only
      rw [hpush]
      dsimp only
      rw [if_pos (by decide)]

theorem rx_to_returns (PAGE_SHIFT fuel : Nat) (up : intel_cln_uart) (hsz : 1 ≤ up.rxbuf.size)
    (hlen : up.rx_fifo.length < fuel) :
    ∃ u, intel_cln_uart_rx_to fuel up = some u ∧ isr_keeps PAGE_SHIFT up u := by
  unfold intel_cln_uart_rx_to
  split_ifs
  · exact ⟨_, rfl, rfl, rfl, id, rfl, le_refl _, le_refl _⟩
  · exact rx_to_loop_returns PAGE_SHIFT fuel up hsz hlen

theorem tx_send_x_char_keeps (PAGE_SHIFT : Nat) (up : intel_cln_uart) :
    isr_keeps PAGE_SHIFT up (tx_send_x_char up).2 := by
  by_cases hx : up.port.x_char = 0
  · rw [tx_send_x_char_none up hx]; exact isr_keeps_refl _ _
  · rw [tx_send_x_char_some up hx]; exact ⟨rfl, rfl, id, rfl, le_refl _, le_refl _⟩

theorem dma_tx_submit_keeps (PAGE_SHIFT avail : Nat) (prep_ok : Bool) (f b : Int)
    (up : intel_cln_uart) :
    isr_keeps PAGE_SHIFT up (dma_tx_submit PAGE_SHIFT avail prep_ok f b up) := by
  unfold dma_tx_submit
  dsimp only
  split_ifs <;> exact ⟨rfl, rfl, id, rfl, le_refl _, le_refl _⟩

theorem dma_tx_keeps (PAGE_SHIFT avail : Nat) (prep_ok : Bool) (up : intel_cln_uart)
    (h2 : 2 ≤ up.port.fifosize) (hs : up.port.fifosize < 2 ^ 31) :
    ∃ u, intel_cln_uart_dma_tx PAGE_SHIFT avail prep_ok up = some u ∧
      isr_keeps PAGE_SHIFT up u := by
  have hf := tx_fifo_size_pos up h2 hs
  by_cases hstart : up.start_tx = 0
  · refine ⟨{ thri_disable up with tx_empty := 1 }, ?_, rfl, rfl, id, rfl, le_refl _, le_refl _⟩
    unfold intel_cln_uart_dma_tx
    rw [if_pos hstart]
  · by_cases huse : up.tx_dma_use = 0
    · rw [dma_tx_idle PAGE_SHIFT avail prep_ok up hstart huse]
      have hx := tx_send_x_char_keeps PAGE_SHIFT up
      split_ifs with h1 h3
      · exact ⟨_, rfl, isr_keeps_trans _ _ _ _ hx ⟨rfl, rfl, id, rfl, le_refl _, le_refl _⟩⟩
      · omega
      · exact ⟨_, rfl, isr_keeps_trans _ _ _ _ hx (dma_tx_submit_keeps _ _ _ _ _ _)⟩
    · refine ⟨{ thri_disable up with tx_empty := 1 }, ?_, rfl, rfl, id, rfl, le_refl _,
        le_refl _⟩
      unfold intel_cln_uart_dma_tx
      rw [if_neg hstart, if_pos huse]

theorem pop_tx_keeps (PAGE_SHIFT fuel : Nat) (up : intel_cln_uart) (size : Int)
    (hh : 0 ≤ up.port.xmit.head ∧ up.port.xmit.head < UART_XMIT_SIZE PAGE_SHIFT)
    (ht : 0 ≤ up.port.xmit.tail ∧ up.port.xmit.tail < UART_XMIT_SIZE PAGE_SHIFT) :
    ∃ r, pop_tx PAGE_SHIFT (fuel + 2) up size = some r ∧ isr_keeps PAGE_SHIFT up r.2 := by
  by_cases hstop : up.tx_stopped = true
  · refine ⟨(0, up), ?_, isr_keeps_refl _ _⟩
    unfold pop_tx
    rw [if_pos (Or.inl hstop)]
  · have hstop' : up.tx_stopped = false := by simpa using hstop
    refine ⟨_, pop_tx_spec PAGE_SHIFT fuel up size _ hstop' hh ht rfl, rfl, rfl, fun _ => ?_, rfl,
      le_refl _, le_refl _⟩
    exact ⟨Int.emod_nonneg _ (by omega), Int.emod_lt_of_pos _ (by omega)⟩

theorem tx_finish_keeps (PAGE_SHIFT : Nat) (tx_empty tx_size : Int) (up : intel_cln_uart) :
    isr_keeps PAGE_SHIFT up (tx_finish tx_empty tx_size up) := by
  unfold tx_finish
  dsimp only
  split_ifs <;> exact ⟨rfl, rfl, id, rfl, le_refl _, le_refl _⟩

theorem intel_cln_uart_tx_keeps (PAGE_SHIFT fuel : Nat) (up : intel_cln_uart)
    (hh : 0 ≤ up.port.xmit.head ∧ up.port.xmit.head < UART_XMIT_SIZE PAGE_SHIFT)
    (ht : 0 ≤ up.port.xmit.tail ∧ up.port.xmit.tail < UART_XMIT_SIZE PAGE_SHIFT) :
    ∃ u, intel_cln_uart_tx PAGE_SHIFT (fuel + 2) up = some u ∧ isr_keeps PAGE_SHIFT up u := by
  unfold intel_cln_uart_tx
  by_cases hstart : up.start_tx = 0
  · rw [if_pos hstart]
    exact ⟨_, rfl, rfl, rfl, id, rfl, le_refl _, le_refl _⟩
  · rw [if_neg hstart]
    dsimp only
    have hx := tx_send_x_char_keeps PAGE_SHIFT up
    obtain ⟨r, hr, hk⟩ := pop_tx_keeps PAGE_SHIFT fuel (tx_send_x_char up).2
      (if min ((tx_send_x_char up).2.port.xmit.head - (tx_send_x_char up).2.port.xmit.tail)
            (if (tx_send_x_char up).1 ≠ 0 then max (int_of_u32 up.port.fifosize) 1 - 1
              else max (int_of_u32 up.port.fifosize) 1) < 0 then
          (if (tx_send_x_char up).1 ≠ 0 then max (int_of_u32 up.port.fifosize) 1 - 1
            else max (int_of_u32 up.port.fifosize) 1)
        else min ((tx_send_x_char up).2.port.xmit.head - (tx_send_x_char up).2.port.xmit.tail)
          (if (tx_send_x_char up).1 ≠ 0 then max (int_of_u32 up.port.fifosize) 1 - 1
            else max (int_of_u32 up.port.fifosize) 1))
      (by rw [(tx_send_x_char_xmit up).1]; exact hh)
      (by rw [(tx_send_x_char_xmit up).2]; exact ht)
    rw [hr]
    exact ⟨_, rfl, isr_keeps_trans _ _ _ _ (isr_keeps_trans _ _ _ _ hx hk)
      (tx_finish_keeps _ _ _ _)⟩


theorem dma_interrupt_keeps (PAGE_SHIFT : Nat) (dma : dma_service) (up : intel_cln_uart)
    (htab : up.dma_tx_nent ≤ (up.sg_tx_p.length : Int)) :
    ∃ u, intel_mid_dma_interrupt PAGE_SHIFT dma up = some u ∧ isr_keeps PAGE_SHIFT up u := by
  unfold intel_mid_dma_interrupt
  dsimp only
  have h0 : isr_keeps PAGE_SHIFT up (log_event up .dma_interrupt) ∧
      (log_event up .dma_interrupt).dma_tx_nent = up.dma_tx_nent ∧
      (log_event up .dma_interrupt).sg_tx_p = up.sg_tx_p :=
    ⟨⟨rfl, rfl, id, rfl, le_refl _, le_refl _⟩, rfl, rfl⟩
  generalize hx : (if dma.rx_done = true then dma_rx_retire (log_event up .dma_interrupt)
      else log_event up .dma_interrupt) = x
  have h1 : isr_keeps PAGE_SHIFT up x ∧ x.dma_tx_nent = up.dma_tx_nent ∧
      x.sg_tx_p = up.sg_tx_p := by
    rw [← hx]
    split_ifs
    · unfold dma_rx_retire
      split
      · exact h0
      · rename_i d rest hq
        obtain ⟨k, n, t, -⟩ := dma_rx_complete_keeps PAGE_SHIFT
          { log_event up .dma_interrupt with rx_descs := rest }
        exact ⟨isr_keeps_trans _ _ _ _ ⟨rfl, rfl, id, rfl, le_refl _, le_refl _⟩ k, n, t⟩
    · exact h0
  obtain ⟨k1, n1, t1⟩ := h1
  split_ifs
  · unfold dma_tx_retire
    split
    · exact ⟨x, rfl, k1⟩
    · rename_i d rest hq
      refine ⟨_, tx_complete_eq PAGE_SHIFT { x with tx_descs := rest }
        (by show x.dma_tx_nent ≤ (x.sg_tx_p.length : Int); rw [n1, t1]; exact htab), ?_⟩
      refine isr_keeps_trans _ _ _ _ k1 ⟨rfl, rfl, fun h => ?_, rfl, le_refl _, le_refl _⟩
      exact ⟨Int.emod_nonneg _ (by omega), Int.emod_lt_of_pos _ (by omega)⟩
  · exact ⟨x, rfl, k1⟩

theorem isr_case_returns (PAGE_SHIFT fuel : Nat) (dma : dma_service) (iid ret : Nat)
    (up : intel_cln_uart) (hr : isr_ready PAGE_SHIFT fuel up) :
    ∃ c, isr_case PAGE_SHIFT fuel dma iid ret up = some c ∧ isr_keeps PAGE_SHIFT up c.2 := by
  obtain ⟨r1, r2, r3, r4, r5, r6, r7⟩ := hr
  obtain ⟨f, rfl⟩ : ∃ f, fuel = f + 2 := ⟨fuel - 2, by omega⟩
  have hrx := rx_to_returns PAGE_SHIFT (f + 2) up r5 r6
  unfold isr_case
  dsimp only
  by_cases h1 : iid = INTEL_CLN_UART_IIR_RLS
  · rw [if_pos h1, (serial_in_lsr up).1]
    split_ifs
    · exact ⟨_, rfl, err_ir_keeps _ _ _⟩
    · exact ⟨_, rfl, isr_keeps_refl _ _⟩
  rw [if_neg h1]
  by_cases h2 : iid = INTEL_CLN_UART_IIR_RXD
  · rw [if_pos h2]
    split_ifs
    · exact ⟨_, rfl, dma_rx_keeps _ _ _⟩
    · obtain ⟨u, hu, hk⟩ := hrx
      rw [hu]
      exact ⟨_, rfl, hk⟩
  rw [if_neg h2]
  by_cases h3 : iid = INTEL_CLN_UART_IIR_TO
  · rw [if_pos h3]
    obtain ⟨u, hu, hk⟩ := hrx
    rw [hu]
    exact ⟨_, rfl, hk⟩
  rw [if_neg h3]
  by_cases h4 : iid = INTEL_CLN_UART_IIR_THRE
  · rw [if_pos h4]
    split_ifs
    · obtain ⟨u, hu, hk⟩ := dma_tx_keeps PAGE_SHIFT dma.tx_avail dma.tx_prep_ok up r1 r2
      rw [hu]
      exact ⟨_, rfl, hk⟩
    · obtain ⟨u, hu, hk⟩ := intel_cln_uart_tx_keeps PAGE_SHIFT f up r3 r4
      rw [hu]
      exact ⟨_, rfl, hk⟩
  rw [if_neg h4]
  exact ⟨_, rfl, rfl, rfl, id, rfl, le_refl _, le_refl _⟩

theorem isr_loop_returns (PAGE_SHIFT fuel : Nat) (dma : dma_service) :
    ∀ (n ret : Nat) (up : intel_cln_uart), isr_ready PAGE_SHIFT fuel up →
      up.iir_script.length < n →
      ∃ s, isr_loop PAGE_SHIFT fuel dma n ret up = some s := by
  intro n
  induction n with
  | zero => intro ret up _ h; omega
  | succ n ih =>
    intro ret up hr hn
    rw [isr_loop_succ]
    have hk := serial_in_keeps PAGE_SHIFT up UART_IIR
    split_ifs with hgt
    · obtain ⟨c, hc, hkc⟩ := isr_case_returns PAGE_SHIFT fuel dma (serial_in up UART_IIR).1 ret
        (serial_in up UART_IIR).2 (isr_ready_keeps _ _ _ _ hr hk)
      rw [hc]
      have hlen : (serial_in up UART_IIR).2.iir_script.length < n := by
        cases hq : up.iir_script with
        | nil =>
          rw [serial_in_iir_nil up hq] at hgt
          exact absurd (show INTEL_CLN_UART_IIR_NOIRQ > 1 from hgt) (by decide)
        | cons v rest =>
          rw [serial_in_iir_cons up v rest hq]
          rw [hq] at hn
          simp only [List.length_cons] at hn
          show rest.length < n
          omega
      exact ih c.1 c.2 (isr_ready_keeps _ _ _ _ (isr_ready_keeps _ _ _ _ hr hk) hkc)
        (lt_of_le_of_lt hkc.2.2.2.2.2 hlen)
    · exact ⟨_, rfl⟩

/-- The interrupt handler returns on a ready port whose table holds the
entries of the outstanding descriptor set, when `fuel` exceeds the number of
values the identification register still has to deliver. -/
theorem isr_returns (PAGE_SHIFT fuel : Nat) (dma : dma_service) (up : intel_cln_uart)
    (hr : isr_ready PAGE_SHIFT fuel up) (htab : up.dma_tx_nent ≤ (up.sg_tx_p.length : Int))
    (hn : up.iir_script.length < fuel) :
    ∃ s, intel_cln_uart_isr PAGE_SHIFT fuel dma up = some s := by
  unfold intel_cln_uart_isr
  dsimp only
  by_cases hm : up.mode &&& CLN_UART_MODE_DMA ≠ 0
  · rw [if_pos hm]
    obtain ⟨u, hu, hk⟩ := dma_interrupt_keeps PAGE_SHIFT dma up htab
    rw [hu]
    obtain ⟨s, hs⟩ := isr_loop_returns PAGE_SHIFT fuel dma fuel IRQ_HANDLED u
      (isr_ready_keeps _ _ _ _ hr hk) (lt_of_le_of_lt hk.2.2.2.2.2 hn)
    dsimp only
    rw [hs]
    exact ⟨_, rfl⟩
  · rw [if_neg hm]
    obtain ⟨s, hs⟩ := isr_loop_returns PAGE_SHIFT fuel dma fuel IRQ_HANDLED up hr hn
    dsimp only
    rw [hs]
    exact ⟨_, rfl⟩

/-- C16 (amended).  The DMA controller's interrupt handler is called first,
in DMA mode only.  (a) On a ready port (`isr_ready`: FIFO size from 2 to
0x7fffffff, ring indices inside the ring, a staging buffer of at least one
byte, `fuel` beyond the bytes waiting in the receive FIFO) whose table holds
the entries of the outstanding descriptor set, with `fuel` beyond the number
of values the identification register will deliver, `intel_cln_uart_isr`
returns, for all such values and all answers of the DMA service; in DMA mode
(the DMA bit of the mode word set) it has called the DMA controller's
interrupt handler exactly once, before its first read of the
interrupt-identification register, and in PIO mode (the bit clear) it has
not called it at all; in both modes it has read the identification register
at least once.  (b) The same holds of every invocation that returns, on any
port. -/
theorem isr_dma_handler_in_dma_mode (PAGE_SHIFT fuel : Nat) (dma : dma_service)
    (up : intel_cln_uart) :
    (isr_ready PAGE_SHIFT fuel up → up.dma_tx_nent ≤ (up.sg_tx_p.length : Int) →
      up.iir_script.length < fuel →
      ∃ s evs, intel_cln_uart_isr PAGE_SHIFT fuel dma up = some s ∧
        isr_event.dma_interrupt ∉ evs ∧ (∃ w, isr_event.iir_read w ∈ evs) ∧
        s.2.events =
          up.events ++ (if up.mode &&& CLN_UART_MODE_DMA ≠ 0 then [.dma_interrupt] else []) ++
            evs) ∧
    (∀ s, intel_cln_uart_isr PAGE_SHIFT fuel dma up = some s →
      ∃ evs, isr_event.dma_interrupt ∉ evs ∧ (∃ w, isr_event.iir_read w ∈ evs) ∧
        s.2.events =
          up.events ++ (if up.mode &&& CLN_UART_MODE_DMA ≠ 0 then [.dma_interrupt] else []) ++
            evs) := by
  have part : ∀ s, intel_cln_uart_isr PAGE_SHIFT fuel dma up = some s →
      ∃ evs, isr_event.dma_interrupt ∉ evs ∧ (∃ w, isr_event.iir_read w ∈ evs) ∧
        s.2.events =
          up.events ++ (if up.mode &&& CLN_UART_MODE_DMA ≠ 0 then [.dma_interrupt] else []) ++
            evs := by
    intro s h
    unfold intel_cln_uart_isr at h
    dsimp only at h
    have key : ∀ u : intel_cln_uart,
        (match isr_loop PAGE_SHIFT fuel dma fuel IRQ_HANDLED u with
          | none => none
          | some s => some (s.1, check_modem_status s.2)) = some s →
        ∃ evs, isr_event.dma_interrupt ∉ evs ∧ (∃ w, isr_event.iir_read w ∈ evs) ∧
          s.2.events = u.events ++ evs := by
      intro u hu
      split at hu
      · exact absurd hu (by simp)
      · rename_i l hl
        simp only [Option.some.injEq] at hu
        subst hu
        obtain ⟨e1, w, he, _, hn, _⟩ := isr_loop_events PAGE_SHIFT fuel dma fuel _ u l hl
        obtain ⟨e2, he2, hn2⟩ := check_modem_status_events l.2
        refine ⟨e1 ++ [.iir_read w] ++ e2, ?_, ⟨w, by simp⟩, ?_⟩
        · simp [hn, hn2]
        · show (check_modem_status l.2).events = _
          rw [he2, he]
          simp only [List.append_assoc]
    by_cases hm : up.mode &&& CLN_UART_MODE_DMA ≠ 0
    · rw [if_pos hm] at h
      rw [if_pos hm]
      split at h
      · exact absurd h (by simp)
      · rename_i u hu
        obtain ⟨evs, hn, hw, he⟩ := key u h
        exact ⟨evs, hn, hw, by rw [he, dma_interrupt_events PAGE_SHIFT dma up u hu]⟩
    · rw [if_neg hm] at h
      rw [if_neg hm]
      obtain ⟨evs, hn, hw, he⟩ := key up h
      exact ⟨evs, hn, hw, by rw [he, List.append_nil]⟩
  refine ⟨fun hr htab hn => ?_, part⟩
  obtain ⟨s, hs⟩ := isr_returns PAGE_SHIFT fuel dma up hr htab hn
  obtain ⟨evs, h1, h2, h3⟩ := part s hs
  exact ⟨s, evs, hs, h1, h2, h3⟩

/-- C16 (amended) at a port in DMA mode whose identification register reads
Transmit Holding Register Empty once: the handler returns, with one call of
the DMA controller's handler, first. -/
theorem isr_dma_handler_in_dma_mode_witness :
    ∃ s evs, isr_with [INTEL_CLN_UART_IIR_THRE] dma_pending_service (dma_mode_port empty_ring) =
        some s ∧
      isr_event.dma_interrupt ∉ evs ∧ (∃ w, isr_event.iir_read w ∈ evs) ∧
      s.2.events = [] ++ [isr_event.dma_interrupt] ++ evs :=
  (isr_dma_handler_in_dma_mode 12 3 dma_pending_service
    { dma_mode_port empty_ring with iir_script := [INTEL_CLN_UART_IIR_THRE] }).1
    (by unfold isr_ready; decide) (by decide) (by decide)

end IntelClnUart
